import Mathlib

/-!
# Painter: scan conversion into the 32x32 indexed-colour image

A shallow embedding of `ImageGraphics.cpp`.

* C++ `int` is read as an unbounded `Int` (signed overflow is undefined in
  C++, and none of the properties below relies on it); the `int8_t` edge
  trackers of `fillFlatSideTriangleInt` are reduced with `wrap8` at every
  assignment.
* The only effect of every function is a sequence of stores
  `image[x][y] = colorIndex` with one colour.  A drawing function is
  therefore embedded as the list of index pairs `(x, y)` it stores to, in
  program order; `render` replays such a list on an image.
* Functions that draw through `drawFastHLine` also have a call trace: the
  list of argument triples `(x0, x1, y)` they pass to it.
* The `while` loops of `fillFlatSideTriangleInt` need not terminate; they
  are run for a given number of iterations, and the result tells whether
  the function returned.  The definitions with suffix `Z` run the same
  algorithm over unbounded integers and record whether every value would
  have fitted in an `int8_t`.
* The floating-point evaluation of the split point in
  `fillTriangleIntoImage` is a parameter `interp`; `interpF32` is that
  expression evaluated in binary32 with round-to-nearest-even.
-/

namespace Painter

/-! ## Image -/

/-- Source: `const int WIDTH = 32;` -/
def WIDTH : Int := 32

/-- Source: `const int HEIGHT = 32;` -/
def HEIGHT : Int := 32

/-- Contents of `byte image[WIDTH][HEIGHT]`, addressed by the index pair. -/
abbrev Image := Int → Int → Nat

/-- Single store `image[x][y] = colorIndex`. -/
def setPixel (image : Image) (x y : Int) (colorIndex : Nat) : Image :=
  fun i j => if i = x ∧ j = y then colorIndex else image i j

/-- Replays a list of stores of one colour, first store first. -/
def render (image : Image) (colorIndex : Nat) : List (Int × Int) → Image
  | [] => image
  | p :: ps => render (setPixel image p.1 p.2 colorIndex) colorIndex ps

/-- Index pair is inside `image[WIDTH][HEIGHT]`. -/
def InBounds (p : Int × Int) : Prop :=
  0 ≤ p.1 ∧ p.1 < WIDTH ∧ 0 ≤ p.2 ∧ p.2 < HEIGHT

/-- Store made by `drawPixelIntoImage(x, y, colorIndex)`; no bounds check. -/
def drawPixelIntoImage (x y : Int) : List (Int × Int) := [(x, y)]

/-- Arduino macro `abs(x)`, that is `((x)>0?(x):-(x))`. -/
def iabs (x : Int) : Int := if x > 0 then x else -x

/-- Values taken by `i` in `for (int i = lo; i <= hi; i++)`. -/
def forRange (lo hi : Int) : List Int :=
  (List.range (hi + 1 - lo).toNat).map (fun (k : Nat) => lo + (k : Int))

/-! ## Axis-aligned lines -/

/-- Stores of `drawHardwareHLine`: `image[i][y]` for `i = x0 .. x1`. -/
def drawHardwareHLine (x0 x1 y : Int) : List (Int × Int) :=
  (forRange x0 x1).map (fun i => (i, y))

/-- Stores of `drawHardwareVLine`: `image[x][i]` for `i = y0 .. y1`. -/
def drawHardwareVLine (x y0 y1 : Int) : List (Int × Int) :=
  (forRange y0 y1).map (fun i => (x, i))

/-- Stores of `drawFastHLine(x0, x1, y, colorIndex)`: swap, reject, truncate,
then `drawHardwareHLine`. -/
def drawFastHLine (x0 x1 y : Int) : List (Int × Int) :=
  let a := if x1 < x0 then x1 else x0
  let b := if x1 < x0 then x0 else x1
  if b < 0 ∨ a ≥ WIDTH ∨ y < 0 ∨ y ≥ HEIGHT then []
  else
    drawHardwareHLine (if a < 0 then 0 else a) (if b ≥ WIDTH then WIDTH - 1 else b) y

/-- Stores of `drawFastVLine(x, y0, y1, colorIndex)`. -/
def drawFastVLine (x y0 y1 : Int) : List (Int × Int) :=
  let a := if y1 < y0 then y1 else y0
  let b := if y1 < y0 then y0 else y1
  if b < 0 ∨ a ≥ HEIGHT ∨ x < 0 ∨ x ≥ WIDTH then []
  else
    drawHardwareVLine x (if a < 0 then 0 else a) (if b ≥ HEIGHT then HEIGHT - 1 else b)

/-- The value `v` limited to `[lo, hi]`. -/
def clamp (v lo hi : Int) : Int := if v < lo then lo else if v > hi then hi else v

/-- Stores made by the calls `drawFastHLine(x0, x1, y, c)` of a call trace. -/
def spanPixels (calls : List (Int × Int × Int)) : List (Int × Int) :=
  calls.flatMap (fun s => drawFastHLine s.1 s.2.1 s.2.2)

/-! ## General lines -/

/-- The stepping loop of `bresteepline` and of `drawLineIntoImage`
(`for (int i = 0; i <= ...; i++) { drawPixelIntoImage(..); x++; sum -= Dy;
if (sum < 0) { y = y + prirastokDy; sum += Dx; } }`), with the number of
iterations still to run; `plot x y` is the index pair handed to
`drawPixelIntoImage`. -/
def lineLoop (plot : Int → Int → Int × Int) (Dx Dy prirastokDy : Int) :
    Nat → Int → Int → Int → List (Int × Int)
  | 0, _, _, _ => []
  | n + 1, x, y, sum =>
    plot x y ::
      (if sum - Dy < 0 then
        lineLoop plot Dx Dy prirastokDy n (x + 1) (y + prirastokDy) (sum - Dy + Dx)
      else
        lineLoop plot Dx Dy prirastokDy n (x + 1) y (sum - Dy))

/-- Stores of `bresteepline(x3, y3, x4, y4, colorIndex)`; the pixel call is
`drawPixelIntoImage(y, x, colorIndex)`. -/
def bresteepline (x3 y3 x4 y4 : Int) : List (Int × Int) :=
  if x3 - x4 > 0 then
    bresteepline x4 y4 x3 y3
  else
    lineLoop (fun x y => (y, x)) (2 * (x4 - x3)) (iabs (2 * (y4 - y3)))
      (if y4 - y3 > 0 then 1 else -1) (x4 - x3 + 1).toNat x3 y3 (x4 - x3)
termination_by (if x3 - x4 > 0 then 1 else 0 : Nat)
decreasing_by
  all_goals simp_wf
  all_goals split_ifs <;> omega

/-- Stores of `drawLineIntoImage(x1, y1, x2, y2, colorIndex)`. -/
def drawLineIntoImage (x1 y1 x2 y2 : Int) : List (Int × Int) :=
  if x1 - x2 > 0 then
    drawLineIntoImage x2 y2 x1 y1
  else if iabs (y2 - y1) > iabs (x2 - x1) then
    bresteepline y1 x1 y2 x2
  else
    lineLoop (fun x y => (x, y)) (2 * (x2 - x1)) (iabs (2 * (y2 - y1)))
      (if y2 - y1 > 0 then 1 else -1) (x2 - x1 + 1).toNat x1 y1 (x2 - x1)
termination_by (if x1 - x2 > 0 then 1 else 0 : Nat)
decreasing_by
  all_goals simp_wf
  all_goals split_ifs <;> omega

/-! ## Circles -/

/-- The loop `while (a >= b)` of `drawCircleIntoImage`, from the state
`(a, b, radiusError)`. -/
def drawCircleLoop (x0 y0 : Int) (a b radiusError : Int) : List (Int × Int) :=
  if a ≥ b then
    [(a + x0, b + y0), (b + x0, a + y0), (-a + x0, b + y0), (-b + x0, a + y0),
     (-a + x0, -b + y0), (-b + x0, -a + y0), (a + x0, -b + y0), (b + x0, -a + y0)] ++
      (if radiusError < 0 then
        drawCircleLoop x0 y0 a (b + 1) (radiusError + (2 * (b + 1) + 1))
      else
        drawCircleLoop x0 y0 (a - 1) (b + 1) (radiusError + 2 * ((b + 1) - (a - 1) + 1)))
  else []
termination_by (a - b + 1).toNat
decreasing_by
  all_goals simp_wf
  all_goals omega

/-- Stores of `drawCircleIntoImage(x0, y0, radius, colorIndex)`. -/
def drawCircleIntoImage (x0 y0 radius : Int) : List (Int × Int) :=
  if radius = 0 then [] else drawCircleLoop x0 y0 radius 0 (1 - radius)

/-- The loop `while (a >= b)` of `fillCircleIntoImage`, from the state
`(a, b, radiusError, hlineDrawn)`: its `drawFastHLine` calls. -/
def fillCircleLoop (x0 y0 : Int) (a b radiusError : Int) (hlineDrawn : Bool) :
    List (Int × Int × Int) :=
  if a ≥ b then
    [((a - 1) + x0, (-a + 1) + x0, b + y0), ((a - 1) + x0, (-a + 1) + x0, -b + y0)] ++
      (if b > 1 ∧ hlineDrawn = false then
        [((b - 1) + x0, (-b + 1) + x0, a + y0), ((b - 1) + x0, (-b + 1) + x0, -a + y0)]
      else []) ++
      (if radiusError < 0 then
        fillCircleLoop x0 y0 a (b + 1) (radiusError + (2 * (b + 1) + 1))
          (if b > 1 ∧ hlineDrawn = false then true else hlineDrawn)
      else
        fillCircleLoop x0 y0 (a - 1) (b + 1) (radiusError + 2 * ((b + 1) - (a - 1) + 1)) false)
  else []
termination_by (a - b + 1).toNat
decreasing_by
  all_goals simp_wf
  all_goals omega

/-- Calls of `drawFastHLine` made by `fillCircleIntoImage(x0, y0, radius, c)`;
`hlineDrawn` starts `true`. -/
def fillCircleCalls (x0 y0 radius : Int) : List (Int × Int × Int) :=
  if radius = 0 then [] else fillCircleLoop x0 y0 radius 0 (1 - radius) true

/-- Stores of `fillCircleIntoImage(x0, y0, radius, colorIndex)`. -/
def fillCircleIntoImage (x0 y0 radius : Int) : List (Int × Int) :=
  spanPixels (fillCircleCalls x0 y0 radius)

/-! ## Rectangles -/

/-- Stores of `drawRectIntoImage(x0, y0, x1, y1, colorIndex)`. -/
def drawRectIntoImage (x0 y0 x1 y1 : Int) : List (Int × Int) :=
  drawFastHLine x0 x1 y0 ++ drawFastHLine x0 x1 y1 ++
    drawFastVLine x0 y0 y1 ++ drawFastVLine x1 y0 y1

/-- Calls of `drawFastHLine` made by `fillRectIntoImage(x0, y0, x1, y1, c)`. -/
def fillRectCalls (x0 y0 x1 y1 : Int) : List (Int × Int × Int) :=
  (forRange y0 y1).map (fun i => (x0, x1, i))

/-- Stores of `fillRectIntoImage(x0, y0, x1, y1, colorIndex)`. -/
def fillRectIntoImage (x0 y0 x1 y1 : Int) : List (Int × Int) :=
  spanPixels (fillRectCalls x0 y0 x1 y1)

/-! ## Triangles -/

/-- Stores of `drawTriangleIntoImage`. -/
def drawTriangleIntoImage (x1 y1 x2 y2 x3 y3 : Int) : List (Int × Int) :=
  drawLineIntoImage x1 y1 x2 y2 ++ drawLineIntoImage x2 y2 x3 y3 ++
    drawLineIntoImage x1 y1 x3 y3

/-- Value held by an `int8_t` variable after an `int` is assigned to it. -/
def wrap8 (z : Int) : Int := (z + 128) % 256 - 128

/-- Value held by an `int16_t` variable after an `int` is assigned to it. -/
def wrap16 (z : Int) : Int := (z + 32768) % 65536 - 32768

/-- The loop-invariant data of one edge tracker of `fillFlatSideTriangleInt`:
`changedN`, `signxN`, `signyN`, `dxN`, `dyN` (after the swap). -/
structure Edge where
  changed : Bool
  signx : Int
  signy : Int
  dx : Int
  dy : Int

/-- Set-up of the tracker of the edge from `(x1, y1)` to `(x2, y2)`:
`dx = abs(x2 - x1)`, `dy = abs(y2 - y1)` stored in `int8_t`, the two signs,
and the swap `if (dy > dx) { SWAPint(dx, dy); changed = true; }`. -/
def edgeSetup (x1 y1 x2 y2 : Int) : Edge :=
  let dx := wrap8 (iabs (x2 - x1))
  let dy := wrap8 (iabs (y2 - y1))
  { changed := decide (dy > dx)
    signx := if x2 - x1 < 0 then -1 else 1
    signy := if y2 - y1 < 0 then -1 else 1
    dx := if dy > dx then dy else dx
    dy := if dy > dx then dx else dy }

/-- The loop `while (e >= 0) { if (changed) tx += signx; else ty += signy;
e = e - 2 * dx; }` of one tracker, run for at most the given number of
iterations from `(tx, ty, e)`; `none` when it is still running then. -/
def errorLoop (ed : Edge) : Nat → Int → Int → Int → Option (Int × Int × Int)
  | 0, tx, ty, e => if e ≥ 0 then none else some (tx, ty, e)
  | fuel + 1, tx, ty, e =>
    if e ≥ 0 then
      errorLoop ed fuel (if ed.changed then tx + ed.signx else tx)
        (if ed.changed then ty else ty + ed.signy) (wrap8 (e - 2 * ed.dx))
    else some (tx, ty, e)

/-- The loop `while (t2y != t1y) { while (e2 >= 0) {..} if (changed2)
t2y += signy2; else t2x += signx2; e2 = e2 + 2 * dy2; }`, run for at most
the given number of iterations (each inner loop for at most `inner`);
`none` when it is still running then. -/
def followLoop (inner : Nat) (ed : Edge) (t1y : Int) :
    Nat → Int → Int → Int → Option (Int × Int × Int)
  | 0, t2x, t2y, e2 => if t2y ≠ t1y then none else some (t2x, t2y, e2)
  | fuel + 1, t2x, t2y, e2 =>
    if t2y ≠ t1y then
      match errorLoop ed inner t2x t2y e2 with
      | none => none
      | some r =>
        followLoop inner ed t1y fuel (if ed.changed then r.1 else r.1 + ed.signx)
          (if ed.changed then r.2.1 + ed.signy else r.2.1) (wrap8 (r.2.2 + 2 * ed.dy))
    else some (t2x, t2y, e2)

/-- The loop `for (i = 0; i <= dx1; i++)` of `fillFlatSideTriangleInt` with
the given number of iterations still to run.  Result: the `drawFastHLine`
calls made, and whether the loop ran to its end (`false`: one of the
`while` loops was still running after `fuel` iterations). -/
def spanLoop (fuel : Nat) (ed1 ed2 : Edge) :
    Nat → Int → Int → Int → Int → Int → Int → List (Int × Int × Int) × Bool
  | 0, _, _, _, _, _, _ => ([], true)
  | n + 1, t1x, t1y, e1, t2x, t2y, e2 =>
    match errorLoop ed1 fuel t1x t1y e1 with
    | none => ([(t1x, t2x, t1y)], false)
    | some r =>
      match followLoop fuel ed2 (if ed1.changed then r.2.1 + ed1.signy else r.2.1)
          fuel t2x t2y e2 with
      | none => ([(t1x, t2x, t1y)], false)
      | some q =>
        let rest := spanLoop fuel ed1 ed2 n (if ed1.changed then r.1 else r.1 + ed1.signx)
          (if ed1.changed then r.2.1 + ed1.signy else r.2.1) (wrap8 (r.2.2 + 2 * ed1.dy))
          q.1 q.2.1 q.2.2
        ((t1x, t2x, t1y) :: rest.1, rest.2)

/-- Calls of `drawFastHLine` made by `fillFlatSideTriangleInt(x1, y1, x2, y2,
x3, y3, c)` when every `while` loop is given `fuel` iterations, and whether
the function returned. -/
def fillFlatSideTriangleInt (fuel : Nat) (x1 y1 x2 y2 x3 y3 : Int) :
    List (Int × Int × Int) × Bool :=
  let ed1 := edgeSetup x1 y1 x2 y2
  let ed2 := edgeSetup x1 y1 x3 y3
  spanLoop fuel ed1 ed2 (ed1.dx + 1).toNat x1 y1 (wrap8 (2 * ed1.dy - ed1.dx))
    x1 y1 (wrap8 (2 * ed2.dy - ed2.dx))

/-- The three compare-and-swap steps at the start of `fillTriangleIntoImage`;
result `((x1, y1), (x2, y2), (x3, y3))`. -/
def sortVertices (x1 y1 x2 y2 x3 y3 : Int) : (Int × Int) × (Int × Int) × (Int × Int) :=
  let a1 := if y1 > y2 then (x2, y2) else (x1, y1)
  let a2 := if y1 > y2 then (x1, y1) else (x2, y2)
  let b1 := if a1.2 > y3 then (x3, y3) else a1
  let b3 := if a1.2 > y3 then a1 else (x3, y3)
  let c2 := if a2.2 > b3.2 then b3 else a2
  let c3 := if a2.2 > b3.2 then a2 else b3
  (b1, c2, c3)

/-- Calls of `drawFastHLine` made by `fillTriangleIntoImage(x1, y1, x2, y2,
x3, y3, c)`, and whether it returned.  `interp x1 y1 y2 x3 y3` stands for the
floating-point expression
`(int)(x1 + ((float)(y2 - y1) / (float)(y3 - y1)) * (x3 - x1))`, which is
assigned to the `int16_t xtmp`. -/
def fillTriangleIntoImage (fuel : Nat) (interp : Int → Int → Int → Int → Int → Int)
    (x1 y1 x2 y2 x3 y3 : Int) : List (Int × Int × Int) × Bool :=
  let s := sortVertices x1 y1 x2 y2 x3 y3
  let x1 := s.1.1
  let y1 := s.1.2
  let x2 := s.2.1.1
  let y2 := s.2.1.2
  let x3 := s.2.2.1
  let y3 := s.2.2.2
  if y2 = y3 then
    fillFlatSideTriangleInt fuel x1 y1 x2 y2 x3 y3
  else if y1 = y2 then
    fillFlatSideTriangleInt fuel x3 y3 x1 y1 x2 y2
  else
    let xtmp := wrap16 (interp x1 y1 y2 x3 y3)
    let ytmp := wrap16 y2
    let r1 := fillFlatSideTriangleInt fuel x1 y1 x2 y2 xtmp ytmp
    if r1.2 then
      let r2 := fillFlatSideTriangleInt fuel x3 y3 x2 y2 xtmp ytmp
      (r1.1 ++ r2.1, r2.2)
    else r1

/-- The flat-side shortcut of `fillTriangleIntoImage` (its branches
`if (y2 == y3)` and `else if (y1 == y2)`), applied to sorted vertices. -/
def fillTriangleFlat (fuel : Nat) (x1 y1 x2 y2 x3 y3 : Int) : List (Int × Int × Int) × Bool :=
  if y2 = y3 then
    fillFlatSideTriangleInt fuel x1 y1 x2 y2 x3 y3
  else
    fillFlatSideTriangleInt fuel x3 y3 x1 y1 x2 y2

/-- The general branch of `fillTriangleIntoImage` (its last `else` block:
split point, then two `fillFlatSideTriangleInt` calls), applied to sorted
vertices. -/
def fillTriangleSplit (fuel : Nat) (interp : Int → Int → Int → Int → Int → Int)
    (x1 y1 x2 y2 x3 y3 : Int) : List (Int × Int × Int) × Bool :=
  let xtmp := wrap16 (interp x1 y1 y2 x3 y3)
  let ytmp := wrap16 y2
  let r1 := fillFlatSideTriangleInt fuel x1 y1 x2 y2 xtmp ytmp
  if r1.2 then
    let r2 := fillFlatSideTriangleInt fuel x3 y3 x2 y2 xtmp ytmp
    (r1.1 ++ r2.1, r2.2)
  else r1

/-- A finite binary floating-point value `m * 2^e`. -/
structure Float32 where
  m : Int
  e : Int

/-- Scaling of the positive fraction `a / b` by powers of two into the range
of a 24-bit significand, in at most the given number of steps: the result
`(a2, b2, e)` has `a / b = (a2 / b2) * 2^e` and, once the steps suffice,
`2^23 <= a2 / b2 < 2^24`. -/
def normalise : Nat → Nat → Nat → Int → Nat × Nat × Int
  | 0, a, b, e => (a, b, e)
  | f + 1, a, b, e =>
    if a ≥ 2 ^ 24 * b then normalise f a (2 * b) (e + 1)
    else if a < 2 ^ 23 * b then normalise f (2 * a) b (e - 1)
    else (a, b, e)

/-- The fraction `a / b` rounded to the nearest integer, a tie going to the
even neighbour. -/
def roundHalfEven (a b : Nat) : Nat :=
  if 2 * (a % b) < b then a / b
  else if 2 * (a % b) > b then a / b + 1
  else if (a / b) % 2 = 0 then a / b else a / b + 1

/-- The binary32 value nearest to `(p / q) * 2^e0`, ties to even: the
rounding that every `float` conversion and operation applies to its exact
result.  The exponent is not bounded (no value computed from `int` operands
in `fillTriangleIntoImage` overflows or is subnormal), and a zero divisor,
which the code never has, gives zero. -/
def roundF32 (p : Int) (q : Nat) (e0 : Int) : Float32 :=
  if p = 0 ∨ q = 0 then ⟨0, 0⟩
  else
    let n := normalise (p.natAbs + q + 24) p.natAbs q 0
    ⟨(if p < 0 then -1 else 1) * (roundHalfEven n.1 n.2.1 : Int), n.2.2 + e0⟩

/-- Conversion `(float)n` of an `int`. -/
def ofInt (n : Int) : Float32 := roundF32 n 1 0

/-- Division `x / y` of two `float` values. -/
def fdiv (x y : Float32) : Float32 :=
  roundF32 (if y.m < 0 then -x.m else x.m) y.m.natAbs (x.e - y.e)

/-- Multiplication `x * y` of two `float` values. -/
def fmul (x y : Float32) : Float32 := roundF32 (x.m * y.m) 1 (x.e + y.e)

/-- Addition `x + y` of two `float` values. -/
def fadd (x y : Float32) : Float32 :=
  roundF32 (x.m * 2 ^ (x.e - min x.e y.e).toNat + y.m * 2 ^ (y.e - min x.e y.e).toNat) 1
    (min x.e y.e)

/-- Conversion `(int)x` of a `float`: truncation toward zero. -/
def toInt (x : Float32) : Int :=
  if 0 ≤ x.e then x.m * 2 ^ x.e.toNat else Int.tdiv x.m (2 ^ (-x.e).toNat)

/-- The expression
`(int)(x1 + ((float)(y2 - y1) / (float)(y3 - y1)) * (x3 - x1))` of
`fillTriangleIntoImage`, evaluated in binary32 as written: the two casts
and the division, the conversion of `x3 - x1` and the multiplication, the
conversion of `x1` and the addition, each rounded to nearest, then the
truncation to `int`. -/
def interpF32 (x1 y1 y2 x3 y3 : Int) : Int :=
  toInt (fadd (ofInt x1) (fmul (fdiv (ofInt (y2 - y1)) (ofInt (y3 - y1))) (ofInt (x3 - x1))))

/-- Value fits in an `int8_t`. -/
def inInt8 (z : Int) : Bool := decide (-128 ≤ z ∧ z ≤ 127)

/-- `edgeSetup` over unbounded integers: no reduction to 8 bits. -/
def edgeSetupZ (x1 y1 x2 y2 : Int) : Edge :=
  let dx := iabs (x2 - x1)
  let dy := iabs (y2 - y1)
  { changed := decide (dy > dx)
    signx := if x2 - x1 < 0 then -1 else 1
    signy := if y2 - y1 < 0 then -1 else 1
    dx := if dy > dx then dy else dx
    dy := if dy > dx then dx else dy }

/-- `errorLoop` over unbounded integers.  The Boolean tells whether every
value assigned to `e` fitted in an `int8_t`. -/
def errorLoopZ (ed : Edge) : Nat → Int → Int → Int → Option (Int × Int × Int) × Bool
  | 0, tx, ty, e => (if e ≥ 0 then none else some (tx, ty, e), true)
  | fuel + 1, tx, ty, e =>
    if e ≥ 0 then
      let r := errorLoopZ ed fuel (if ed.changed then tx + ed.signx else tx)
        (if ed.changed then ty else ty + ed.signy) (e - 2 * ed.dx)
      (r.1, inInt8 (e - 2 * ed.dx) && r.2)
    else (some (tx, ty, e), true)

/-- `followLoop` over unbounded integers, with the same range flag. -/
def followLoopZ (inner : Nat) (ed : Edge) (t1y : Int) :
    Nat → Int → Int → Int → Option (Int × Int × Int) × Bool
  | 0, t2x, t2y, e2 => (if t2y ≠ t1y then none else some (t2x, t2y, e2), true)
  | fuel + 1, t2x, t2y, e2 =>
    if t2y ≠ t1y then
      let w := errorLoopZ ed inner t2x t2y e2
      match w.1 with
      | none => (none, w.2)
      | some r =>
        let q := followLoopZ inner ed t1y fuel (if ed.changed then r.1 else r.1 + ed.signx)
          (if ed.changed then r.2.1 + ed.signy else r.2.1) (r.2.2 + 2 * ed.dy)
        (q.1, w.2 && inInt8 (r.2.2 + 2 * ed.dy) && q.2)
    else (some (t2x, t2y, e2), true)

/-- `spanLoop` over unbounded integers: the `drawFastHLine` calls, whether
the loop ran to its end, and the range flag. -/
def spanLoopZ (fuel : Nat) (ed1 ed2 : Edge) :
    Nat → Int → Int → Int → Int → Int → Int → List (Int × Int × Int) × Bool × Bool
  | 0, _, _, _, _, _, _ => ([], true, true)
  | n + 1, t1x, t1y, e1, t2x, t2y, e2 =>
    let w := errorLoopZ ed1 fuel t1x t1y e1
    match w.1 with
    | none => ([(t1x, t2x, t1y)], false, w.2)
    | some r =>
      let v := followLoopZ fuel ed2 (if ed1.changed then r.2.1 + ed1.signy else r.2.1)
        fuel t2x t2y e2
      match v.1 with
      | none => ([(t1x, t2x, t1y)], false, w.2 && inInt8 (r.2.2 + 2 * ed1.dy) && v.2)
      | some q =>
        let rest := spanLoopZ fuel ed1 ed2 n (if ed1.changed then r.1 else r.1 + ed1.signx)
          (if ed1.changed then r.2.1 + ed1.signy else r.2.1) (r.2.2 + 2 * ed1.dy)
          q.1 q.2.1 q.2.2
        ((t1x, t2x, t1y) :: rest.1, rest.2.1,
          w.2 && inInt8 (r.2.2 + 2 * ed1.dy) && v.2 && rest.2.2)

/-- `fillFlatSideTriangleInt` run over unbounded integers in place of the
`int8_t` variables `dx1, dy1, dx2, dy2, e1, e2`: the `drawFastHLine` calls,
whether the function returned, and whether every value assigned to one of
those variables fitted in an `int8_t`. -/
def fillFlatSideTriangleIntZ (fuel : Nat) (x1 y1 x2 y2 x3 y3 : Int) :
    List (Int × Int × Int) × Bool × Bool :=
  let ed1 := edgeSetupZ x1 y1 x2 y2
  let ed2 := edgeSetupZ x1 y1 x3 y3
  let r := spanLoopZ fuel ed1 ed2 (ed1.dx + 1).toNat x1 y1 (2 * ed1.dy - ed1.dx)
    x1 y1 (2 * ed2.dy - ed2.dx)
  (r.1, r.2.1,
    inInt8 (iabs (x2 - x1)) && inInt8 (iabs (y2 - y1)) && inInt8 (iabs (x3 - x1)) &&
      inInt8 (iabs (y3 - y1)) && inInt8 (2 * ed1.dy - ed1.dx) &&
      inInt8 (2 * ed2.dy - ed2.dx) && r.2.2)

/-- Side condition on an edge tracker under which the `int8_t` arithmetic of
`fillFlatSideTriangleInt` never wraps: after the swap `0 <= dy <= dx`, and
`0 < dx <= 63`. -/
structure Edge.Tame (ed : Edge) : Prop where
  dy_nonneg : 0 ≤ ed.dy
  dy_le : ed.dy ≤ ed.dx
  dx_pos : 0 < ed.dx
  dx_le : ed.dx ≤ 63

/-- The pixel at major-axis offset `k` and minor-axis offset `m` from the
starting end point lies within half a pixel of the exact line with major
extent `D >= 0` and minor extent `d`: `0 <= k <= D`,
`|2*(m*D - k*d)| <= D`, and an exact half-way tie is resolved by not
stepping, `2*(|m|*D - k*|d|) < D` (for `D > 0`). -/
def NearestOnLine (D d k m : Int) : Prop :=
  0 ≤ k ∧ k ≤ D ∧ |2 * (m * D - k * d)| ≤ D ∧ (0 < D → 2 * (|m| * D - k * |d|) < D)

/-! ## Basic facts -/

theorem mem_forRange (lo hi i : Int) : i ∈ forRange lo hi ↔ lo ≤ i ∧ i ≤ hi := by
  unfold forRange
  simp only [List.mem_map, List.mem_range]
  constructor
  · rintro ⟨k, hk, rfl⟩
    omega
  · intro h
    exact ⟨(i - lo).toNat, by omega, by omega⟩

theorem length_forRange (lo hi : Int) : (forRange lo hi).length = (hi + 1 - lo).toNat := by
  simp [forRange]

theorem render_apply (image : Image) (c : Nat) (ws : List (Int × Int)) (i j : Int) :
    render image c ws i j = if (i, j) ∈ ws then c else image i j := by
  induction ws generalizing image with
  | nil => simp [render]
  | cons p ps ih =>
    rw [render, ih]
    by_cases h : (i, j) ∈ ps
    · simp [h]
    · by_cases h2 : (i, j) = p
      · subst h2
        simp [h, setPixel]
      · have h3 : ¬ (i = p.1 ∧ j = p.2) := by
          rintro ⟨rfl, rfl⟩
          exact h2 rfl
        simp [h, h2, setPixel, h3]

theorem mem_drawHardwareHLine (x0 x1 y i j : Int) :
    (i, j) ∈ drawHardwareHLine x0 x1 y ↔ j = y ∧ x0 ≤ i ∧ i ≤ x1 := by
  unfold drawHardwareHLine
  simp only [List.mem_map, mem_forRange, Prod.mk.injEq]
  constructor
  · rintro ⟨k, hk, rfl, rfl⟩
    exact ⟨rfl, hk⟩
  · rintro ⟨rfl, h⟩
    exact ⟨i, h, rfl, rfl⟩

theorem mem_drawHardwareVLine (x y0 y1 i j : Int) :
    (i, j) ∈ drawHardwareVLine x y0 y1 ↔ i = x ∧ y0 ≤ j ∧ j ≤ y1 := by
  unfold drawHardwareVLine
  simp only [List.mem_map, mem_forRange, Prod.mk.injEq]
  constructor
  · rintro ⟨k, hk, rfl, rfl⟩
    exact ⟨rfl, hk⟩
  · rintro ⟨rfl, h⟩
    exact ⟨j, h, rfl, rfl⟩

theorem mem_drawFastHLine (x0 x1 y i j : Int) :
    (i, j) ∈ drawFastHLine x0 x1 y ↔
      j = y ∧ 0 ≤ y ∧ y < HEIGHT ∧ max 0 (min x0 x1) ≤ i ∧ i ≤ min (WIDTH - 1) (max x0 x1) := by
  unfold drawFastHLine
  simp only [WIDTH, HEIGHT]
  split_ifs <;> simp only [mem_drawHardwareHLine, List.not_mem_nil] <;> constructor <;> intro hh <;>
    first | exact hh.elim | omega

theorem mem_drawFastVLine (x y0 y1 i j : Int) :
    (i, j) ∈ drawFastVLine x y0 y1 ↔
      i = x ∧ 0 ≤ x ∧ x < WIDTH ∧ max 0 (min y0 y1) ≤ j ∧ j ≤ min (HEIGHT - 1) (max y0 y1) := by
  unfold drawFastVLine
  simp only [WIDTH, HEIGHT]
  split_ifs <;> simp only [mem_drawHardwareVLine, List.not_mem_nil] <;> constructor <;> intro hh <;>
    first | exact hh.elim | omega

theorem nodup_forRange (lo hi : Int) : (forRange lo hi).Nodup := by
  unfold forRange
  refine List.Nodup.map ?_ (List.nodup_range _)
  intro a b h
  simp only at h
  omega

theorem mem_spanPixels (calls : List (Int × Int × Int)) (p : Int × Int) :
    p ∈ spanPixels calls ↔ ∃ s ∈ calls, p ∈ drawFastHLine s.1 s.2.1 s.2.2 := by
  simp [spanPixels, List.mem_flatMap]

theorem inBounds_of_mem_drawFastHLine {x0 x1 y : Int} {p : Int × Int}
    (h : p ∈ drawFastHLine x0 x1 y) : InBounds p := by
  obtain ⟨i, j⟩ := p
  rw [mem_drawFastHLine] at h
  simp only [InBounds, WIDTH, HEIGHT] at *
  omega

theorem inBounds_of_mem_drawFastVLine {x y0 y1 : Int} {p : Int × Int}
    (h : p ∈ drawFastVLine x y0 y1) : InBounds p := by
  obtain ⟨i, j⟩ := p
  rw [mem_drawFastVLine] at h
  simp only [InBounds, WIDTH, HEIGHT] at *
  omega

theorem inBounds_of_mem_spanPixels {calls : List (Int × Int × Int)} {p : Int × Int}
    (h : p ∈ spanPixels calls) : InBounds p := by
  rw [mem_spanPixels] at h
  obtain ⟨s, -, hs⟩ := h
  exact inBounds_of_mem_drawFastHLine hs

theorem drawFastHLine_eq (x0 x1 y : Int) (hy : 0 ≤ y ∧ y < HEIGHT) :
    drawFastHLine x0 x1 y =
      (forRange (max 0 (min x0 x1)) (min (WIDTH - 1) (max x0 x1))).map (fun i => (i, y)) := by
  unfold drawFastHLine drawHardwareHLine
  simp only [WIDTH, HEIGHT] at *
  have hfr : ∀ a b a' b' : Int, a = a' → b = b' → forRange a b = forRange a' b' := by
    intro a b a' b' h1 h2
    rw [h1, h2]
  split_ifs with h1 h2 h3 h4 h5 h6 h7 h8 h9
  all_goals first
    | (congr 1; apply hfr <;> omega)
    | (have he : forRange (max 0 (min x0 x1)) (min (32 - 1) (max x0 x1)) = [] := by
        unfold forRange
        have : (min (32 - 1) (max x0 x1) + 1 - max 0 (min x0 x1)).toNat = 0 := by omega
        rw [this]
        rfl
       rw [he]
       rfl)

theorem drawFastVLine_eq (x y0 y1 : Int) (hx : 0 ≤ x ∧ x < WIDTH) :
    drawFastVLine x y0 y1 =
      (forRange (max 0 (min y0 y1)) (min (HEIGHT - 1) (max y0 y1))).map (fun i => (x, i)) := by
  unfold drawFastVLine drawHardwareVLine
  simp only [WIDTH, HEIGHT] at *
  have hfr : ∀ a b a' b' : Int, a = a' → b = b' → forRange a b = forRange a' b' := by
    intro a b a' b' h1 h2
    rw [h1, h2]
  split_ifs with h1 h2 h3 h4 h5 h6 h7 h8 h9
  all_goals first
    | (congr 1; apply hfr <;> omega)
    | (have he : forRange (max 0 (min y0 y1)) (min (32 - 1) (max y0 y1)) = [] := by
        unfold forRange
        have : (min (32 - 1) (max y0 y1) + 1 - max 0 (min y0 y1)).toNat = 0 := by omega
        rw [this]
        rfl
       rw [he]
       rfl)

theorem drawFastHLine_comm (x0 x1 y : Int) : drawFastHLine x1 x0 y = drawFastHLine x0 x1 y := by
  unfold drawFastHLine
  rcases lt_trichotomy x0 x1 with h | h | h
  · simp [h, not_lt.mpr h.le]
  · subst h
    rfl
  · simp [h, not_lt.mpr h.le]

theorem drawFastVLine_comm (x y0 y1 : Int) : drawFastVLine x y1 y0 = drawFastVLine x y0 y1 := by
  unfold drawFastVLine
  rcases lt_trichotomy y0 y1 with h | h | h
  · simp [h, not_lt.mpr h.le]
  · subst h
    rfl
  · simp [h, not_lt.mpr h.le]

/-! ## Clipped axis lines: C1, C7, C8 -/

/-- C1: with the fixed coordinate in bounds and the run meeting the canvas,
`drawFastHLine(x0, x1, y, c)` stores `c` to exactly the pixels `(i, y)` with
`max(0, min(x0,x1)) <= i <= min(WIDTH-1, max(x0,x1))` (this run is not
empty), every other pixel keeps its value, and the order of the two
endpoints does not matter; the same holds for `drawFastVLine` with the axes
exchanged. -/
theorem drawFastLine_clipped_effect (image : Image) (c : Nat) (x0 x1 y x y0 y1 : Int)
    (hy : 0 ≤ y ∧ y < HEIGHT) (hmax : max x0 x1 ≥ 0) (hmin : min x0 x1 < WIDTH)
    (hx : 0 ≤ x ∧ x < WIDTH) (hvmax : max y0 y1 ≥ 0) (hvmin : min y0 y1 < HEIGHT) :
    (∀ i j, render image c (drawFastHLine x0 x1 y) i j =
        if j = y ∧ max 0 (min x0 x1) ≤ i ∧ i ≤ min (WIDTH - 1) (max x0 x1) then c
        else image i j) ∧
    (max 0 (min x0 x1), y) ∈ drawFastHLine x0 x1 y ∧
    drawFastHLine x1 x0 y = drawFastHLine x0 x1 y ∧
    (∀ i j, render image c (drawFastVLine x y0 y1) i j =
        if i = x ∧ max 0 (min y0 y1) ≤ j ∧ j ≤ min (HEIGHT - 1) (max y0 y1) then c
        else image i j) ∧
    (x, max 0 (min y0 y1)) ∈ drawFastVLine x y0 y1 ∧
    drawFastVLine x y1 y0 = drawFastVLine x y0 y1 := by
  refine ⟨?_, ?_, drawFastHLine_comm x0 x1 y, ?_, ?_, drawFastVLine_comm x y0 y1⟩
  · intro i j
    rw [render_apply]
    by_cases h : (i, j) ∈ drawFastHLine x0 x1 y
    · have h2 := (mem_drawFastHLine x0 x1 y i j).1 h
      rw [if_pos h, if_pos ⟨h2.1, h2.2.2.2⟩]
    · have h2 : ¬ (j = y ∧ max 0 (min x0 x1) ≤ i ∧ i ≤ min (WIDTH - 1) (max x0 x1)) :=
        fun h3 => h ((mem_drawFastHLine x0 x1 y i j).2 ⟨h3.1, hy.1, hy.2, h3.2⟩)
      rw [if_neg h, if_neg h2]
  · rw [mem_drawFastHLine]
    simp only [WIDTH, HEIGHT] at *
    refine ⟨trivial, ?_, ?_, ?_, ?_⟩ <;> omega
  · intro i j
    rw [render_apply]
    by_cases h : (i, j) ∈ drawFastVLine x y0 y1
    · have h2 := (mem_drawFastVLine x y0 y1 i j).1 h
      rw [if_pos h, if_pos ⟨h2.1, h2.2.2.2⟩]
    · have h2 : ¬ (i = x ∧ max 0 (min y0 y1) ≤ j ∧ j ≤ min (HEIGHT - 1) (max y0 y1)) :=
        fun h3 => h ((mem_drawFastVLine x y0 y1 i j).2 ⟨h3.1, hx.1, hx.2, h3.2⟩)
      rw [if_neg h, if_neg h2]
  · rw [mem_drawFastVLine]
    simp only [WIDTH, HEIGHT] at *
    refine ⟨trivial, ?_, ?_, ?_, ?_⟩ <;> omega

/-- C1, concrete instance: `drawFastHLine(-5, 40, 5, c)` stores to exactly the
columns 0..31 of row 5, and `drawFastVLine(3, 50, -2, c)` to the rows 0..31
of column 3. -/
theorem drawFastLine_clipped_effect_witness :
    ((0 : Int) ≤ 5 ∧ (5 : Int) < HEIGHT) ∧ max (-5 : Int) 40 ≥ 0 ∧ min (-5 : Int) 40 < WIDTH ∧
    ((0 : Int) ≤ 3 ∧ (3 : Int) < WIDTH) ∧ max (50 : Int) (-2) ≥ 0 ∧ min (50 : Int) (-2) < HEIGHT ∧
    drawFastHLine (-5) 40 5 = (List.range 32).map (fun (k : Nat) => ((k : Int), (5 : Int))) ∧
    (∀ i j, render (fun _ _ => 0) 7 (drawFastHLine (-5) 40 5) i j =
        if j = 5 ∧ max 0 (min (-5) 40) ≤ i ∧ i ≤ min (WIDTH - 1) (max (-5) 40) then 7
        else 0) ∧
    (∀ i j, render (fun _ _ => 0) 7 (drawFastVLine 3 50 (-2)) i j =
        if i = 3 ∧ max 0 (min 50 (-2)) ≤ j ∧ j ≤ min (HEIGHT - 1) (max 50 (-2)) then 7
        else 0) := by
  have h := drawFastLine_clipped_effect (fun _ _ => 0) 7 (-5) 40 5 3 50 (-2)
    (by decide) (by decide) (by decide) (by decide) (by decide) (by decide)
  exact ⟨by decide, by decide, by decide, by decide, by decide, by decide, by decide,
    h.1, h.2.2.2.1⟩

/-- C7: with the fixed coordinate in bounds, the stores of `drawFastHLine(x0,
x1, y, c)` are pairwise distinct and their number is
`clamp(max(x0,x1),0,W-1) - clamp(min(x0,x1),0,W-1) + 1`, and zero when the
run truncated to `[0, W-1]`, from `max(min(x0,x1), 0)` to
`min(max(x0,x1), W-1)`, is empty; likewise `drawFastVLine` with the axes
exchanged. -/
theorem drawFastLine_count (x0 x1 y x y0 y1 : Int)
    (hy : 0 ≤ y ∧ y < HEIGHT) (hx : 0 ≤ x ∧ x < WIDTH) :
    (drawFastHLine x0 x1 y).Nodup ∧
    ((drawFastHLine x0 x1 y).length : Int) =
      (if min (max x0 x1) (WIDTH - 1) < max (min x0 x1) 0 then 0
       else clamp (max x0 x1) 0 (WIDTH - 1) - clamp (min x0 x1) 0 (WIDTH - 1) + 1) ∧
    (drawFastVLine x y0 y1).Nodup ∧
    ((drawFastVLine x y0 y1).length : Int) =
      (if min (max y0 y1) (HEIGHT - 1) < max (min y0 y1) 0 then 0
       else clamp (max y0 y1) 0 (HEIGHT - 1) - clamp (min y0 y1) 0 (HEIGHT - 1) + 1) := by
  rw [drawFastHLine_eq x0 x1 y hy, drawFastVLine_eq x y0 y1 hx]
  refine ⟨?_, ?_, ?_, ?_⟩
  · refine List.Nodup.map ?_ (nodup_forRange _ _)
    intro a b h
    exact congrArg Prod.fst h
  · rw [List.length_map, length_forRange]
    unfold clamp
    simp only [WIDTH]
    split_ifs <;> omega
  · refine List.Nodup.map ?_ (nodup_forRange _ _)
    intro a b h
    exact congrArg Prod.snd h
  · rw [List.length_map, length_forRange]
    unfold clamp
    simp only [HEIGHT]
    split_ifs <;> omega

/-- C7, concrete instances: a run cut at both ends has 32 stores, a run that
lies left of the canvas has none. -/
theorem drawFastLine_count_witness :
    ((0 : Int) ≤ 5 ∧ (5 : Int) < HEIGHT) ∧ ((0 : Int) ≤ 3 ∧ (3 : Int) < WIDTH) ∧
    ((drawFastHLine (-5) 40 5).length : Int) = 32 ∧
    ((drawFastVLine 3 (-10) (-5)).length : Int) = 0 := by
  have h := drawFastLine_count (-5) 40 5 3 (-10) (-5) (by decide) (by decide)
  refine ⟨by decide, by decide, ?_, ?_⟩
  · rw [h.2.1]
    decide
  · rw [h.2.2.2]
    decide

/-- C8: `drawFastHLine` stores nothing, so the image is unchanged, when `y`
is outside `[0, HEIGHT)` or the whole run is outside the canvas
(`max(x0,x1) < 0` or `min(x0,x1) >= WIDTH`); `drawFastVLine` likewise when
`x` is outside `[0, WIDTH)` or the whole run is outside `[0, HEIGHT)`. -/
theorem drawFastLine_noop (image : Image) (c : Nat) (x0 x1 y x y0 y1 : Int)
    (h : y < 0 ∨ y ≥ HEIGHT ∨ max x0 x1 < 0 ∨ min x0 x1 ≥ WIDTH)
    (hv : x < 0 ∨ x ≥ WIDTH ∨ max y0 y1 < 0 ∨ min y0 y1 ≥ HEIGHT) :
    drawFastHLine x0 x1 y = [] ∧ render image c (drawFastHLine x0 x1 y) = image ∧
    drawFastVLine x y0 y1 = [] ∧ render image c (drawFastVLine x y0 y1) = image := by
  have h1 : drawFastHLine x0 x1 y = [] := by
    unfold drawFastHLine
    simp only [WIDTH, HEIGHT] at *
    split_ifs <;> first | rfl | omega
  have h2 : drawFastVLine x y0 y1 = [] := by
    unfold drawFastVLine
    simp only [WIDTH, HEIGHT] at *
    split_ifs <;> first | rfl | omega
  rw [h1, h2]
  exact ⟨rfl, rfl, rfl, rfl⟩

/-- C8, concrete instances: a row below the canvas, and a vertical run that
lies wholly above it. -/
theorem drawFastLine_noop_witness :
    ((32 : Int) < 0 ∨ (32 : Int) ≥ HEIGHT ∨ max (0 : Int) 31 < 0 ∨ min (0 : Int) 31 ≥ WIDTH) ∧
    ((5 : Int) < 0 ∨ (5 : Int) ≥ WIDTH ∨ max (-9 : Int) (-1) < 0 ∨ min (-9 : Int) (-1) ≥ HEIGHT) ∧
    drawFastHLine 0 31 32 = [] ∧ render (fun _ _ => 0) 7 (drawFastHLine 0 31 32) = (fun _ _ => 0) ∧
    drawFastVLine 5 (-9) (-1) = [] ∧
    render (fun _ _ => 0) 7 (drawFastVLine 5 (-9) (-1)) = (fun _ _ => 0) :=
  ⟨by decide, by decide,
    drawFastLine_noop (fun _ _ => 0) 7 0 31 32 5 (-9) (-1) (by decide) (by decide)⟩

/-! ## Bounds safety of the clipped primitives: C2 -/

/-- C2: every store made by `drawFastHLine`, by `drawFastVLine` and by the
functions that write only through them (`fillCircleIntoImage`,
`drawRectIntoImage`, `fillRectIntoImage`, and the spans emitted by
`fillFlatSideTriangleInt` and `fillTriangleIntoImage`, whatever number of
loop iterations they have run and whether or not they return) has
`0 <= x < WIDTH` and `0 <= y < HEIGHT`, for all integer arguments. -/
theorem clipped_primitives_inBounds (fuel : Nat)
    (interp : Int → Int → Int → Int → Int → Int) (a b c d e f : Int) (p : Int × Int) :
    (p ∈ drawFastHLine a b c → InBounds p) ∧
    (p ∈ drawFastVLine a b c → InBounds p) ∧
    (p ∈ fillCircleIntoImage a b c → InBounds p) ∧
    (p ∈ drawRectIntoImage a b c d → InBounds p) ∧
    (p ∈ fillRectIntoImage a b c d → InBounds p) ∧
    (p ∈ spanPixels (fillFlatSideTriangleInt fuel a b c d e f).1 → InBounds p) ∧
    (p ∈ spanPixels (fillTriangleIntoImage fuel interp a b c d e f).1 → InBounds p) := by
  refine ⟨inBounds_of_mem_drawFastHLine, inBounds_of_mem_drawFastVLine,
    inBounds_of_mem_spanPixels, ?_, inBounds_of_mem_spanPixels, inBounds_of_mem_spanPixels,
    inBounds_of_mem_spanPixels⟩
  intro h
  unfold drawRectIntoImage at h
  simp only [List.mem_append] at h
  rcases h with ((h | h) | h) | h
  · exact inBounds_of_mem_drawFastHLine h
  · exact inBounds_of_mem_drawFastHLine h
  · exact inBounds_of_mem_drawFastVLine h
  · exact inBounds_of_mem_drawFastVLine h

/-- C2, concrete instances: stores of runs, of a disc, of rectangles and of
triangles that reach outside the canvas. -/
theorem clipped_primitives_inBounds_witness :
    InBounds (0, 5) ∧ InBounds (3, 31) ∧ InBounds (0, 2) ∧ InBounds (31, 4) ∧
    InBounds (31, 0) ∧ InBounds (4, 1) ∧ InBounds (0, 0) := by
  let interp : Int → Int → Int → Int → Int → Int :=
    fun x1 y1 y2 x3 y3 => x1 + (y2 - y1) * (x3 - x1) / (y3 - y1)
  refine ⟨(clipped_primitives_inBounds 8 interp (-5) 40 5 0 0 0 (0, 5)).1 (by decide),
    (clipped_primitives_inBounds 8 interp 3 (-2) 50 0 0 0 (3, 31)).2.1 (by decide),
    (clipped_primitives_inBounds 8 interp 1 1 3 0 0 0 (0, 2)).2.2.1 ?_,
    (clipped_primitives_inBounds 8 interp (-3) 4 40 50 0 0 (31, 4)).2.2.2.1 (by decide),
    (clipped_primitives_inBounds 8 interp 40 (-1) (-2) 1 0 0 (31, 0)).2.2.2.2.1 (by decide),
    (clipped_primitives_inBounds 8 interp 4 0 8 2 0 2 (4, 1)).2.2.2.2.2.1 (by decide),
    (clipped_primitives_inBounds 8 interp (-2) (-2) 3 (-2) 0 3 (0, 0)).2.2.2.2.2.2 (by decide)⟩
  simp [fillCircleIntoImage, fillCircleCalls, fillCircleLoop, spanPixels]
  decide

/-! ## General lines: C5, C6 -/

theorem bresteepline_swap (x3 y3 x4 y4 : Int) (h : x3 ≠ x4) :
    bresteepline x3 y3 x4 y4 = bresteepline x4 y4 x3 y3 := by
  rcases lt_or_gt_of_ne h with h1 | h1
  · conv_rhs => rw [bresteepline]
    rw [if_pos (by omega)]
  · conv_lhs => rw [bresteepline]
    rw [if_pos (by omega)]

theorem drawLineIntoImage_swap (x1 y1 x2 y2 : Int) :
    drawLineIntoImage x1 y1 x2 y2 = drawLineIntoImage x2 y2 x1 y1 := by
  rcases lt_trichotomy x1 x2 with h | h | h
  · conv_rhs => rw [drawLineIntoImage]
    rw [if_pos (by omega)]
  · subst h
    by_cases hy : y1 = y2
    · subst hy
      rfl
    · conv_lhs => rw [drawLineIntoImage]
      conv_rhs => rw [drawLineIntoImage]
      have h0 : ¬ (x1 - x1 > 0) := by omega
      have h1 : iabs (y2 - y1) > iabs (x1 - x1) := by
        unfold iabs
        split_ifs <;> omega
      have h2 : iabs (y1 - y2) > iabs (x1 - x1) := by
        unfold iabs
        split_ifs <;> omega
      rw [if_neg h0, if_pos h1, if_neg h0, if_pos h2]
      exact bresteepline_swap y1 x1 y2 x1 hy
  · conv_lhs => rw [drawLineIntoImage]
    rw [if_pos (by omega)]

/-- C5: `drawLineIntoImage(x1,y1,x2,y2)` and `drawLineIntoImage(x2,y2,x1,y1)`
make the same stores (even in the same order), so they write the same set of
pixels, for all integer end points. -/
theorem drawLineIntoImage_symmetric (x1 y1 x2 y2 : Int) :
    drawLineIntoImage x1 y1 x2 y2 = drawLineIntoImage x2 y2 x1 y1 ∧
    ∀ p, p ∈ drawLineIntoImage x1 y1 x2 y2 ↔ p ∈ drawLineIntoImage x2 y2 x1 y1 := by
  refine ⟨drawLineIntoImage_swap x1 y1 x2 y2, fun p => ?_⟩
  rw [drawLineIntoImage_swap]

theorem lineLoop_diagonal (plot : Int → Int → Int × Int) (n s : Int) (hn : 0 < n) (m : Nat)
    (x y : Int) :
    lineLoop plot (2 * n) (2 * n) s m x y n =
      (List.range m).map (fun (k : Nat) => plot (x + k) (y + s * k)) := by
  induction m generalizing x y with
  | zero => rfl
  | succ m ih =>
    rw [lineLoop, if_pos (by omega), List.range_succ_eq_map, List.map_cons, List.map_map]
    have he : n - 2 * n + 2 * n = n := by omega
    rw [he, ih]
    congr 1
    · simp
    · apply List.map_congr_left
      intro k _
      simp only [Function.comp, Nat.succ_eq_add_one, Nat.cast_add, Nat.cast_one]
      congr 1 <;> ring

theorem drawLineIntoImage_diagonal_left (x1 y1 x2 y2 : Int) (n : Nat)
    (hx : x2 - x1 = n) (hy : iabs (y2 - y1) = n) :
    drawLineIntoImage x1 y1 x2 y2 =
      (List.range (n + 1)).map
        (fun (k : Nat) => (x1 + k, y1 + (if y2 - y1 > 0 then 1 else -1) * k)) := by
  have hD : iabs (2 * (y2 - y1)) = 2 * (n : Int) := by
    unfold iabs at *
    split_ifs at * <;> omega
  have hX : iabs (x2 - x1) = n := by
    unfold iabs
    split_ifs <;> omega
  rw [drawLineIntoImage, if_neg (by omega), if_neg (by rw [hy, hX]; omega), hD, hx]
  have hc : ((n : Int) + 1).toNat = n + 1 := by omega
  rw [hc]
  rcases Nat.eq_zero_or_pos n with h0 | hpos
  · subst h0
    simp [lineLoop, List.range_succ]
  · exact lineLoop_diagonal (fun x y => (x, y)) n _ (by omega) (n + 1) x1 y1

theorem diagonal_list_facts (xl yl s : Int) (n : Nat) :
    ((List.range (n + 1)).map (fun (k : Nat) => (xl + (k : Int), yl + s * k))).length = n + 1 ∧
    ((List.range (n + 1)).map (fun (k : Nat) => (xl + (k : Int), yl + s * k))).Nodup ∧
    ∀ p, p ∈ (List.range (n + 1)).map (fun (k : Nat) => (xl + (k : Int), yl + s * k)) ↔
      ∃ k : Nat, k ≤ n ∧ p = (xl + (k : Int), yl + s * k) := by
  refine ⟨by simp, ?_, ?_⟩
  · refine List.Nodup.map ?_ (List.nodup_range _)
    intro a b h
    have := congrArg Prod.fst h
    simp only at this
    omega
  · intro p
    simp only [List.mem_map, List.mem_range]
    constructor
    · rintro ⟨k, hk, rfl⟩
      exact ⟨k, by omega, rfl⟩
    · rintro ⟨k, hk, rfl⟩
      exact ⟨k, by omega, rfl⟩

/-- C6: when `|x2 - x1| = |y2 - y1| = n`, `drawLineIntoImage` makes `n + 1`
stores, to pairwise distinct pixels, and these are exactly the points
`(x1 + k*sx, y1 + k*sy)` for `k = 0..n`, where `sx`, `sy` are the signs of
`x2 - x1` and `y2 - y1`: one unit step on both axes from one end point to the
other. -/
theorem drawLineIntoImage_diagonal (x1 y1 x2 y2 : Int) (n : Nat)
    (hx : |x2 - x1| = n) (hy : |y2 - y1| = n) :
    (drawLineIntoImage x1 y1 x2 y2).length = n + 1 ∧
    (drawLineIntoImage x1 y1 x2 y2).Nodup ∧
    ∀ p, p ∈ drawLineIntoImage x1 y1 x2 y2 ↔
      ∃ k : Nat, k ≤ n ∧ p = (x1 + k * Int.sign (x2 - x1), y1 + k * Int.sign (y2 - y1)) := by
  have hx2 := (abs_eq (Int.ofNat_nonneg n)).1 hx
  have hy2 := (abs_eq (Int.ofNat_nonneg n)).1 hy
  rcases Nat.eq_zero_or_pos n with h0 | hpos
  · subst h0
    have e1 : x2 = x1 := by omega
    have e2 : y2 = y1 := by omega
    subst e1 e2
    rw [drawLineIntoImage_diagonal_left x2 y2 x2 y2 0 (by simp) (by simp [iabs])]
    obtain ⟨f1, f2, f3⟩ := diagonal_list_facts x2 y2 (if y2 - y2 > 0 then 1 else -1) 0
    refine ⟨f1, f2, fun p => ?_⟩
    rw [f3]
    constructor
    · rintro ⟨k, hk, rfl⟩
      obtain rfl : k = 0 := by omega
      exact ⟨0, le_refl _, by simp⟩
    · rintro ⟨k, hk, rfl⟩
      obtain rfl : k = 0 := by omega
      exact ⟨0, le_refl _, by simp⟩
  · by_cases hle : x1 ≤ x2
    · have hxn : x2 - x1 = n := by omega
      have hyn : iabs (y2 - y1) = n := by
        unfold iabs
        split_ifs <;> omega
      rw [drawLineIntoImage_diagonal_left x1 y1 x2 y2 n hxn hyn]
      obtain ⟨f1, f2, f3⟩ := diagonal_list_facts x1 y1 (if y2 - y1 > 0 then 1 else -1) n
      refine ⟨f1, f2, fun p => ?_⟩
      rw [f3]
      have sx : Int.sign (x2 - x1) = 1 := Int.sign_eq_one_of_pos (by omega)
      have sy : Int.sign (y2 - y1) = if y2 - y1 > 0 then 1 else -1 := by
        split_ifs with h
        · exact Int.sign_eq_one_of_pos h
        · exact Int.sign_eq_neg_one_of_neg (by omega)
      rw [sx, sy]
      constructor
      · rintro ⟨k, hk, rfl⟩
        exact ⟨k, hk, by simp [mul_comm]⟩
      · rintro ⟨k, hk, rfl⟩
        exact ⟨k, hk, by simp [mul_comm]⟩
    · have hxn : x1 - x2 = n := by omega
      have hyn : iabs (y1 - y2) = n := by
        unfold iabs
        split_ifs <;> omega
      rw [drawLineIntoImage_swap, drawLineIntoImage_diagonal_left x2 y2 x1 y1 n hxn hyn]
      obtain ⟨f1, f2, f3⟩ := diagonal_list_facts x2 y2 (if y1 - y2 > 0 then 1 else -1) n
      refine ⟨f1, f2, fun p => ?_⟩
      rw [f3]
      have sx : Int.sign (x2 - x1) = -1 := Int.sign_eq_neg_one_of_neg (by omega)
      rw [sx]
      rcases hy2 with hy3 | hy3
      · have sy : Int.sign (y2 - y1) = 1 := Int.sign_eq_one_of_pos (by omega)
        rw [sy, if_neg (by omega)]
        constructor
        · rintro ⟨k, hk, rfl⟩
          refine ⟨n - k, by omega, ?_⟩
          rw [Nat.cast_sub hk]
          refine Prod.ext ?_ ?_ <;> simp only <;> omega
        · rintro ⟨k, hk, rfl⟩
          refine ⟨n - k, by omega, ?_⟩
          rw [Nat.cast_sub hk]
          refine Prod.ext ?_ ?_ <;> simp only <;> omega
      · have sy : Int.sign (y2 - y1) = -1 := Int.sign_eq_neg_one_of_neg (by omega)
        rw [sy, if_pos (by omega)]
        constructor
        · rintro ⟨k, hk, rfl⟩
          refine ⟨n - k, by omega, ?_⟩
          rw [Nat.cast_sub hk]
          refine Prod.ext ?_ ?_ <;> simp only <;> omega
        · rintro ⟨k, hk, rfl⟩
          refine ⟨n - k, by omega, ?_⟩
          rw [Nat.cast_sub hk]
          refine Prod.ext ?_ ?_ <;> simp only <;> omega

/-- C6, concrete instance: `drawLineIntoImage(0,0,31,31)` stores to exactly
`(0,0), (1,1), ..., (31,31)`. -/
theorem drawLineIntoImage_diagonal_witness :
    |(31 : Int) - 0| = (31 : Nat) ∧
    drawLineIntoImage 0 0 31 31 = (List.range 32).map (fun (k : Nat) => ((k : Int), (k : Int))) ∧
    (drawLineIntoImage 0 0 31 31).length = 31 + 1 ∧
    (drawLineIntoImage 0 0 31 31).Nodup := by
  have h := drawLineIntoImage_diagonal 0 0 31 31 31 (by decide) (by decide)
  refine ⟨by decide, ?_, h.1, h.2.1⟩
  rw [drawLineIntoImage_diagonal_left 0 0 31 31 31 (by decide) (by decide)]
  decide

/-! ## Circles: C9, C10 -/

theorem mem_octants (x0 y0 a b dx dy : Int) :
    (x0 + dx, y0 + dy) ∈
      [(a + x0, b + y0), (b + x0, a + y0), (-a + x0, b + y0), (-b + x0, a + y0),
       (-a + x0, -b + y0), (-b + x0, -a + y0), (a + x0, -b + y0), (b + x0, -a + y0)] ↔
    (((dx = a ∨ dx = -a) ∧ (dy = b ∨ dy = -b)) ∨ ((dx = b ∨ dx = -b) ∧ (dy = a ∨ dy = -a))) := by
  simp only [List.mem_cons, Prod.mk.injEq, List.not_mem_nil, or_false]
  omega

theorem drawCircleLoop_symmetric (x0 y0 : Int) :
    ∀ (n : Nat) (a b err : Int), (a - b + 1).toNat ≤ n → ∀ dx dy : Int,
      (x0 + dx, y0 + dy) ∈ drawCircleLoop x0 y0 a b err →
      (x0 + -dx, y0 + dy) ∈ drawCircleLoop x0 y0 a b err ∧
      (x0 + dx, y0 + -dy) ∈ drawCircleLoop x0 y0 a b err ∧
      (x0 + dy, y0 + dx) ∈ drawCircleLoop x0 y0 a b err := by
  intro n
  induction n with
  | zero =>
    intro a b err hn dx dy h
    rw [drawCircleLoop, if_neg (by omega)] at h
    exact absurd h (List.not_mem_nil _)
  | succ n ih =>
    intro a b err hn dx dy h
    by_cases hab : a ≥ b
    · rw [drawCircleLoop, if_pos hab] at h
      rw [drawCircleLoop, if_pos hab]
      simp only [List.mem_append] at h ⊢
      rcases h with h | h
      · rw [mem_octants] at h
        refine ⟨Or.inl ?_, Or.inl ?_, Or.inl ?_⟩ <;> rw [mem_octants] <;> omega
      · by_cases he : err < 0
        · rw [if_pos he] at h ⊢
          obtain ⟨h1, h2, h3⟩ := ih a (b + 1) _ (by omega) dx dy h
          exact ⟨Or.inr h1, Or.inr h2, Or.inr h3⟩
        · rw [if_neg he] at h ⊢
          obtain ⟨h1, h2, h3⟩ := ih (a - 1) (b + 1) _ (by omega) dx dy h
          exact ⟨Or.inr h1, Or.inr h2, Or.inr h3⟩
    · rw [drawCircleLoop, if_neg hab] at h
      exact absurd h (List.not_mem_nil _)

/-- C9: the offsets `(dx, dy)` from the centre of the pixels stored to by
`drawCircleIntoImage` are closed under `(dx,dy) -> (-dx,dy)`,
`(dx,dy) -> (dx,-dy)` and `(dx,dy) -> (dy,dx)`, the generators of the
symmetry group of the square, for every centre and radius. -/
theorem drawCircleIntoImage_symmetric (x0 y0 radius dx dy : Int)
    (h : (x0 + dx, y0 + dy) ∈ drawCircleIntoImage x0 y0 radius) :
    (x0 - dx, y0 + dy) ∈ drawCircleIntoImage x0 y0 radius ∧
    (x0 + dx, y0 - dy) ∈ drawCircleIntoImage x0 y0 radius ∧
    (x0 + dy, y0 + dx) ∈ drawCircleIntoImage x0 y0 radius := by
  unfold drawCircleIntoImage at h ⊢
  by_cases hr : radius = 0
  · rw [if_pos hr] at h
    exact absurd h (List.not_mem_nil _)
  · rw [if_neg hr] at h ⊢
    rw [sub_eq_add_neg, sub_eq_add_neg]
    exact drawCircleLoop_symmetric x0 y0 _ radius 0 (1 - radius) (le_refl _) dx dy h

/-- C9, concrete instance: radius 3 about (16,16); the pixel at offset (3,1)
is written, hence so are those at offsets (-3,1), (3,-1) and (1,3). -/
theorem drawCircleIntoImage_symmetric_witness :
    ((16 : Int) + 3, (16 : Int) + 1) ∈ drawCircleIntoImage 16 16 3 ∧
    ((16 : Int) - 3, (16 : Int) + 1) ∈ drawCircleIntoImage 16 16 3 ∧
    ((16 : Int) + 3, (16 : Int) - 1) ∈ drawCircleIntoImage 16 16 3 ∧
    ((16 : Int) + 1, (16 : Int) + 3) ∈ drawCircleIntoImage 16 16 3 := by
  have h : ((16 : Int) + 3, (16 : Int) + 1) ∈ drawCircleIntoImage 16 16 3 := by
    simp [drawCircleIntoImage, drawCircleLoop]
  exact ⟨h, drawCircleIntoImage_symmetric 16 16 3 3 1 h⟩

theorem spanPixels_append (l1 l2 : List (Int × Int × Int)) :
    spanPixels (l1 ++ l2) = spanPixels l1 ++ spanPixels l2 := by
  simp [spanPixels]

theorem mem_spanPixels_pair (x0 y0 u v x y : Int) :
    (x, y) ∈ spanPixels [((u - 1) + x0, (-u + 1) + x0, v + y0),
        ((u - 1) + x0, (-u + 1) + x0, -v + y0)] ↔
      (y = v + y0 ∨ y = -v + y0) ∧ 0 ≤ y ∧ y < HEIGHT ∧
        max 0 (min ((u - 1) + x0) ((-u + 1) + x0)) ≤ x ∧
        x ≤ min (WIDTH - 1) (max ((u - 1) + x0) ((-u + 1) + x0)) := by
  simp only [spanPixels, List.flatMap_cons, List.flatMap_nil, List.append_nil, List.mem_append,
    mem_drawFastHLine]
  constructor
  · rintro (h | h)
    · exact ⟨Or.inl h.1, by omega, by omega, h.2.2.2⟩
    · exact ⟨Or.inr h.1, by omega, by omega, h.2.2.2⟩
  · rintro ⟨h | h, h2, h3, h4⟩
    · exact Or.inl ⟨h, by omega, by omega, h4⟩
    · exact Or.inr ⟨h, by omega, by omega, h4⟩

theorem spanPixels_pair_symmetric (x0 y0 r u v x y : Int) (hr : 1 ≤ r)
    (hx : r ≤ x0 ∧ x0 ≤ WIDTH - 1 - r) (hy : r ≤ y0 ∧ y0 ≤ HEIGHT - 1 - r)
    (hu : 0 ≤ u ∧ u ≤ r) (hv : -r ≤ v ∧ v ≤ r)
    (h : (x, y) ∈ spanPixels [((u - 1) + x0, (-u + 1) + x0, v + y0),
        ((u - 1) + x0, (-u + 1) + x0, -v + y0)]) :
    (2 * x0 - x, y) ∈ spanPixels [((u - 1) + x0, (-u + 1) + x0, v + y0),
        ((u - 1) + x0, (-u + 1) + x0, -v + y0)] ∧
    (x, 2 * y0 - y) ∈ spanPixels [((u - 1) + x0, (-u + 1) + x0, v + y0),
        ((u - 1) + x0, (-u + 1) + x0, -v + y0)] := by
  rw [mem_spanPixels_pair] at h ⊢
  rw [mem_spanPixels_pair]
  simp only [WIDTH, HEIGHT] at *
  refine ⟨⟨?_, ?_, ?_, ?_, ?_⟩, ⟨?_, ?_, ?_, ?_, ?_⟩⟩ <;> omega

theorem fillCircleLoop_symmetric (x0 y0 r : Int) (hr : 1 ≤ r)
    (hx : r ≤ x0 ∧ x0 ≤ WIDTH - 1 - r) (hy : r ≤ y0 ∧ y0 ≤ HEIGHT - 1 - r) :
    ∀ (n : Nat) (a b err : Int) (flag : Bool), (a - b + 1).toNat ≤ n → 0 ≤ b → a ≤ r →
      ∀ x y : Int, (x, y) ∈ spanPixels (fillCircleLoop x0 y0 a b err flag) →
        (2 * x0 - x, y) ∈ spanPixels (fillCircleLoop x0 y0 a b err flag) ∧
        (x, 2 * y0 - y) ∈ spanPixels (fillCircleLoop x0 y0 a b err flag) := by
  intro n
  induction n with
  | zero =>
    intro a b err flag hn hb ha x y h
    rw [fillCircleLoop, if_neg (by omega)] at h
    exact absurd h (List.not_mem_nil _)
  | succ n ih =>
    intro a b err flag hn hb ha x y h
    by_cases hab : a ≥ b
    · rw [fillCircleLoop, if_pos hab] at h
      rw [fillCircleLoop, if_pos hab]
      simp only [spanPixels_append, List.mem_append] at h ⊢
      rcases h with (h | h) | h
      · obtain ⟨h1, h2⟩ := spanPixels_pair_symmetric x0 y0 r a b x y hr hx hy
          ⟨by omega, ha⟩ ⟨by omega, by omega⟩ h
        exact ⟨Or.inl (Or.inl h1), Or.inl (Or.inl h2)⟩
      · by_cases hc : b > 1 ∧ flag = false
        · rw [if_pos hc] at h ⊢
          obtain ⟨h1, h2⟩ := spanPixels_pair_symmetric x0 y0 r b a x y hr hx hy
            ⟨by omega, by omega⟩ ⟨by omega, by omega⟩ h
          exact ⟨Or.inl (Or.inr h1), Or.inl (Or.inr h2)⟩
        · rw [if_neg hc] at h
          exact absurd h (List.not_mem_nil _)
      · by_cases he : err < 0
        · rw [if_pos he] at h ⊢
          obtain ⟨h1, h2⟩ := ih a (b + 1) _ _ (by omega) (by omega) ha x y h
          exact ⟨Or.inr h1, Or.inr h2⟩
        · rw [if_neg he] at h ⊢
          obtain ⟨h1, h2⟩ := ih (a - 1) (b + 1) _ _ (by omega) (by omega) (by omega) x y h
          exact ⟨Or.inr h1, Or.inr h2⟩
    · rw [fillCircleLoop, if_neg hab] at h
      exact absurd h (List.not_mem_nil _)

theorem fillCircleLoop_covers (x0 y0 r : Int)
    (hx : r ≤ x0 ∧ x0 ≤ WIDTH - 1 - r) (hy : r ≤ y0 ∧ y0 ≤ HEIGHT - 1 - r) :
    ∀ (n : Nat) (a b err : Int) (flag : Bool), (a - b + 1).toNat ≤ n → 0 ≤ b → a ≤ r →
      (b = 0 → err < 0 ∨ a ≤ 1) →
      ∀ e : Int, ((b ≤ e ∧ e ≤ a - 1) ∨ (e = a ∧ flag = false ∧ b > 1 ∧ a ≥ b)) →
        (x0, y0 + e) ∈ spanPixels (fillCircleLoop x0 y0 a b err flag) ∧
        (x0, y0 - e) ∈ spanPixels (fillCircleLoop x0 y0 a b err flag) := by
  intro n
  induction n with
  | zero =>
    intro a b err flag hn hb ha h0 e he
    omega
  | succ n ih =>
    intro a b err flag hn hb ha h0 e he
    have hab : a ≥ b := by omega
    rw [fillCircleLoop, if_pos hab]
    simp only [spanPixels_append, List.mem_append]
    by_cases h1 : e = b
    · subst h1
      refine ⟨Or.inl (Or.inl ?_), Or.inl (Or.inl ?_)⟩ <;> rw [mem_spanPixels_pair] <;>
        simp only [WIDTH, HEIGHT] at * <;> refine ⟨?_, ?_, ?_, ?_, ?_⟩ <;> omega
    · by_cases h2 : e = a ∧ flag = false ∧ b > 1
      · rw [if_pos ⟨h2.2.2, h2.2.1⟩]
        obtain ⟨rfl, -, h3⟩ := h2
        refine ⟨Or.inl (Or.inr ?_), Or.inl (Or.inr ?_)⟩ <;> rw [mem_spanPixels_pair] <;>
          simp only [WIDTH, HEIGHT] at * <;> refine ⟨?_, ?_, ?_, ?_, ?_⟩ <;> omega
      · have he2 : b ≤ e ∧ e ≤ a - 1 := by
          rcases he with he | he
          · exact he
          · exact absurd ⟨he.1, he.2.1, he.2.2.1⟩ h2
        by_cases h3 : err < 0
        · rw [if_pos h3]
          obtain ⟨h4, h5⟩ := ih a (b + 1) (err + (2 * (b + 1) + 1))
            (if b > 1 ∧ flag = false then true else flag) (by omega) (by omega) ha (by omega) e
            (Or.inl (by omega))
          exact ⟨Or.inr h4, Or.inr h5⟩
        · rw [if_neg h3]
          have he3 : (b + 1 ≤ e ∧ e ≤ a - 1 - 1) ∨
              (e = a - 1 ∧ false = false ∧ b + 1 > 1 ∧ a - 1 ≥ b + 1) := by
            by_cases h6 : e = a - 1
            · exact Or.inr ⟨h6, rfl, by omega, by omega⟩
            · exact Or.inl (by omega)
          obtain ⟨h4, h5⟩ := ih (a - 1) (b + 1) (err + 2 * ((b + 1) - (a - 1) + 1)) false
            (by omega) (by omega) (by omega) (by omega) e he3
          exact ⟨Or.inr h4, Or.inr h5⟩

/-- C10: for a radius `r >= 1` and a centre whose disc lies inside the canvas,
the set of pixels stored to by `fillCircleIntoImage` is mapped to itself by
the reflection across the vertical line `x = x0` and by the reflection
across the horizontal line `y = y0`, and every row `y` with `|y - y0| < r`
contains a stored pixel. -/
theorem fillCircleIntoImage_symmetric_covering (x0 y0 r : Int) (hr : 1 ≤ r)
    (hx : r ≤ x0 ∧ x0 ≤ WIDTH - 1 - r) (hy : r ≤ y0 ∧ y0 ≤ HEIGHT - 1 - r) :
    (∀ x y : Int, (x, y) ∈ fillCircleIntoImage x0 y0 r →
      (2 * x0 - x, y) ∈ fillCircleIntoImage x0 y0 r ∧
      (x, 2 * y0 - y) ∈ fillCircleIntoImage x0 y0 r) ∧
    (∀ y : Int, |y - y0| < r → ∃ x : Int, (x, y) ∈ fillCircleIntoImage x0 y0 r) := by
  have hne : ¬ r = 0 := by omega
  unfold fillCircleIntoImage fillCircleCalls
  rw [if_neg hne]
  constructor
  · intro x y h
    exact fillCircleLoop_symmetric x0 y0 r hr hx hy _ r 0 (1 - r) true (le_refl _)
      (le_refl _) (le_refl _) x y h
  · intro y hy2
    rw [abs_lt] at hy2
    by_cases hs : y0 ≤ y
    · have h := (fillCircleLoop_covers x0 y0 r hx hy _ r 0 (1 - r) true (le_refl _)
        (le_refl _) (le_refl _) (fun _ => by omega) (y - y0) (Or.inl (by omega))).1
      rw [show y0 + (y - y0) = y by omega] at h
      exact ⟨x0, h⟩
    · have h := (fillCircleLoop_covers x0 y0 r hx hy _ r 0 (1 - r) true (le_refl _)
        (le_refl _) (le_refl _) (fun _ => by omega) (y0 - y) (Or.inl (by omega))).2
      rw [show y0 - (y0 - y) = y by omega] at h
      exact ⟨x0, h⟩

/-- C10, concrete instance: centre (16,16), radius 5. -/
theorem fillCircleIntoImage_symmetric_covering_witness :
    (1 : Int) ≤ 5 ∧ ((5 : Int) ≤ 16 ∧ (16 : Int) ≤ WIDTH - 1 - 5) ∧
    ((5 : Int) ≤ 16 ∧ (16 : Int) ≤ HEIGHT - 1 - 5) ∧
    (∀ x y : Int, (x, y) ∈ fillCircleIntoImage 16 16 5 →
      (2 * 16 - x, y) ∈ fillCircleIntoImage 16 16 5 ∧
      (x, 2 * 16 - y) ∈ fillCircleIntoImage 16 16 5) ∧
    (∀ y : Int, |y - 16| < 5 → ∃ x : Int, (x, y) ∈ fillCircleIntoImage 16 16 5) :=
  ⟨by decide, by decide, by decide,
    fillCircleIntoImage_symmetric_covering 16 16 5 (by decide) (by decide) (by decide)⟩

/-! ## Triangles: C3, C4 -/

theorem wrap8_id (z : Int) (h : -128 ≤ z ∧ z ≤ 127) : wrap8 z = z := by
  unfold wrap8
  omega

theorem errorLoop_neg (ed : Edge) (fuel : Nat) (tx ty e : Int) (he : e < 0) :
    errorLoop ed fuel tx ty e = some (tx, ty, e) := by
  cases fuel <;> simp [errorLoop, not_le.mpr he]

theorem errorLoop_tame (ed : Edge) (h : ed.Tame) (fuel : Nat) (hf : 1 ≤ fuel) (tx ty e : Int)
    (he : 2 * ed.dy - 2 * ed.dx ≤ e ∧ e < 2 * ed.dy) :
    errorLoop ed fuel tx ty e =
      some (if e ≥ 0 then
          ((if ed.changed then tx + ed.signx else tx),
            (if ed.changed then ty else ty + ed.signy), e - 2 * ed.dx)
        else (tx, ty, e)) := by
  obtain ⟨h1, h2, h3, h4⟩ := h
  by_cases hz : e ≥ 0
  · obtain ⟨k, rfl⟩ : ∃ k, fuel = k + 1 := ⟨fuel - 1, by omega⟩
    rw [errorLoop, if_pos hz, if_pos hz, wrap8_id _ (by omega)]
    exact errorLoop_neg ed k _ _ _ (by omega)
  · rw [if_neg hz]
    exact errorLoop_neg ed fuel tx ty e (by omega)

theorem followLoop_same (inner : Nat) (ed : Edge) (t : Int) (k : Nat) (x e : Int) :
    followLoop inner ed t k x t e = some (x, t, e) := by
  cases k <;> simp [followLoop]

theorem followLoop_tame (ed : Edge) (h : ed.Tame)
    (hnc : ed.changed = false → 1 ≤ ed.dy) (hs : ed.signy = 1 ∨ ed.signy = -1)
    (inner : Nat) (hin : 1 ≤ inner) :
    ∀ (k : Nat) (x y e : Int), 2 * ed.dy - 2 * ed.dx ≤ e ∧ e < 2 * ed.dy →
      (-e).toNat + 1 ≤ k →
      ∃ x2 e2, followLoop inner ed (y + ed.signy) k x y e = some (x2, y + ed.signy, e2) ∧
        2 * ed.dy - 2 * ed.dx ≤ e2 ∧ e2 < 2 * ed.dy := by
  have ht := h
  obtain ⟨h1, h2, h3, h4⟩ := h
  intro k
  induction k with
  | zero =>
    intro x y e he hk
    omega
  | succ k ih =>
    intro x y e he hk
    have hne : y ≠ y + ed.signy := by omega
    rw [followLoop, if_pos hne, errorLoop_tame ed ht inner hin x y e he]
    by_cases hz : e ≥ 0
    · rw [if_pos hz]
      simp only
      rw [wrap8_id _ (by omega)]
      by_cases hc : ed.changed = true
      · simp only [hc, if_true]
        exact ⟨_, _, followLoop_same _ _ _ _ _ _, by omega, by omega⟩
      · simp only [hc]
        exact ⟨_, _, followLoop_same _ _ _ _ _ _, by omega, by omega⟩
    · rw [if_neg hz]
      simp only
      rw [wrap8_id _ (by omega)]
      by_cases hc : ed.changed = true
      · simp only [hc, if_true]
        exact ⟨_, _, followLoop_same _ _ _ _ _ _, by omega, by omega⟩
      · simp only [hc]
        have hd := hnc (by simpa using hc)
        exact ih (x + ed.signx) y (e + 2 * ed.dy) (by omega) (by omega)

theorem spanLoop_step (fuel : Nat) (hf : 128 ≤ fuel) (ed1 ed2 : Edge) (h1 : ed1.Tame)
    (h2 : ed2.Tame) (hs : ed1.signy = 1 ∨ ed1.signy = -1) (hs2 : ed2.signy = ed1.signy)
    (hnc : ed2.changed = false → 1 ≤ ed2.dy) (n : Nat) (t1x t1y e1 t2x e2 : Int)
    (hr1 : 2 * ed1.dy - 2 * ed1.dx ≤ e1 ∧ e1 < 2 * ed1.dy)
    (hr2 : 2 * ed2.dy - 2 * ed2.dx ≤ e2 ∧ e2 < 2 * ed2.dy) :
    ∃ t1x2 t2x2 e22, (2 * ed2.dy - 2 * ed2.dx ≤ e22 ∧ e22 < 2 * ed2.dy) ∧
      spanLoop fuel ed1 ed2 (n + 1) t1x t1y e1 t2x t1y e2 =
        ((t1x, t2x, t1y) ::
          (spanLoop fuel ed1 ed2 n t1x2
            (if ed1.changed = true ∨ e1 ≥ 0 then t1y + ed1.signy else t1y)
            (if e1 ≥ 0 then e1 - 2 * ed1.dx + 2 * ed1.dy else e1 + 2 * ed1.dy) t2x2
            (if ed1.changed = true ∨ e1 ≥ 0 then t1y + ed1.signy else t1y) e22).1,
          (spanLoop fuel ed1 ed2 n t1x2
            (if ed1.changed = true ∨ e1 ≥ 0 then t1y + ed1.signy else t1y)
            (if e1 ≥ 0 then e1 - 2 * ed1.dx + 2 * ed1.dy else e1 + 2 * ed1.dy) t2x2
            (if ed1.changed = true ∨ e1 ≥ 0 then t1y + ed1.signy else t1y) e22).2) := by
  have hd1 := h1.dx_le
  have hd2 := h1.dy_le
  have hd3 := h1.dy_nonneg
  have hd4 := h2.dx_le
  have hd5 := h2.dy_le
  have hd6 := h2.dy_nonneg
  have hstep : ∃ x2 e22, followLoop fuel ed2 (t1y + ed1.signy) fuel t2x t1y e2 =
      some (x2, t1y + ed1.signy, e22) ∧ 2 * ed2.dy - 2 * ed2.dx ≤ e22 ∧ e22 < 2 * ed2.dy := by
    rw [← hs2]
    exact followLoop_tame ed2 h2 hnc (by rw [hs2]; exact hs) fuel (by omega) fuel t2x t1y e2 hr2
      (by omega)
  obtain ⟨x2, e22, hfl, hr22⟩ := hstep
  rw [spanLoop, errorLoop_tame ed1 h1 fuel (by omega) t1x t1y e1 hr1]
  simp only
  by_cases hz : e1 ≥ 0
  · have hor : ed1.changed = true ∨ e1 ≥ 0 := Or.inr hz
    rw [if_pos hz, if_pos hor, if_pos hz]
    simp only
    by_cases hc : ed1.changed = true
    · simp only [hc, if_true]
      rw [hfl, wrap8_id _ (by omega)]
      exact ⟨_, _, _, hr22, rfl⟩
    · have hcf : ed1.changed = false := by simpa using hc
      simp only [hcf, Bool.false_eq_true, if_false]
      rw [hfl, wrap8_id _ (by omega)]
      exact ⟨_, _, _, hr22, rfl⟩
  · rw [if_neg hz, if_neg hz]
    simp only
    by_cases hc : ed1.changed = true
    · have hor : ed1.changed = true ∨ e1 ≥ 0 := Or.inl hc
      rw [if_pos hor]
      simp only [hc, if_true]
      rw [hfl, wrap8_id _ (by omega)]
      exact ⟨_, _, _, hr22, rfl⟩
    · have hor : ¬ (ed1.changed = true ∨ e1 ≥ 0) := by
        rintro (h | h)
        · exact hc h
        · exact hz h
      rw [if_neg hor]
      have hcf : ed1.changed = false := by simpa using hc
      simp only [hcf, Bool.false_eq_true, if_false]
      rw [followLoop_same, wrap8_id _ (by omega)]
      exact ⟨_, _, _, hr2, rfl⟩

theorem spanLoop_rows (fuel : Nat) (hf : 128 ≤ fuel) (ed1 ed2 : Edge) (h1 : ed1.Tame)
    (h2 : ed2.Tame) (s : Int) (hs : s = 1 ∨ s = -1) (hs1 : ed1.signy = s) (hs2 : ed2.signy = s)
    (hnc : ed2.changed = false → 1 ≤ ed2.dy) (y1 y2 : Int)
    (hy2c : ed1.changed = true → y2 = y1 + s * ed1.dx)
    (hy2n : ed1.changed = false → y2 = y1 + s * ed1.dy) :
    ∀ (n : Nat) (i m t1x t1y e1 t2x e2 : Int), 0 ≤ i → i + n = ed1.dx →
      t1y = y1 + s * m →
      (2 * ed1.dy - 2 * ed1.dx ≤ e1 ∧ e1 < 2 * ed1.dy) →
      (ed1.changed = true → m = i) →
      (ed1.changed = false → e1 = 2 * ed1.dy - ed1.dx + 2 * (i * ed1.dy) - 2 * (m * ed1.dx)) →
      (2 * ed2.dy - 2 * ed2.dx ≤ e2 ∧ e2 < 2 * ed2.dy) →
      (spanLoop fuel ed1 ed2 (n + 1) t1x t1y e1 t2x t1y e2).2 = true ∧
      (spanLoop fuel ed1 ed2 (n + 1) t1x t1y e1 t2x t1y e2).1.length = n + 1 ∧
      0 ≤ s * (y2 - t1y) ∧
      (∀ y, y ∈ (spanLoop fuel ed1 ed2 (n + 1) t1x t1y e1 t2x t1y e2).1.map (fun c => c.2.2) ↔
        0 ≤ s * (y - t1y) ∧ 0 ≤ s * (y2 - y)) ∧
      ((ed1.changed = true ∨ ed1.dy = ed1.dx) →
        ((spanLoop fuel ed1 ed2 (n + 1) t1x t1y e1 t2x t1y e2).1.map (fun c => c.2.2)).Nodup) := by
  have hd1 := h1.dx_le
  have hd2 := h1.dy_le
  have hd3 := h1.dy_nonneg
  have hd4 := h1.dx_pos
  have hs1b : ed1.signy = 1 ∨ ed1.signy = -1 := by rw [hs1]; exact hs
  intro n
  induction n with
  | zero =>
    intro i m t1x t1y e1 t2x e2 hi hin ht hr1 hmc hmn hr2
    obtain ⟨a, b, c, -, heq⟩ := spanLoop_step fuel hf ed1 ed2 h1 h2 hs1b (by rw [hs1, hs2]) hnc
      0 t1x t1y e1 t2x e2 hr1 hr2
    rw [heq]
    simp only [spanLoop, List.length_singleton, List.map_cons, List.map_nil,
      List.mem_singleton, List.nodup_singleton]
    have hiD : i = ed1.dx := by omega
    have hty : t1y = y2 := by
      by_cases hc : ed1.changed = true
      · rw [hy2c hc, ht, hmc hc, hiD]
      · have hcf : ed1.changed = false := by simpa using hc
        have hE := hmn hcf
        rw [hiD] at hE
        have hm : m = ed1.dy := by
          by_contra hne
          rcases lt_or_gt_of_ne hne with hlt | hgt
          · have := mul_le_mul_of_nonneg_right (show m + 1 ≤ ed1.dy by omega)
              (show (0 : Int) ≤ ed1.dx by omega)
            have e1 := add_mul m 1 ed1.dx
            have e2 := mul_comm ed1.dx ed1.dy
            omega
          · have := mul_le_mul_of_nonneg_right (show ed1.dy + 1 ≤ m by omega)
              (show (0 : Int) ≤ ed1.dx by omega)
            have e1 := add_mul ed1.dy 1 ed1.dx
            have e2 := mul_comm ed1.dx ed1.dy
            omega
        rw [hy2n hcf, ht, hm]
    subst hty
    refine ⟨trivial, trivial, ?_, ?_, fun _ => trivial⟩
    · rcases hs with rfl | rfl <;> omega
    · intro y
      rcases hs with rfl | rfl <;> omega
  | succ n ih =>
    intro i m t1x t1y e1 t2x e2 hi hin ht hr1 hmc hmn hr2
    obtain ⟨a, b, c, hr22, heq⟩ := spanLoop_step fuel hf ed1 ed2 h1 h2 hs1b (by rw [hs1, hs2]) hnc
      (n + 1) t1x t1y e1 t2x e2 hr1 hr2
    rw [heq]
    simp only [List.length_cons, List.map_cons, List.mem_cons, List.nodup_cons]
    rw [hs1] at *
    have e3 := add_mul i 1 ed1.dy
    have e4 := add_mul m 1 ed1.dx
    by_cases hst : ed1.changed = true ∨ e1 ≥ 0
    · rw [if_pos hst] at *
      have hE : ed1.changed = false →
          (if e1 ≥ 0 then e1 - 2 * ed1.dx + 2 * ed1.dy else e1 + 2 * ed1.dy) =
            2 * ed1.dy - ed1.dx + 2 * ((i + 1) * ed1.dy) - 2 * ((m + 1) * ed1.dx) := by
        intro hcf
        have hE := hmn hcf
        have hz : e1 ≥ 0 := by
          rcases hst with h | h
          · rw [hcf] at h
            exact absurd h (by decide)
          · exact h
        rw [if_pos hz]
        omega
      obtain ⟨r1, r2, r3, r4, r5⟩ := ih (i + 1) (m + 1) a (t1y + s) _ b c (by omega)
        (by push_cast at hin ⊢; omega) (by rcases hs with rfl | rfl <;> omega)
        (by split_ifs <;> omega) (fun hc => by have := hmc hc; omega) hE hr22
      refine ⟨r1, by omega, ?_, ?_, ?_⟩
      · rcases hs with rfl | rfl <;> omega
      · intro y
        rw [r4]
        rcases hs with rfl | rfl <;> omega
      · intro hstrict
        refine ⟨?_, r5 hstrict⟩
        rw [r4]
        rcases hs with rfl | rfl <;> omega
    · rw [if_neg hst] at *
      have hcf : ed1.changed = false := by
        cases hc : ed1.changed
        · rfl
        · exact absurd (Or.inl hc) hst
      have hz : ¬ e1 ≥ 0 := fun h => hst (Or.inr h)
      have hE : ed1.changed = false →
          (if e1 ≥ 0 then e1 - 2 * ed1.dx + 2 * ed1.dy else e1 + 2 * ed1.dy) =
            2 * ed1.dy - ed1.dx + 2 * ((i + 1) * ed1.dy) - 2 * (m * ed1.dx) := by
        intro _
        have hE := hmn hcf
        rw [if_neg hz]
        omega
      obtain ⟨r1, r2, r3, r4, r5⟩ := ih (i + 1) m a t1y _ b c (by omega)
        (by push_cast at hin ⊢; omega) ht
        (by rw [if_neg hz]; omega) (fun hc => by rw [hcf] at hc; exact absurd hc (by decide)) hE hr22
      refine ⟨r1, by omega, r3, ?_, ?_⟩
      · intro y
        rw [r4]
        rcases hs with rfl | rfl <;> omega
      · intro hstrict
        rcases hstrict with h | h
        · rw [hcf] at h
          exact absurd h (by decide)
        · omega

theorem iabs_eq_abs (z : Int) : iabs z = |z| := by
  unfold iabs
  split_ifs with h
  · exact (abs_of_pos h).symm
  · exact (abs_of_nonpos (by omega)).symm

theorem iabs_nonneg (z : Int) : 0 ≤ iabs z := by
  unfold iabs
  split_ifs <;> omega

theorem edgeSetup_facts (xa ya xb yb : Int) (hx : iabs (xb - xa) ≤ 63)
    (hy : iabs (yb - ya) ≤ 63) :
    (edgeSetup xa ya xb yb).dx = max (iabs (xb - xa)) (iabs (yb - ya)) ∧
    (edgeSetup xa ya xb yb).dy = min (iabs (xb - xa)) (iabs (yb - ya)) ∧
    ((edgeSetup xa ya xb yb).changed = true ↔ iabs (yb - ya) > iabs (xb - xa)) ∧
    (edgeSetup xa ya xb yb).signy = (if yb - ya < 0 then -1 else 1) := by
  have h1 := iabs_nonneg (xb - xa)
  have h2 := iabs_nonneg (yb - ya)
  have w1 : wrap8 (iabs (xb - xa)) = iabs (xb - xa) := wrap8_id _ ⟨by omega, by omega⟩
  have w2 : wrap8 (iabs (yb - ya)) = iabs (yb - ya) := wrap8_id _ ⟨by omega, by omega⟩
  simp only [edgeSetup, w1, w2, decide_eq_true_eq]
  refine ⟨?_, ?_, trivial, trivial⟩
  · split_ifs <;> omega
  · split_ifs <;> omega

theorem fillFlatSideTriangleInt_core (fuel : Nat) (x1 y1 x2 y2 x3 : Int) (hf : 128 ≤ fuel)
    (hy : y2 ≠ y1) (hx2 : iabs (x2 - x1) ≤ 63) (hx3 : iabs (x3 - x1) ≤ 63)
    (hy2 : iabs (y2 - y1) ≤ 63) :
    (fillFlatSideTriangleInt fuel x1 y1 x2 y2 x3 y2).2 = true ∧
    ((fillFlatSideTriangleInt fuel x1 y1 x2 y2 x3 y2).1.length : Int) =
      max (iabs (x2 - x1)) (iabs (y2 - y1)) + 1 ∧
    (∀ y, y ∈ (fillFlatSideTriangleInt fuel x1 y1 x2 y2 x3 y2).1.map (fun c => c.2.2) ↔
      min y1 y2 ≤ y ∧ y ≤ max y1 y2) ∧
    (iabs (x2 - x1) ≤ iabs (y2 - y1) →
      ((fillFlatSideTriangleInt fuel x1 y1 x2 y2 x3 y2).1.map (fun c => c.2.2)).Nodup) := by
  obtain ⟨a1, a2, a3, a4⟩ := edgeSetup_facts x1 y1 x2 y2 hx2 hy2
  obtain ⟨b1, b2, b3, b4⟩ := edgeSetup_facts x1 y1 x3 y2 hx3 hy2
  have n1 := iabs_nonneg (x2 - x1)
  have n2 := iabs_nonneg (x3 - x1)
  have hdy : iabs (y2 - y1) = (if y2 - y1 < 0 then -1 else 1) * (y2 - y1) ∧
      0 < iabs (y2 - y1) := by
    unfold iabs
    split_ifs <;> omega
  have t1 : (edgeSetup x1 y1 x2 y2).Tame := ⟨by omega, by omega, by omega, by omega⟩
  have t2 : (edgeSetup x1 y1 x3 y2).Tame := ⟨by omega, by omega, by omega, by omega⟩
  have hs : (if y2 - y1 < 0 then (-1 : Int) else 1) = 1 ∨
      (if y2 - y1 < 0 then (-1 : Int) else 1) = -1 := by
    split_ifs
    · exact Or.inr rfl
    · exact Or.inl rfl
  have hnc : (edgeSetup x1 y1 x3 y2).changed = false → 1 ≤ (edgeSetup x1 y1 x3 y2).dy := by
    intro hc
    have : ¬ iabs (y2 - y1) > iabs (x3 - x1) := by
      rw [← b3, hc]
      decide
    omega
  have hyc : (edgeSetup x1 y1 x2 y2).changed = true →
      y2 = y1 + (if y2 - y1 < 0 then -1 else 1) * (edgeSetup x1 y1 x2 y2).dx := by
    intro hc
    have := a3.1 hc
    rw [a1]
    split_ifs at hdy ⊢ <;> omega
  have hyn : (edgeSetup x1 y1 x2 y2).changed = false →
      y2 = y1 + (if y2 - y1 < 0 then -1 else 1) * (edgeSetup x1 y1 x2 y2).dy := by
    intro hc
    have : ¬ iabs (y2 - y1) > iabs (x2 - x1) := by
      rw [← a3, hc]
      decide
    rw [a2]
    split_ifs at hdy ⊢ <;> omega
  have hcnt : ((edgeSetup x1 y1 x2 y2).dx + 1).toNat = (edgeSetup x1 y1 x2 y2).dx.toNat + 1 := by
    omega
  have key := spanLoop_rows fuel hf (edgeSetup x1 y1 x2 y2) (edgeSetup x1 y1 x3 y2) t1 t2
    (if y2 - y1 < 0 then -1 else 1) hs a4 b4 hnc y1 y2 hyc hyn
    (edgeSetup x1 y1 x2 y2).dx.toNat 0 0 x1 y1
    (wrap8 (2 * (edgeSetup x1 y1 x2 y2).dy - (edgeSetup x1 y1 x2 y2).dx)) x1
    (wrap8 (2 * (edgeSetup x1 y1 x3 y2).dy - (edgeSetup x1 y1 x3 y2).dx))
    (le_refl _) (by omega) (by omega)
    (by rw [wrap8_id _ (by omega)]; omega) (fun _ => rfl)
    (fun _ => by rw [wrap8_id _ (by omega)]; omega)
    (by rw [wrap8_id _ (by omega)]; omega)
  unfold fillFlatSideTriangleInt
  simp only
  rw [hcnt]
  obtain ⟨k1, k2, k3, k4, k5⟩ := key
  refine ⟨k1, ?_, ?_, ?_⟩
  · rw [k2]
    push_cast
    omega
  · intro y
    rw [k4]
    split_ifs <;> omega
  · intro hle
    refine k5 ?_
    by_cases hc : (edgeSetup x1 y1 x2 y2).changed = true
    · exact Or.inl hc
    · right
      have : ¬ iabs (y2 - y1) > iabs (x2 - x1) := fun h => hc (a3.2 h)
      omega

/-- C4 as amended: for a flat-side triangle (apex `(x1,y1)`, flat side on row
`y2 /= y1`) whose vertices differ from the apex by at most 63 in each
coordinate, `fillFlatSideTriangleInt` returns once every `while` loop may
run 128 iterations; it makes `max(|x2-x1|, |y2-y1|) + 1` calls of
`drawFastHLine`; the rows of these calls are exactly the rows from the apex
row to the flat-side row (every such row gets a span, none is skipped); and
no row gets two calls if and only if `|x2-x1| <= |y2-y1|`. -/
theorem fillFlatSideTriangleInt_rows (fuel : Nat) (x1 y1 x2 y2 x3 : Int) (hf : 128 ≤ fuel)
    (hy : y2 ≠ y1) (hx2 : |x2 - x1| ≤ 63) (hx3 : |x3 - x1| ≤ 63) (hy2 : |y2 - y1| ≤ 63) :
    (fillFlatSideTriangleInt fuel x1 y1 x2 y2 x3 y2).2 = true ∧
    ((fillFlatSideTriangleInt fuel x1 y1 x2 y2 x3 y2).1.length : Int) =
      max |x2 - x1| |y2 - y1| + 1 ∧
    (∀ y, y ∈ (fillFlatSideTriangleInt fuel x1 y1 x2 y2 x3 y2).1.map (fun c => c.2.2) ↔
      min y1 y2 ≤ y ∧ y ≤ max y1 y2) ∧
    (((fillFlatSideTriangleInt fuel x1 y1 x2 y2 x3 y2).1.map (fun c => c.2.2)).Nodup ↔
      |x2 - x1| ≤ |y2 - y1|) := by
  rw [← iabs_eq_abs] at hx2 hx3 hy2
  rw [← iabs_eq_abs, ← iabs_eq_abs]
  obtain ⟨k1, k2, k4, k5⟩ := fillFlatSideTriangleInt_core fuel x1 y1 x2 y2 x3 hf hy hx2 hx3 hy2
  refine ⟨k1, k2, k4, ?_, k5⟩
  intro hnd
  have hsub : ((fillFlatSideTriangleInt fuel x1 y1 x2 y2 x3 y2).1.map
      (fun c => c.2.2)).toFinset ⊆ Finset.Icc (min y1 y2) (max y1 y2) := by
    intro y hy
    rw [List.mem_toFinset, k4] at hy
    rw [Finset.mem_Icc]
    exact hy
  have hcard := Finset.card_le_card hsub
  rw [List.toFinset_card_of_nodup hnd, List.length_map, Int.card_Icc] at hcard
  have hdy : iabs (y2 - y1) = max y1 y2 - min y1 y2 := by
    unfold iabs
    split_ifs <;> omega
  omega

/-- C4, concrete instance of the amended statement: apex (4,0), flat side from
(8,2) to (0,2). -/
theorem fillFlatSideTriangleInt_rows_witness :
    (128 ≤ 128) ∧ ((2 : Int) ≠ 0) ∧ |(8 : Int) - 4| ≤ 63 ∧ |(0 : Int) - 4| ≤ 63 ∧
    |(2 : Int) - 0| ≤ 63 ∧
    (fillFlatSideTriangleInt 128 4 0 8 2 0 2).2 = true ∧
    ((fillFlatSideTriangleInt 128 4 0 8 2 0 2).1.length : Int) =
      max |(8 : Int) - 4| |(2 : Int) - 0| + 1 ∧
    (∀ y, y ∈ (fillFlatSideTriangleInt 128 4 0 8 2 0 2).1.map (fun c => c.2.2) ↔
      min 0 2 ≤ y ∧ y ≤ max 0 2) ∧
    (((fillFlatSideTriangleInt 128 4 0 8 2 0 2).1.map (fun c => c.2.2)).Nodup ↔
      |(8 : Int) - 4| ≤ |(2 : Int) - 0|) :=
  ⟨le_refl _, by decide, by decide, by decide, by decide,
    fillFlatSideTriangleInt_rows 128 4 0 8 2 0 (le_refl _) (by decide) (by decide) (by decide)
      (by decide)⟩

/-- C4 as stated fails: with apex (4,0) and flat side from (8,2) to (0,2) the
rows 1 and 2 each receive two `drawFastHLine` calls; and with apex (0,0) and
flat side on row 200 the 8-bit trackers wrap and only row 0 receives a span. -/
theorem fillFlatSideTriangleInt_not_one_span_per_row :
    fillFlatSideTriangleInt 128 4 0 8 2 0 2 =
      ([(4, 4, 0), (5, 3, 1), (6, 3, 1), (7, 1, 2), (8, 1, 2)], true) ∧
    ¬ ((fillFlatSideTriangleInt 128 4 0 8 2 0 2).1.map (fun c => c.2.2)).Nodup ∧
    fillFlatSideTriangleInt 128 0 0 0 200 0 200 = ([(0, 0, 0)], true) ∧
    (1 : Int) ∉ (fillFlatSideTriangleInt 128 0 0 0 200 0 200).1.map (fun c => c.2.2) := by
  refine ⟨by decide, by decide, by decide, by decide⟩

theorem errorLoop_stuck (ed : Edge) (hdx : ed.dx = 0) :
    ∀ (fuel : Nat) (tx ty : Int), errorLoop ed fuel tx ty 0 = none := by
  intro fuel
  induction fuel with
  | zero =>
    intro tx ty
    simp [errorLoop]
  | succ k ih =>
    intro tx ty
    rw [errorLoop, if_pos (le_refl _), hdx]
    exact ih _ _

/-- C3 (failing input): for three coincident vertices `(x,y)`,
`fillTriangleIntoImage` makes its first `drawFastHLine` call and then never
leaves the loop `while (e1 >= 0)`: whatever number of iterations the loops
are allowed, the function has not returned. -/
theorem fillTriangleIntoImage_coincident_never_returns (fuel : Nat)
    (interp : Int → Int → Int → Int → Int → Int) (x y : Int) :
    fillTriangleIntoImage fuel interp x y x y x y = ([(x, x, y)], false) := by
  have hs : sortVertices x y x y x y = ((x, y), (x, y), (x, y)) := by
    simp [sortVertices]
  have he : edgeSetup x y x y = ⟨false, 1, 1, 0, 0⟩ := by
    simp [edgeSetup, iabs, wrap8]
  unfold fillTriangleIntoImage
  simp only [hs, if_true]
  unfold fillFlatSideTriangleInt
  simp only [he]
  have h1 : ((0 : Int) + 1).toNat = 1 := rfl
  have h2 : wrap8 (2 * 0 - 0) = 0 := rfl
  rw [h1, h2, spanLoop, errorLoop_stuck _ rfl]

/-! ## Degenerate circles, one line per row, sorting, rectangles: C13, C11, C16, C20 -/

/-- C13: with radius 0, `drawCircleIntoImage` and `fillCircleIntoImage` make
no store (and no `drawFastHLine` call) for every centre, so the image is
unchanged; in particular `drawCircleIntoImage(16,16,0,c)` writes nothing. -/
theorem circle_radius_zero (image : Image) (c : Nat) (x0 y0 : Int) :
    drawCircleIntoImage x0 y0 0 = [] ∧ fillCircleCalls x0 y0 0 = [] ∧
    fillCircleIntoImage x0 y0 0 = [] ∧
    render image c (drawCircleIntoImage x0 y0 0) = image ∧
    render image c (fillCircleIntoImage x0 y0 0) = image ∧
    drawCircleIntoImage 16 16 0 = [] := by
  have h1 : drawCircleIntoImage x0 y0 0 = [] := by simp [drawCircleIntoImage]
  have h2 : fillCircleCalls x0 y0 0 = [] := by simp [fillCircleCalls]
  have h3 : fillCircleIntoImage x0 y0 0 = [] := by simp [fillCircleIntoImage, h2, spanPixels]
  have h4 : drawCircleIntoImage 16 16 0 = [] := by simp [drawCircleIntoImage]
  rw [h1, h3]
  exact ⟨rfl, h2, rfl, rfl, rfl, h4⟩

/-- C11 (failing input): `fillCircleIntoImage(16,16,3,c)` makes eight
`drawFastHLine` calls on only five rows: the centre row 16 is drawn twice
(`b + y0` and `-b + y0` with `b = 0`), and the rows 18 and 14 are each drawn
twice (primary pair and extra pair of the iteration with `a = b = 2`). -/
theorem fillCircleCalls_rows_repeat :
    fillCircleCalls 16 16 3 =
      [(18, 14, 16), (18, 14, 16), (18, 14, 17), (18, 14, 15),
       (17, 15, 18), (17, 15, 14), (17, 15, 18), (17, 15, 14)] ∧
    ¬ ((fillCircleCalls 16 16 3).map (fun s => s.2.2)).Nodup := by
  have h : fillCircleCalls 16 16 3 =
      [(18, 14, 16), (18, 14, 16), (18, 14, 17), (18, 14, 15),
       (17, 15, 18), (17, 15, 14), (17, 15, 18), (17, 15, 14)] := by
    unfold fillCircleCalls
    simp [fillCircleLoop]
  rw [h]
  exact ⟨rfl, by decide⟩

theorem perm3_213 {α : Type} (a b c : α) : List.Perm [b, a, c] [a, b, c] :=
  List.Perm.swap a b [c]

theorem perm3_132 {α : Type} (a b c : α) : List.Perm [a, c, b] [a, b, c] :=
  (List.Perm.swap b c []).cons a

theorem perm3_312 {α : Type} (a b c : α) : List.Perm [c, a, b] [a, b, c] :=
  (List.Perm.swap a c [b]).trans (perm3_132 a b c)

theorem perm3_231 {α : Type} (a b c : α) : List.Perm [b, c, a] [a, b, c] :=
  ((List.Perm.swap a c []).cons b).trans (perm3_213 a b c)

theorem perm3_321 {α : Type} (a b c : α) : List.Perm [c, b, a] [a, b, c] :=
  (List.Perm.swap b c [a]).trans (perm3_231 a b c)

/-- C16: after the three compare-and-swap steps of `fillTriangleIntoImage`
the vertices satisfy `y1 <= y2 <= y3`, and the three `(x, y)` pairs are a
permutation of the three input vertices, for every input. -/
theorem sortVertices_sorted_perm (x1 y1 x2 y2 x3 y3 : Int) :
    (sortVertices x1 y1 x2 y2 x3 y3).1.2 ≤ (sortVertices x1 y1 x2 y2 x3 y3).2.1.2 ∧
    (sortVertices x1 y1 x2 y2 x3 y3).2.1.2 ≤ (sortVertices x1 y1 x2 y2 x3 y3).2.2.2 ∧
    List.Perm
      [(sortVertices x1 y1 x2 y2 x3 y3).1, (sortVertices x1 y1 x2 y2 x3 y3).2.1,
        (sortVertices x1 y1 x2 y2 x3 y3).2.2]
      [(x1, y1), (x2, y2), (x3, y3)] := by
  unfold sortVertices
  simp only
  split_ifs <;> refine ⟨by simp only; omega, by simp only; omega, ?_⟩ <;>
    first
    | exact List.Perm.refl _
    | exact perm3_213 _ _ _
    | exact perm3_132 _ _ _
    | exact perm3_312 _ _ _
    | exact perm3_231 _ _ _
    | exact perm3_321 _ _ _

theorem mem_fillRectIntoImage (x0 y0 x1 y1 i j : Int) :
    (i, j) ∈ fillRectIntoImage x0 y0 x1 y1 ↔
      0 ≤ i ∧ i < WIDTH ∧ 0 ≤ j ∧ j < HEIGHT ∧ min x0 x1 ≤ i ∧ i ≤ max x0 x1 ∧
        y0 ≤ j ∧ j ≤ y1 := by
  unfold fillRectIntoImage fillRectCalls
  rw [mem_spanPixels]
  simp only [List.mem_map, mem_forRange]
  constructor
  · rintro ⟨s, ⟨row, hrow, rfl⟩, hs⟩
    rw [mem_drawFastHLine] at hs
    simp only [WIDTH, HEIGHT] at *
    obtain ⟨rfl, h1, h2, h3, h4⟩ := hs
    refine ⟨?_, ?_, ?_, ?_, ?_, ?_, ?_, ?_⟩ <;> omega
  · intro h
    refine ⟨(x0, x1, j), ⟨j, ⟨h.2.2.2.2.2.2.1, h.2.2.2.2.2.2.2⟩, rfl⟩, ?_⟩
    rw [mem_drawFastHLine]
    simp only [WIDTH, HEIGHT] at *
    refine ⟨trivial, ?_, ?_, ?_, ?_⟩ <;> omega

theorem mem_drawRectIntoImage_swap (x0 y0 x1 y1 : Int) (p : Int × Int) :
    p ∈ drawRectIntoImage x0 y0 x1 y1 ↔ p ∈ drawRectIntoImage x1 y1 x0 y0 := by
  unfold drawRectIntoImage
  simp only [List.mem_append]
  rw [drawFastHLine_comm x0 x1 y1, drawFastHLine_comm x0 x1 y0, drawFastVLine_comm x1 y0 y1,
    drawFastVLine_comm x0 y0 y1]
  tauto

/-- C20: `fillRectIntoImage(x0,y0,x1,y1,c)` sets to `c` exactly the canvas
pixels `(x,y)` with `min(x0,x1) <= x <= max(x0,x1)` and `y0 <= y <= y1` and
leaves every other pixel unchanged; when `y0 > y1` this set is empty and
nothing is written, whereas `drawRectIntoImage` writes the same pixels for
both orders of its corners. -/
theorem fillRectIntoImage_effect (image : Image) (c : Nat) (x0 y0 x1 y1 : Int) :
    (∀ i j, render image c (fillRectIntoImage x0 y0 x1 y1) i j =
      if 0 ≤ i ∧ i < WIDTH ∧ 0 ≤ j ∧ j < HEIGHT ∧ min x0 x1 ≤ i ∧ i ≤ max x0 x1 ∧
          y0 ≤ j ∧ j ≤ y1 then c
      else image i j) ∧
    (y1 < y0 → fillRectIntoImage x0 y0 x1 y1 = [] ∧
      render image c (fillRectIntoImage x0 y0 x1 y1) = image) ∧
    (∀ p, p ∈ drawRectIntoImage x0 y0 x1 y1 ↔ p ∈ drawRectIntoImage x1 y1 x0 y0) := by
  refine ⟨?_, ?_, mem_drawRectIntoImage_swap x0 y0 x1 y1⟩
  · intro i j
    rw [render_apply]
    by_cases h : (i, j) ∈ fillRectIntoImage x0 y0 x1 y1
    · rw [if_pos h, if_pos ((mem_fillRectIntoImage x0 y0 x1 y1 i j).1 h)]
    · rw [if_neg h, if_neg (fun h2 => h ((mem_fillRectIntoImage x0 y0 x1 y1 i j).2 h2))]
  · intro hy
    have he : fillRectIntoImage x0 y0 x1 y1 = [] := by
      unfold fillRectIntoImage fillRectCalls forRange
      have : (y1 + 1 - y0).toNat = 0 := by omega
      rw [this]
      rfl
    rw [he]
    exact ⟨rfl, rfl⟩

/-- C20, concrete instances: a rectangle that sticks out of the canvas, with
its rows in rising order and in falling order. -/
theorem fillRectIntoImage_effect_witness :
    (∀ i j, render (fun _ _ => 0) 7 (fillRectIntoImage 30 (-1) 2 1) i j =
      if 0 ≤ i ∧ i < WIDTH ∧ 0 ≤ j ∧ j < HEIGHT ∧ min 30 2 ≤ i ∧ i ≤ max 30 2 ∧
          -1 ≤ j ∧ j ≤ 1 then 7
      else 0) ∧
    (-1 : Int) < 1 ∧ fillRectIntoImage 30 1 2 (-1) = [] ∧
    (fillRectIntoImage 30 (-1) 2 1).length = 58 := by
  refine ⟨(fillRectIntoImage_effect (fun _ _ => 0) 7 30 (-1) 2 1).1, by decide,
    ((fillRectIntoImage_effect (fun _ _ => 0) 7 30 1 2 (-1)).2.1 (by decide)).1, by decide⟩

/-! ## Nearest pixel and bounding box of a line: C14, C18 -/

theorem iabs_two_mul (z : Int) : iabs (2 * z) = 2 * iabs z := by
  unfold iabs
  split_ifs <;> omega

theorem lineLoop_mem_bounds (plot : Int → Int → Int × Int) (D A s : Int) (hA : 0 ≤ A) (hAD : A ≤ D) :
    ∀ (n : Nat) (x y sum k j : Int), sum = D - 2 * (k * A) + 2 * (j * D) → 0 ≤ sum →
      sum < 2 * D →
      ∀ p ∈ lineLoop plot (2 * D) (2 * A) s n x y sum, ∃ k2 j2 : Int,
        k ≤ k2 ∧ k2 < k + n ∧ j ≤ j2 ∧ p = plot (x + (k2 - k)) (y + s * (j2 - j)) ∧
        0 ≤ D - 2 * (k2 * A) + 2 * (j2 * D) ∧ D - 2 * (k2 * A) + 2 * (j2 * D) < 2 * D := by
  intro n
  induction n with
  | zero =>
    intro x y sum k j _ _ _ p hp
    exact absurd hp (List.not_mem_nil _)
  | succ n ih =>
    intro x y sum k j hsum h0 h1 p hp
    rw [lineLoop, List.mem_cons] at hp
    have e1 := add_mul k 1 A
    have e2 := add_mul j 1 D
    rcases hp with hp | hp
    · refine ⟨k, j, le_refl _, by push_cast; omega, le_refl _, ?_, by omega, by omega⟩
      rw [hp]
      simp
    · by_cases hneg : sum - 2 * A < 0
      · rw [if_pos hneg] at hp
        obtain ⟨k2, j2, a1, a2, a3, a4, a5, a6⟩ := ih (x + 1) (y + s) (sum - 2 * A + 2 * D)
          (k + 1) (j + 1) (by omega) (by omega) (by omega) p hp
        refine ⟨k2, j2, by omega, by push_cast at a2 ⊢; omega, by omega, ?_, a5, a6⟩
        rw [a4]
        congr 1 <;> ring
      · rw [if_neg hneg] at hp
        obtain ⟨k2, j2, a1, a2, a3, a4, a5, a6⟩ := ih (x + 1) y (sum - 2 * A)
          (k + 1) j (by omega) (by omega) (by omega) p hp
        refine ⟨k2, j2, by omega, by push_cast at a2 ⊢; omega, a3, ?_, a5, a6⟩
        rw [a4]
        congr 1
        ring

theorem lineLoop_exists_bounds (plot : Int → Int → Int × Int) (D A s : Int) (hA : 0 ≤ A) (hAD : A ≤ D) :
    ∀ (n : Nat) (x y sum k j : Int), sum = D - 2 * (k * A) + 2 * (j * D) → 0 ≤ sum →
      sum < 2 * D →
      ∀ i : Nat, i < n → ∃ j2 : Int, j ≤ j2 ∧
        plot (x + i) (y + s * (j2 - j)) ∈ lineLoop plot (2 * D) (2 * A) s n x y sum ∧
        0 ≤ D - 2 * ((k + i) * A) + 2 * (j2 * D) ∧
        D - 2 * ((k + i) * A) + 2 * (j2 * D) < 2 * D := by
  intro n
  induction n with
  | zero =>
    intro x y sum k j _ _ _ i hi
    omega
  | succ n ih =>
    intro x y sum k j hsum h0 h1 i hi
    rw [lineLoop]
    have e1 := add_mul k 1 A
    have e2 := add_mul j 1 D
    rcases Nat.eq_zero_or_pos i with hi0 | hipos
    · subst hi0
      refine ⟨j, le_refl _, by simp, ?_, ?_⟩
      · simp only [Nat.cast_zero, add_zero]
        omega
      · simp only [Nat.cast_zero, add_zero]
        omega
    · obtain ⟨i2, rfl⟩ : ∃ i2, i = i2 + 1 := ⟨i - 1, by omega⟩
      have e3 : k + ((i2 + 1 : Nat) : Int) = k + 1 + (i2 : Int) := by push_cast; ring
      have e4 : x + ((i2 + 1 : Nat) : Int) = x + 1 + (i2 : Int) := by push_cast; ring
      by_cases hneg : sum - 2 * A < 0
      · rw [if_pos hneg]
        obtain ⟨j2, a1, a2, a3, a4⟩ := ih (x + 1) (y + s) (sum - 2 * A + 2 * D)
          (k + 1) (j + 1) (by omega) (by omega) (by omega) i2 (by omega)
        refine ⟨j2, by omega, List.mem_cons_of_mem _ ?_, by rw [e3]; exact a3, by rw [e3]; exact a4⟩
        rw [e4]
        have e5 : y + s * (j2 - j) = y + s + s * (j2 - (j + 1)) := by ring
        rw [e5]
        exact a2
      · rw [if_neg hneg]
        obtain ⟨j2, a1, a2, a3, a4⟩ := ih (x + 1) y (sum - 2 * A)
          (k + 1) j (by omega) (by omega) (by omega) i2 (by omega)
        refine ⟨j2, a1, List.mem_cons_of_mem _ ?_, by rw [e3]; exact a3, by rw [e3]; exact a4⟩
        rw [e4]
        exact a2

theorem lineLoop_frame_aux (plot : Int → Int → Int × Int) (a b D d A s : Int) (hpos : 0 < D)
    (hA : 0 ≤ A) (hAD : A ≤ D) (hs : (s = 1 ∧ d = A) ∨ (s = -1 ∧ d = -A)) :
    (∀ p ∈ lineLoop plot (2 * D) (2 * A) s (D + 1).toNat a b D,
      ∃ k m : Int, p = plot (a + k) (b + m) ∧ NearestOnLine D d k m ∧
        ((0 ≤ m ∧ m ≤ d) ∨ (d ≤ m ∧ m ≤ 0))) ∧
    (∀ k : Int, 0 ≤ k → k ≤ D →
      ∃ m : Int, plot (a + k) (b + m) ∈ lineLoop plot (2 * D) (2 * A) s (D + 1).toNat a b D ∧
        (k = 0 → m = 0) ∧ (k = D → m = d)) := by
  have hinit : D = D - 2 * (0 * A) + 2 * (0 * D) := by ring
  constructor
  · intro p hp
    obtain ⟨k2, j2, a1, a2, a3, a4, a5, a6⟩ :=
      lineLoop_mem_bounds plot D A s hA hAD (D + 1).toNat a b D 0 0 hinit hpos.le (by omega) p hp
    have hk : k2 ≤ D := by omega
    have hj : j2 ≤ A := by
      by_contra hcon
      have h1 := mul_le_mul_of_nonneg_right (show A + 1 ≤ j2 by omega) hpos.le
      have h2 := mul_le_mul_of_nonneg_right hk hA
      nlinarith
    have hab : |j2| = j2 := abs_of_nonneg a3
    refine ⟨k2, s * j2, by simpa using a4, ⟨a1, hk, ?_, ?_⟩, ?_⟩
    · rw [abs_le]
      rcases hs with ⟨rfl, rfl⟩ | ⟨rfl, rfl⟩
      · constructor <;> nlinarith
      · constructor <;> nlinarith
    · intro _
      rcases hs with ⟨rfl, rfl⟩ | ⟨rfl, rfl⟩
      · rw [one_mul, hab, abs_of_nonneg hA]
        linarith
      · rw [neg_one_mul, abs_neg, abs_neg, hab, abs_of_nonneg hA]
        linarith
    · rcases hs with ⟨rfl, rfl⟩ | ⟨rfl, rfl⟩
      · left
        constructor <;> omega
      · right
        constructor <;> omega
  · intro k hk0 hkD
    obtain ⟨j2, b1, b2, b3, b4⟩ :=
      lineLoop_exists_bounds plot D A s hA hAD (D + 1).toNat a b D 0 0 hinit hpos.le (by omega)
        k.toNat (by omega)
    have hkc : ((k.toNat : Nat) : Int) = k := Int.toNat_of_nonneg hk0
    rw [hkc] at b2 b3 b4
    rw [zero_add] at b3 b4
    rw [sub_zero] at b2
    refine ⟨s * j2, b2, ?_, ?_⟩
    · intro hk
      subst hk
      have : j2 = 0 := by
        by_contra hcon
        have h1 := mul_le_mul_of_nonneg_right (show 1 ≤ j2 by omega) hpos.le
        nlinarith
      rw [this, mul_zero]
    · intro hk
      subst hk
      have : j2 = A := by
        by_contra hcon
        rcases lt_or_gt_of_ne hcon with hlt | hgt
        · have h1 := mul_le_mul_of_nonneg_right (show j2 + 1 ≤ A by omega) hpos.le
          nlinarith
        · have h1 := mul_le_mul_of_nonneg_right (show A + 1 ≤ j2 by omega) hpos.le
          nlinarith
      rw [this]
      rcases hs with ⟨rfl, rfl⟩ | ⟨rfl, rfl⟩ <;> ring

theorem lineLoop_frame (plot : Int → Int → Int × Int) (a b D d : Int) (hD : 0 ≤ D)
    (hd : iabs d ≤ D) :
    (∀ p ∈ lineLoop plot (2 * D) (iabs (2 * d)) (if d > 0 then 1 else -1) (D + 1).toNat a b D,
      ∃ k m : Int, p = plot (a + k) (b + m) ∧ NearestOnLine D d k m ∧
        ((0 ≤ m ∧ m ≤ d) ∨ (d ≤ m ∧ m ≤ 0))) ∧
    (∀ k : Int, 0 ≤ k → k ≤ D →
      ∃ m : Int, plot (a + k) (b + m) ∈
          lineLoop plot (2 * D) (iabs (2 * d)) (if d > 0 then 1 else -1) (D + 1).toNat a b D ∧
        (k = 0 → m = 0) ∧ (k = D → m = d)) := by
  rw [iabs_two_mul]
  rcases eq_or_lt_of_le hD with h0 | hpos
  · subst h0
    have hd0 : d = 0 := by
      unfold iabs at hd
      split_ifs at hd <;> omega
    subst hd0
    have hL : lineLoop plot (2 * 0) (2 * iabs 0) (if (0 : Int) > 0 then 1 else -1)
        ((0 : Int) + 1).toNat a b 0 = [plot a b] := by
      simp [lineLoop, iabs]
    rw [hL]
    constructor
    · intro p hp
      rw [List.mem_singleton] at hp
      refine ⟨0, 0, by simpa using hp, ⟨le_refl _, le_refl _, by simp, fun h => absurd h (lt_irrefl _)⟩,
        Or.inl ⟨le_refl _, le_refl _⟩⟩
    · intro k hk0 hkD
      obtain rfl : k = 0 := by omega
      exact ⟨0, by simp, fun _ => rfl, fun _ => rfl⟩
  · refine lineLoop_frame_aux plot a b D d (iabs d) _ hpos (iabs_nonneg d) hd ?_
    unfold iabs
    split_ifs <;> first | (left; constructor <;> omega) | (right; constructor <;> omega)

theorem drawLineIntoImage_shallow (x1 y1 x2 y2 : Int) (hx : x1 ≤ x2)
    (hs : iabs (y2 - y1) ≤ iabs (x2 - x1)) :
    drawLineIntoImage x1 y1 x2 y2 =
      lineLoop (fun x y => (x, y)) (2 * (x2 - x1)) (iabs (2 * (y2 - y1)))
        (if y2 - y1 > 0 then 1 else -1) (x2 - x1 + 1).toNat x1 y1 (x2 - x1) := by
  rw [drawLineIntoImage, if_neg (by omega), if_neg (by omega)]

theorem bresteepline_up (x3 y3 x4 y4 : Int) (h : x3 ≤ x4) :
    bresteepline x3 y3 x4 y4 =
      lineLoop (fun x y => (y, x)) (2 * (x4 - x3)) (iabs (2 * (y4 - y3)))
        (if y4 - y3 > 0 then 1 else -1) (x4 - x3 + 1).toNat x3 y3 (x4 - x3) := by
  rw [bresteepline, if_neg (by omega)]

theorem drawLineIntoImage_steep (x1 y1 x2 y2 : Int) (hs : iabs (y2 - y1) > iabs (x2 - x1)) :
    drawLineIntoImage x1 y1 x2 y2 = bresteepline y1 x1 y2 x2 := by
  have hne : y1 ≠ y2 := by
    intro h
    subst h
    have := iabs_nonneg (x2 - x1)
    simp [iabs] at hs
    omega
  by_cases hx : x1 ≤ x2
  · rw [drawLineIntoImage, if_neg (by omega), if_pos hs]
  · have hs2 : iabs (y1 - y2) > iabs (x1 - x2) := by
      unfold iabs at hs ⊢
      split_ifs at hs ⊢ <;> omega
    rw [drawLineIntoImage_swap, drawLineIntoImage, if_neg (by omega), if_pos hs2]
    exact bresteepline_swap y2 x2 y1 x1 (Ne.symm hne)

theorem drawLineIntoImage_shallow_facts (x1 y1 x2 y2 : Int) (hx : x1 ≤ x2)
    (hs : iabs (y2 - y1) ≤ iabs (x2 - x1)) :
    (∀ x y : Int, (x, y) ∈ drawLineIntoImage x1 y1 x2 y2 →
      NearestOnLine (x2 - x1) (y2 - y1) (x - x1) (y - y1) ∧
        ((0 ≤ y - y1 ∧ y - y1 ≤ y2 - y1) ∨ (y2 - y1 ≤ y - y1 ∧ y - y1 ≤ 0))) ∧
    (∀ k : Int, 0 ≤ k → k ≤ x2 - x1 → ∃ m : Int, (x1 + k, y1 + m) ∈ drawLineIntoImage x1 y1 x2 y2) ∧
    (x1, y1) ∈ drawLineIntoImage x1 y1 x2 y2 ∧ (x2, y2) ∈ drawLineIntoImage x1 y1 x2 y2 := by
  have hX : iabs (x2 - x1) = x2 - x1 := by
    unfold iabs
    split_ifs <;> omega
  rw [hX] at hs
  rw [drawLineIntoImage_shallow x1 y1 x2 y2 hx (by rw [hX]; exact hs)]
  obtain ⟨f1, f2⟩ := lineLoop_frame (fun x y => (x, y)) x1 y1 (x2 - x1) (y2 - y1) (by omega) hs
  refine ⟨?_, ?_, ?_, ?_⟩
  · intro x y h
    obtain ⟨k, m, hp, hn, hr⟩ := f1 (x, y) h
    simp only [Prod.mk.injEq] at hp
    have hk : x - x1 = k := by omega
    have hm : y - y1 = m := by omega
    rw [hk, hm]
    exact ⟨hn, hr⟩
  · intro k hk0 hkD
    obtain ⟨m, hm, -, -⟩ := f2 k hk0 hkD
    exact ⟨m, hm⟩
  · obtain ⟨m, hm, h0, -⟩ := f2 0 (le_refl _) (by omega)
    rw [h0 rfl, add_zero, add_zero] at hm
    exact hm
  · obtain ⟨m, hm, -, hD⟩ := f2 (x2 - x1) (by omega) (le_refl _)
    rw [hD rfl, show x1 + (x2 - x1) = x2 by omega, show y1 + (y2 - y1) = y2 by omega] at hm
    exact hm

theorem drawLineIntoImage_steep_facts (x1 y1 x2 y2 : Int) (hy : y1 ≤ y2)
    (hs : iabs (y2 - y1) > iabs (x2 - x1)) :
    (∀ x y : Int, (x, y) ∈ drawLineIntoImage x1 y1 x2 y2 →
      NearestOnLine (y2 - y1) (x2 - x1) (y - y1) (x - x1) ∧
        ((0 ≤ x - x1 ∧ x - x1 ≤ x2 - x1) ∨ (x2 - x1 ≤ x - x1 ∧ x - x1 ≤ 0))) ∧
    (∀ k : Int, 0 ≤ k → k ≤ y2 - y1 → ∃ m : Int, (x1 + m, y1 + k) ∈ drawLineIntoImage x1 y1 x2 y2) ∧
    (x1, y1) ∈ drawLineIntoImage x1 y1 x2 y2 ∧ (x2, y2) ∈ drawLineIntoImage x1 y1 x2 y2 := by
  have hY : iabs (y2 - y1) = y2 - y1 := by
    unfold iabs
    split_ifs <;> omega
  rw [drawLineIntoImage_steep x1 y1 x2 y2 hs, bresteepline_up y1 x1 y2 x2 hy]
  rw [hY] at hs
  obtain ⟨f1, f2⟩ := lineLoop_frame (fun x y => (y, x)) y1 x1 (y2 - y1) (x2 - x1) (by omega)
    hs.le
  refine ⟨?_, ?_, ?_, ?_⟩
  · intro x y h
    obtain ⟨k, m, hp, hn, hr⟩ := f1 (x, y) h
    simp only [Prod.mk.injEq] at hp
    have hk : y - y1 = k := by omega
    have hm : x - x1 = m := by omega
    rw [hk, hm]
    exact ⟨hn, hr⟩
  · intro k hk0 hkD
    obtain ⟨m, hm, -, -⟩ := f2 k hk0 hkD
    exact ⟨m, hm⟩
  · obtain ⟨m, hm, h0, -⟩ := f2 0 (le_refl _) (by omega)
    rw [h0 rfl] at hm
    simp only [add_zero] at hm
    exact hm
  · obtain ⟨m, hm, -, hD⟩ := f2 (y2 - y1) (by omega) (le_refl _)
    rw [hD rfl] at hm
    simp only [show x1 + (x2 - x1) = x2 by omega, show y1 + (y2 - y1) = y2 by omega] at hm
    exact hm

theorem iabs_sub_comm (u v : Int) : iabs (u - v) = iabs (v - u) := by
  unfold iabs
  split_ifs <;> omega

/-- C14: `drawLineIntoImage` writes, for every major-axis offset `k` with
`0 <= k <= D` from the starting end point (the end point with the smaller
`x` for a shallow line, with the smaller `y` for a steep line), a pixel, and
every pixel it writes has a minor-axis offset `m` with
`|2*(m*D - k*d)| <= D`, an exact tie being resolved by not stepping
(`2*(|m|*D - k*|d|) < D`).  The four parts are the shallow loop of
`drawLineIntoImage` and the transposed loop of `bresteepline`, each for both
orders of the end points. -/
theorem drawLineIntoImage_nearest (x1 y1 x2 y2 : Int) :
    (iabs (y2 - y1) ≤ iabs (x2 - x1) → x1 ≤ x2 →
      (∀ x y : Int, (x, y) ∈ drawLineIntoImage x1 y1 x2 y2 →
        NearestOnLine (x2 - x1) (y2 - y1) (x - x1) (y - y1)) ∧
      (∀ k : Int, 0 ≤ k → k ≤ x2 - x1 →
        ∃ m : Int, (x1 + k, y1 + m) ∈ drawLineIntoImage x1 y1 x2 y2)) ∧
    (iabs (y2 - y1) ≤ iabs (x2 - x1) → x2 < x1 →
      (∀ x y : Int, (x, y) ∈ drawLineIntoImage x1 y1 x2 y2 →
        NearestOnLine (x1 - x2) (y1 - y2) (x - x2) (y - y2)) ∧
      (∀ k : Int, 0 ≤ k → k ≤ x1 - x2 →
        ∃ m : Int, (x2 + k, y2 + m) ∈ drawLineIntoImage x1 y1 x2 y2)) ∧
    (iabs (y2 - y1) > iabs (x2 - x1) → y1 ≤ y2 →
      (∀ x y : Int, (x, y) ∈ drawLineIntoImage x1 y1 x2 y2 →
        NearestOnLine (y2 - y1) (x2 - x1) (y - y1) (x - x1)) ∧
      (∀ k : Int, 0 ≤ k → k ≤ y2 - y1 →
        ∃ m : Int, (x1 + m, y1 + k) ∈ drawLineIntoImage x1 y1 x2 y2)) ∧
    (iabs (y2 - y1) > iabs (x2 - x1) → y2 < y1 →
      (∀ x y : Int, (x, y) ∈ drawLineIntoImage x1 y1 x2 y2 →
        NearestOnLine (y1 - y2) (x1 - x2) (y - y2) (x - x2)) ∧
      (∀ k : Int, 0 ≤ k → k ≤ y1 - y2 →
        ∃ m : Int, (x2 + m, y2 + k) ∈ drawLineIntoImage x1 y1 x2 y2)) := by
  refine ⟨?_, ?_, ?_, ?_⟩
  · intro hs hx
    obtain ⟨f1, f2, -, -⟩ := drawLineIntoImage_shallow_facts x1 y1 x2 y2 hx hs
    exact ⟨fun x y h => (f1 x y h).1, f2⟩
  · intro hs hx
    rw [drawLineIntoImage_swap]
    obtain ⟨f1, f2, -, -⟩ := drawLineIntoImage_shallow_facts x2 y2 x1 y1 hx.le
      (by rw [iabs_sub_comm y1 y2, iabs_sub_comm x1 x2]; exact hs)
    exact ⟨fun x y h => (f1 x y h).1, f2⟩
  · intro hs hy
    obtain ⟨f1, f2, -, -⟩ := drawLineIntoImage_steep_facts x1 y1 x2 y2 hy hs
    exact ⟨fun x y h => (f1 x y h).1, f2⟩
  · intro hs hy
    rw [drawLineIntoImage_swap]
    obtain ⟨f1, f2, -, -⟩ := drawLineIntoImage_steep_facts x2 y2 x1 y1 hy.le
      (by rw [iabs_sub_comm y1 y2, iabs_sub_comm x1 x2]; exact hs)
    exact ⟨fun x y h => (f1 x y h).1, f2⟩

/-- C14, concrete instance: on the line from (0,0) to (2,1) the pixel at major
offset 1 is exactly half-way between two rows; the minor axis has not
stepped there, the pixel written is (1,0). -/
theorem drawLineIntoImage_nearest_witness :
    iabs ((1 : Int) - 0) ≤ iabs ((2 : Int) - 0) ∧ (0 : Int) ≤ 2 ∧
    ((1 : Int), (0 : Int)) ∈ drawLineIntoImage 0 0 2 1 ∧
    NearestOnLine (2 - 0) (1 - 0) (1 - 0) (0 - 0) := by
  have hm : ((1 : Int), (0 : Int)) ∈ drawLineIntoImage 0 0 2 1 := by
    simp [drawLineIntoImage, lineLoop, iabs]
  exact ⟨by decide, by decide, hm,
    ((drawLineIntoImage_nearest 0 0 2 1).1 (by decide) (by decide)).1 1 0 hm⟩

theorem drawLineIntoImage_box_facts (x1 y1 x2 y2 : Int) :
    (x1, y1) ∈ drawLineIntoImage x1 y1 x2 y2 ∧ (x2, y2) ∈ drawLineIntoImage x1 y1 x2 y2 ∧
    (∀ x y : Int, (x, y) ∈ drawLineIntoImage x1 y1 x2 y2 →
      min x1 x2 ≤ x ∧ x ≤ max x1 x2 ∧ min y1 y2 ≤ y ∧ y ≤ max y1 y2) := by
  by_cases hs : iabs (y2 - y1) ≤ iabs (x2 - x1)
  · by_cases hx : x1 ≤ x2
    · obtain ⟨f1, -, f3, f4⟩ := drawLineIntoImage_shallow_facts x1 y1 x2 y2 hx hs
      refine ⟨f3, f4, fun x y h => ?_⟩
      obtain ⟨⟨h1, h2, -, -⟩, h3⟩ := f1 x y h
      refine ⟨?_, ?_, ?_, ?_⟩ <;> omega
    · rw [drawLineIntoImage_swap]
      obtain ⟨f1, -, f3, f4⟩ := drawLineIntoImage_shallow_facts x2 y2 x1 y1 (by omega)
        (by rw [iabs_sub_comm y1 y2, iabs_sub_comm x1 x2]; exact hs)
      refine ⟨f4, f3, fun x y h => ?_⟩
      obtain ⟨⟨h1, h2, -, -⟩, h3⟩ := f1 x y h
      refine ⟨?_, ?_, ?_, ?_⟩ <;> omega
  · have hs2 : iabs (y2 - y1) > iabs (x2 - x1) := by omega
    by_cases hy : y1 ≤ y2
    · obtain ⟨f1, -, f3, f4⟩ := drawLineIntoImage_steep_facts x1 y1 x2 y2 hy hs2
      refine ⟨f3, f4, fun x y h => ?_⟩
      obtain ⟨⟨h1, h2, -, -⟩, h3⟩ := f1 x y h
      refine ⟨?_, ?_, ?_, ?_⟩ <;> omega
    · rw [drawLineIntoImage_swap]
      obtain ⟨f1, -, f3, f4⟩ := drawLineIntoImage_steep_facts x2 y2 x1 y1 (by omega)
        (by rw [iabs_sub_comm y1 y2, iabs_sub_comm x1 x2]; exact hs2)
      refine ⟨f4, f3, fun x y h => ?_⟩
      obtain ⟨⟨h1, h2, -, -⟩, h3⟩ := f1 x y h
      refine ⟨?_, ?_, ?_, ?_⟩ <;> omega

/-- C18: `drawLineIntoImage` writes both end point pixels, and every pixel it
writes lies in the rectangle `[min(x1,x2), max(x1,x2)] x [min(y1,y2),
max(y1,y2)]`; hence, when both end points are inside the canvas, every
index pair handed to `drawPixelIntoImage` is in range. -/
theorem drawLineIntoImage_bounding_box (x1 y1 x2 y2 : Int) :
    (x1, y1) ∈ drawLineIntoImage x1 y1 x2 y2 ∧ (x2, y2) ∈ drawLineIntoImage x1 y1 x2 y2 ∧
    (∀ x y : Int, (x, y) ∈ drawLineIntoImage x1 y1 x2 y2 →
      min x1 x2 ≤ x ∧ x ≤ max x1 x2 ∧ min y1 y2 ≤ y ∧ y ≤ max y1 y2) ∧
    (InBounds (x1, y1) → InBounds (x2, y2) →
      ∀ p ∈ drawLineIntoImage x1 y1 x2 y2, InBounds p) := by
  obtain ⟨f1, f2, f3⟩ := drawLineIntoImage_box_facts x1 y1 x2 y2
  refine ⟨f1, f2, f3, ?_⟩
  intro h1 h2 p hp
  obtain ⟨x, y⟩ := p
  have h := f3 x y hp
  simp only [InBounds, WIDTH, HEIGHT] at *
  omega

/-- C18, concrete instance: the steep line from (31,0) to (20,31). -/
theorem drawLineIntoImage_bounding_box_witness :
    InBounds (31, 0) ∧ InBounds (20, 31) ∧
    ((31 : Int), (0 : Int)) ∈ drawLineIntoImage 31 0 20 31 ∧
    ((20 : Int), (31 : Int)) ∈ drawLineIntoImage 31 0 20 31 ∧
    (∀ p ∈ drawLineIntoImage 31 0 20 31, InBounds p) := by
  have hb1 : InBounds (31, 0) := by
    simp only [InBounds, WIDTH, HEIGHT]
    decide
  have hb2 : InBounds (20, 31) := by
    simp only [InBounds, WIDTH, HEIGHT]
    decide
  have h := drawLineIntoImage_bounding_box 31 0 20 31
  exact ⟨hb1, hb2, h.1, h.2.1, h.2.2.2 hb1 hb2⟩

/-! ## Circles as sets of lattice points: C15, C17 -/

theorem drawCircleLoop_ring (x0 y0 r : Int) :
    ∀ (n : Nat) (a b err : Int), (a - b + 1).toNat ≤ n → 0 ≤ b → a ≤ r →
      err = (a - 1) * (a - 1) + (b + 1) * (b + 1) - r * r + r - 1 →
      (a ≥ b → r * r - r < a * a + b * b ∧ a * a + b * b ≤ r * r + r) →
      ∀ dx dy : Int, (x0 + dx, y0 + dy) ∈ drawCircleLoop x0 y0 a b err →
        r * r - r < dx * dx + dy * dy ∧ dx * dx + dy * dy ≤ r * r + r := by
  intro n
  induction n with
  | zero =>
    intro a b err hn hb ha he hin dx dy h
    rw [drawCircleLoop, if_neg (by omega)] at h
    exact absurd h (List.not_mem_nil _)
  | succ n ih =>
    intro a b err hn hb ha he hin dx dy h
    by_cases hab : a ≥ b
    · rw [drawCircleLoop, if_pos hab, List.mem_append] at h
      obtain ⟨hlo, hhi⟩ := hin hab
      rcases h with h | h
      · rw [mem_octants] at h
        rcases h with ⟨h1 | h1, h2 | h2⟩ | ⟨h1 | h1, h2 | h2⟩ <;> subst h1 <;> subst h2 <;>
          constructor <;> nlinarith
      · by_cases hneg : err < 0
        · rw [if_pos hneg] at h
          refine ih a (b + 1) _ (by omega) (by omega) ha (by rw [he]; ring) ?_ dx dy h
          intro hab2
          constructor <;> linarith
        · rw [if_neg hneg] at h
          refine ih (a - 1) (b + 1) _ (by omega) (by omega) (by omega) (by rw [he]; ring) ?_
            dx dy h
          intro hab2
          constructor <;> linarith
    · rw [drawCircleLoop, if_neg hab] at h
      exact absurd h (List.not_mem_nil _)

theorem drawCircleIntoImage_ring (x0 y0 r x y : Int) (hr : 1 ≤ r)
    (h : (x, y) ∈ drawCircleIntoImage x0 y0 r) :
    r * r - r < (x - x0) * (x - x0) + (y - y0) * (y - y0) ∧
      (x - x0) * (x - x0) + (y - y0) * (y - y0) ≤ r * r + r := by
  unfold drawCircleIntoImage at h
  rw [if_neg (by omega)] at h
  have hxy : (x, y) = (x0 + (x - x0), y0 + (y - y0)) := by
    refine Prod.ext ?_ ?_ <;> simp
  rw [hxy] at h
  refine drawCircleLoop_ring x0 y0 r _ r 0 (1 - r) (le_refl _) (le_refl _) (le_refl _)
    (by ring) ?_ _ _ h
  intro _
  constructor <;> nlinarith

/-- C15: for a radius `r >= 1`, every pixel `(x, y)` written by
`drawCircleIntoImage` satisfies `r*r - r < (x-x0)^2 + (y-y0)^2 <= r*r + r`,
that is, its distance from the centre differs from `r` by less than half a
pixel. -/
theorem drawCircleIntoImage_nearest (x0 y0 r x y : Int) (hr : 1 ≤ r)
    (h : (x, y) ∈ drawCircleIntoImage x0 y0 r) :
    r * r - r < (x - x0) ^ 2 + (y - y0) ^ 2 ∧ (x - x0) ^ 2 + (y - y0) ^ 2 ≤ r * r + r := by
  have := drawCircleIntoImage_ring x0 y0 r x y hr h
  rw [pow_two, pow_two]
  exact this

/-- C15, concrete instance: the pixel (19,17) of the circle of radius 3 about
(16,16). -/
theorem drawCircleIntoImage_nearest_witness :
    (1 : Int) ≤ 3 ∧ ((19 : Int), (17 : Int)) ∈ drawCircleIntoImage 16 16 3 ∧
    (3 : Int) * 3 - 3 < (19 - 16) ^ 2 + (17 - 16) ^ 2 ∧
    ((19 : Int) - 16) ^ 2 + (17 - 16) ^ 2 ≤ 3 * 3 + 3 := by
  have h : ((19 : Int), (17 : Int)) ∈ drawCircleIntoImage 16 16 3 := by
    simp [drawCircleIntoImage, drawCircleLoop]
  exact ⟨by decide, h, drawCircleIntoImage_nearest 16 16 3 19 17 (by decide) h⟩

theorem mul_self_le_of_between (u c : Int) (h1 : -c ≤ u) (h2 : u ≤ c) : u * u ≤ c * c := by
  nlinarith

theorem between_of_mul_self_lt (u a : Int) (ha : 0 ≤ a) (h : u * u < a * a) :
    -a < u ∧ u < a := by
  constructor <;> by_contra hc <;> nlinarith

theorem fillCircleLoop_inside (x0 y0 r : Int) :
    ∀ (n : Nat) (a b err : Int) (flag : Bool), (a - b + 1).toNat ≤ n → 0 ≤ b → a ≤ r →
      err = (a - 1) * (a - 1) + (b + 1) * (b + 1) - r * r + r - 1 →
      (a ≥ b → (a - 1) * (a - 1) + b * b ≤ r * r - r) →
      (a ≥ b → flag = false → 2 ≤ b ∧ a * a + (b - 1) * (b - 1) ≤ r * r - r) →
      (b = 0 → err < 0 ∨ a ≤ 1) →
      ∀ dx dy : Int, (x0 + dx, y0 + dy) ∈ spanPixels (fillCircleLoop x0 y0 a b err flag) →
        dx * dx + dy * dy ≤ r * r - r := by
  intro n
  induction n with
  | zero =>
    intro a b err flag hn hb ha he i1 i3 i4 dx dy h
    rw [fillCircleLoop, if_neg (by omega)] at h
    exact absurd h (List.not_mem_nil _)
  | succ n ih =>
    intro a b err flag hn hb ha he i1 i3 i4 dx dy h
    by_cases hab : a ≥ b
    · rw [fillCircleLoop, if_pos hab] at h
      simp only [spanPixels_append, List.mem_append] at h
      have j1 := i1 hab
      rcases h with (h | h) | h
      · rw [mem_spanPixels_pair] at h
        obtain ⟨hy, -, -, hx1, hx2⟩ := h
        have hdx : dx * dx ≤ (a - 1) * (a - 1) := by
          by_cases hpos : 0 ≤ a - 1
          · exact mul_self_le_of_between dx (a - 1) (by omega) (by omega)
          · have := mul_self_le_of_between dx (1 - a) (by omega) (by omega)
            linarith
        have hdy : dy * dy = b * b := by
          rcases hy with hy | hy
          · obtain rfl : dy = b := by omega
            rfl
          · obtain rfl : dy = -b := by omega
            ring
        linarith
      · by_cases hc : b > 1 ∧ flag = false
        · rw [if_pos hc, mem_spanPixels_pair] at h
          obtain ⟨hy, -, -, hx1, hx2⟩ := h
          obtain ⟨-, j3⟩ := i3 hab hc.2
          have hdx : dx * dx ≤ (b - 1) * (b - 1) :=
            mul_self_le_of_between dx (b - 1) (by omega) (by omega)
          have hdy : dy * dy = a * a := by
            rcases hy with hy | hy
            · obtain rfl : dy = a := by omega
              rfl
            · obtain rfl : dy = -a := by omega
              ring
          linarith
        · rw [if_neg hc] at h
          exact absurd h (List.not_mem_nil _)
      · by_cases hneg : err < 0
        · rw [if_pos hneg] at h
          refine ih a (b + 1) _ _ (by omega) (by omega) ha (by rw [he]; ring) ?_ ?_ (by omega)
            dx dy h
          · intro _
            linarith
          · intro _ hf
            exfalso
            by_cases hc : b > 1 ∧ flag = false
            · rw [if_pos hc] at hf
              exact absurd hf (by decide)
            · rw [if_neg hc] at hf
              exact hc ⟨by have := (i3 hab hf).1; omega, hf⟩
        · rw [if_neg hneg] at h
          refine ih (a - 1) (b + 1) _ false (by omega) (by omega) (by omega) (by rw [he]; ring)
            ?_ ?_ (by omega) dx dy h
          · intro hab2
            linarith
          · intro hab2 _
            refine ⟨by omega, ?_⟩
            linarith
    · rw [fillCircleLoop, if_neg hab] at h
      exact absurd h (List.not_mem_nil _)

theorem fillCircleLoop_fills (x0 y0 r : Int) :
    ∀ (n : Nat) (a b err : Int) (flag : Bool), (a - b + 1).toNat ≤ n → 0 ≤ b → a ≤ r →
      err = (a - 1) * (a - 1) + (b + 1) * (b + 1) - r * r + r - 1 →
      (a ≥ b → r * r - r < a * a + b * b) →
      (b = 0 → err < 0 ∨ a ≤ 1) →
      ∀ e : Int, ((b ≤ e ∧ e ≤ a - 1) ∨ (e = a ∧ flag = false ∧ b > 1 ∧ a ≥ b)) →
      ∀ dx : Int, dx * dx + e * e ≤ r * r - r →
        (InBounds (x0 + dx, y0 + e) →
          (x0 + dx, y0 + e) ∈ spanPixels (fillCircleLoop x0 y0 a b err flag)) ∧
        (InBounds (x0 + dx, y0 - e) →
          (x0 + dx, y0 - e) ∈ spanPixels (fillCircleLoop x0 y0 a b err flag)) := by
  intro n
  induction n with
  | zero =>
    intro a b err flag hn hb ha he i2 i4 e hT dx hd
    omega
  | succ n ih =>
    intro a b err flag hn hb ha he i2 i4 e hT dx hd
    have hab : a ≥ b := by omega
    have j2 := i2 hab
    rw [fillCircleLoop, if_pos hab]
    simp only [spanPixels_append, List.mem_append]
    by_cases h1 : e = b
    · subst h1
      obtain ⟨k1, k2⟩ := between_of_mul_self_lt dx a (by omega) (by linarith)
      constructor <;> intro hin <;> refine Or.inl (Or.inl ?_) <;> rw [mem_spanPixels_pair] <;>
        simp only [InBounds, WIDTH, HEIGHT] at * <;> refine ⟨?_, ?_, ?_, ?_, ?_⟩ <;> omega
    · by_cases h2 : e = a ∧ flag = false ∧ b > 1
      · rw [if_pos ⟨h2.2.2, h2.2.1⟩]
        obtain ⟨rfl, -, h3⟩ := h2
        obtain ⟨k1, k2⟩ := between_of_mul_self_lt dx b hb (by linarith)
        constructor <;> intro hin <;> refine Or.inl (Or.inr ?_) <;> rw [mem_spanPixels_pair] <;>
          simp only [InBounds, WIDTH, HEIGHT] at * <;> refine ⟨?_, ?_, ?_, ?_, ?_⟩ <;> omega
      · have he2 : b ≤ e ∧ e ≤ a - 1 := by
          rcases hT with hT | hT
          · exact hT
          · exact absurd ⟨hT.1, hT.2.1, hT.2.2.1⟩ h2
        by_cases h3 : err < 0
        · rw [if_pos h3]
          obtain ⟨h4, h5⟩ := ih a (b + 1) (err + (2 * (b + 1) + 1))
            (if b > 1 ∧ flag = false then true else flag) (by omega) (by omega) ha
            (by rw [he]; ring) (fun _ => by linarith) (by omega) e (Or.inl (by omega)) dx hd
          exact ⟨fun hin => Or.inr (h4 hin), fun hin => Or.inr (h5 hin)⟩
        · rw [if_neg h3]
          have he3 : (b + 1 ≤ e ∧ e ≤ a - 1 - 1) ∨
              (e = a - 1 ∧ false = false ∧ b + 1 > 1 ∧ a - 1 ≥ b + 1) := by
            by_cases h6 : e = a - 1
            · exact Or.inr ⟨h6, rfl, by omega, by omega⟩
            · exact Or.inl (by omega)
          obtain ⟨h4, h5⟩ := ih (a - 1) (b + 1) (err + 2 * ((b + 1) - (a - 1) + 1)) false
            (by omega) (by omega) (by omega) (by rw [he]; ring) (fun _ => by linarith)
            (by omega) e he3 dx hd
          exact ⟨fun hin => Or.inr (h4 hin), fun hin => Or.inr (h5 hin)⟩

theorem mem_fillCircleIntoImage (x0 y0 r : Int) (hr : 1 ≤ r) (x y : Int) :
    (x, y) ∈ fillCircleIntoImage x0 y0 r ↔
      InBounds (x, y) ∧ (x - x0) * (x - x0) + (y - y0) * (y - y0) ≤ r * r - r := by
  have hxy : (x, y) = (x0 + (x - x0), y0 + (y - y0)) := by
    refine Prod.ext ?_ ?_ <;> simp
  have hne : ¬ r = 0 := by omega
  unfold fillCircleIntoImage fillCircleCalls
  rw [if_neg hne]
  constructor
  · intro h
    refine ⟨inBounds_of_mem_spanPixels h, ?_⟩
    rw [hxy] at h
    refine fillCircleLoop_inside x0 y0 r _ r 0 (1 - r) true (le_refl _) (le_refl _) (le_refl _)
      (by ring) (fun _ => by linarith) (fun _ hf => absurd hf (by decide)) (fun _ => by omega)
      _ _ h
  · rintro ⟨hin, hd⟩
    have hsq : 0 ≤ (x - x0) * (x - x0) := mul_self_nonneg _
    by_cases hs : 0 ≤ y - y0
    · obtain ⟨-, k2⟩ := between_of_mul_self_lt (y - y0) r (by omega) (by linarith)
      have h := (fillCircleLoop_fills x0 y0 r _ r 0 (1 - r) true (le_refl _) (le_refl _)
        (le_refl _) (by ring) (fun _ => by linarith) (fun _ => by omega) (y - y0)
        (Or.inl ⟨hs, by omega⟩) (x - x0) hd).1
      rw [← hxy] at h
      exact h hin
    · obtain ⟨k1, -⟩ := between_of_mul_self_lt (y - y0) r (by omega) (by linarith)
      have hd2 : (x - x0) * (x - x0) + (y0 - y) * (y0 - y) ≤ r * r - r := by linarith
      have h := (fillCircleLoop_fills x0 y0 r _ r 0 (1 - r) true (le_refl _) (le_refl _)
        (le_refl _) (by ring) (fun _ => by linarith) (fun _ => by omega) (y0 - y)
        (Or.inl ⟨by omega, by omega⟩) (x - x0) hd2).2
      have hxy2 : (x, y) = (x0 + (x - x0), y0 - (y0 - y)) := by
        refine Prod.ext ?_ ?_ <;> simp
      rw [← hxy2] at h
      exact h hin

/-- C17: for a radius `r >= 1` and every centre, the pixels written by
`fillCircleIntoImage` are exactly the canvas pixels `(x, y)` with
`(x-x0)^2 + (y-y0)^2 <= r*r - r`; none of them is written by
`drawCircleIntoImage` with the same arguments, and the rows `y0 - r` and
`y0 + r` are never written. -/
theorem fillCircleIntoImage_disc (x0 y0 r : Int) (hr : 1 ≤ r) :
    (∀ x y : Int, (x, y) ∈ fillCircleIntoImage x0 y0 r ↔
      InBounds (x, y) ∧ (x - x0) ^ 2 + (y - y0) ^ 2 ≤ r * r - r) ∧
    (∀ p, p ∈ fillCircleIntoImage x0 y0 r → p ∉ drawCircleIntoImage x0 y0 r) ∧
    (∀ x : Int, (x, y0 - r) ∉ fillCircleIntoImage x0 y0 r ∧
      (x, y0 + r) ∉ fillCircleIntoImage x0 y0 r) := by
  refine ⟨?_, ?_, ?_⟩
  · intro x y
    rw [pow_two, pow_two]
    exact mem_fillCircleIntoImage x0 y0 r hr x y
  · rintro ⟨x, y⟩ hf ho
    have h1 := ((mem_fillCircleIntoImage x0 y0 r hr x y).1 hf).2
    have h2 := (drawCircleIntoImage_ring x0 y0 r x y hr ho).1
    linarith
  · intro x
    constructor
    · intro hf
      have h1 := ((mem_fillCircleIntoImage x0 y0 r hr x (y0 - r)).1 hf).2
      have hsq : 0 ≤ (x - x0) * (x - x0) := mul_self_nonneg _
      have e : (y0 - r - y0) * (y0 - r - y0) = r * r := by ring
      rw [e] at h1
      linarith
    · intro hf
      have h1 := ((mem_fillCircleIntoImage x0 y0 r hr x (y0 + r)).1 hf).2
      have hsq : 0 ≤ (x - x0) * (x - x0) := mul_self_nonneg _
      have e : (y0 + r - y0) * (y0 + r - y0) = r * r := by ring
      rw [e] at h1
      linarith

/-- C17, concrete instance: centre (30,16), radius 5, where the disc is cut by
the right edge of the canvas. -/
theorem fillCircleIntoImage_disc_witness :
    (1 : Int) ≤ 5 ∧
    (∀ x y : Int, (x, y) ∈ fillCircleIntoImage 30 16 5 ↔
      InBounds (x, y) ∧ (x - 30) ^ 2 + (y - 16) ^ 2 ≤ 5 * 5 - 5) ∧
    (∀ p, p ∈ fillCircleIntoImage 30 16 5 → p ∉ drawCircleIntoImage 30 16 5) ∧
    (∀ x : Int, (x, 16 - 5) ∉ fillCircleIntoImage 30 16 5 ∧
      (x, 16 + 5) ∉ fillCircleIntoImage 30 16 5) :=
  ⟨by decide, fillCircleIntoImage_disc 30 16 5 (by decide)⟩

/-! ## The 8-bit trackers inside the canvas: C19 -/

theorem inInt8_of_range (z : Int) (h1 : -128 ≤ z) (h2 : z ≤ 127) : inInt8 z = true := by
  simp [inInt8, h1, h2]

theorem errorLoopZ_eq (ed : Edge) (h0 : 0 ≤ ed.dx) (h63 : ed.dx ≤ 63) :
    ∀ (fuel : Nat) (tx ty e : Int), -(2 * ed.dx) ≤ e → e ≤ 2 * ed.dx →
      errorLoopZ ed fuel tx ty e = (errorLoop ed fuel tx ty e, true) ∧
      ∀ r, errorLoop ed fuel tx ty e = some r → -(2 * ed.dx) ≤ r.2.2 ∧ r.2.2 < 0 := by
  intro fuel
  induction fuel with
  | zero =>
    intro tx ty e h1 h2
    by_cases hz : e ≥ 0
    · simp [errorLoopZ, errorLoop, hz]
    · simp only [errorLoopZ, errorLoop, if_neg hz, true_and]
      intro r hr
      simp only [Option.some.injEq] at hr
      subst hr
      exact ⟨h1, show e < 0 by omega⟩
  | succ k ih =>
    intro tx ty e h1 h2
    by_cases hz : e ≥ 0
    · obtain ⟨i1, i2⟩ := ih (if ed.changed then tx + ed.signx else tx)
        (if ed.changed then ty else ty + ed.signy) (e - 2 * ed.dx) (by omega) (by omega)
      rw [errorLoopZ, errorLoop, if_pos hz, if_pos hz, wrap8_id _ (by omega)]
      simp only [i1, inInt8_of_range _ (show -128 ≤ e - 2 * ed.dx by omega)
        (show e - 2 * ed.dx ≤ 127 by omega), Bool.and_self, true_and]
      exact i2
    · simp only [errorLoopZ, errorLoop, if_neg hz, true_and]
      intro r hr
      simp only [Option.some.injEq] at hr
      subst hr
      exact ⟨h1, show e < 0 by omega⟩

theorem followLoopZ_eq (inner : Nat) (ed : Edge) (h0 : 0 ≤ ed.dy) (h1 : ed.dy ≤ ed.dx)
    (h63 : ed.dx ≤ 63) (t1y : Int) :
    ∀ (fuel : Nat) (tx ty e : Int), -(2 * ed.dx) ≤ e → e ≤ 2 * ed.dx →
      followLoopZ inner ed t1y fuel tx ty e = (followLoop inner ed t1y fuel tx ty e, true) ∧
      ∀ r, followLoop inner ed t1y fuel tx ty e = some r →
        -(2 * ed.dx) ≤ r.2.2 ∧ r.2.2 ≤ 2 * ed.dx := by
  intro fuel
  induction fuel with
  | zero =>
    intro tx ty e h2 h3
    by_cases hz : ty ≠ t1y
    · simp [followLoopZ, followLoop, hz]
    · simp only [followLoopZ, followLoop, if_neg hz, true_and]
      intro r hr
      simp only [Option.some.injEq] at hr
      subst hr
      exact ⟨h2, h3⟩
  | succ k ih =>
    intro tx ty e h2 h3
    by_cases hz : ty ≠ t1y
    · obtain ⟨j1, j2⟩ := errorLoopZ_eq ed (by omega) h63 inner tx ty e h2 h3
      rw [followLoopZ, followLoop, if_pos hz, if_pos hz]
      simp only [j1]
      cases hr : errorLoop ed inner tx ty e with
      | none => simp
      | some r =>
        obtain ⟨b1, b2⟩ := j2 r hr
        obtain ⟨i1, i2⟩ := ih (if ed.changed then r.1 else r.1 + ed.signx)
          (if ed.changed then r.2.1 + ed.signy else r.2.1) (r.2.2 + 2 * ed.dy)
          (by omega) (by omega)
        simp only [wrap8_id _ (show -128 ≤ r.2.2 + 2 * ed.dy ∧ r.2.2 + 2 * ed.dy ≤ 127 by omega),
          i1, inInt8_of_range _ (show -128 ≤ r.2.2 + 2 * ed.dy by omega)
            (show r.2.2 + 2 * ed.dy ≤ 127 by omega), Bool.and_self, true_and]
        exact i2
    · simp only [followLoopZ, followLoop, if_neg hz, true_and]
      intro r hr
      simp only [Option.some.injEq] at hr
      subst hr
      exact ⟨h2, h3⟩

theorem spanLoopZ_eq (fuel : Nat) (ed1 ed2 : Edge)
    (m1 : 0 ≤ ed1.dy ∧ ed1.dy ≤ ed1.dx ∧ ed1.dx ≤ 63)
    (m2 : 0 ≤ ed2.dy ∧ ed2.dy ≤ ed2.dx ∧ ed2.dx ≤ 63) :
    ∀ (n : Nat) (t1x t1y e1 t2x t2y e2 : Int),
      -(2 * ed1.dx) ≤ e1 ∧ e1 ≤ 2 * ed1.dx → -(2 * ed2.dx) ≤ e2 ∧ e2 ≤ 2 * ed2.dx →
      spanLoopZ fuel ed1 ed2 n t1x t1y e1 t2x t2y e2 =
        ((spanLoop fuel ed1 ed2 n t1x t1y e1 t2x t2y e2).1,
          (spanLoop fuel ed1 ed2 n t1x t1y e1 t2x t2y e2).2, true) := by
  intro n
  induction n with
  | zero =>
    intro t1x t1y e1 t2x t2y e2 _ _
    rfl
  | succ n ih =>
    intro t1x t1y e1 t2x t2y e2 r1 r2
    obtain ⟨j1, j2⟩ := errorLoopZ_eq ed1 (by omega) m1.2.2 fuel t1x t1y e1 r1.1 r1.2
    rw [spanLoopZ, spanLoop]
    simp only [j1]
    cases hr : errorLoop ed1 fuel t1x t1y e1 with
    | none => rfl
    | some r =>
      obtain ⟨b1, b2⟩ := j2 r hr
      obtain ⟨k1, k2⟩ := followLoopZ_eq fuel ed2 m2.1 m2.2.1 m2.2.2
        (if ed1.changed then r.2.1 + ed1.signy else r.2.1) fuel t2x t2y e2 r2.1 r2.2
      have hin : inInt8 (r.2.2 + 2 * ed1.dy) = true :=
        inInt8_of_range _ (by omega) (by omega)
      simp only [k1, hin]
      cases hq : followLoop fuel ed2 (if ed1.changed then r.2.1 + ed1.signy else r.2.1)
          fuel t2x t2y e2 with
      | none => rfl
      | some q =>
        obtain ⟨c1, c2⟩ := k2 q hq
        simp only [wrap8_id _ (show -128 ≤ r.2.2 + 2 * ed1.dy ∧ r.2.2 + 2 * ed1.dy ≤ 127 by omega)]
        rw [ih _ _ (r.2.2 + 2 * ed1.dy) _ _ _ ⟨by omega, by omega⟩ ⟨c1, c2⟩]
        rfl

theorem edgeSetupZ_facts (xa ya xb yb : Int) (hx : iabs (xb - xa) ≤ 63)
    (hy : iabs (yb - ya) ≤ 63) :
    edgeSetup xa ya xb yb = edgeSetupZ xa ya xb yb ∧
    0 ≤ (edgeSetupZ xa ya xb yb).dy ∧
    (edgeSetupZ xa ya xb yb).dy ≤ (edgeSetupZ xa ya xb yb).dx ∧
    (edgeSetupZ xa ya xb yb).dx ≤ 63 := by
  have h1 := iabs_nonneg (xb - xa)
  have h2 := iabs_nonneg (yb - ya)
  have w1 : wrap8 (iabs (xb - xa)) = iabs (xb - xa) := wrap8_id _ ⟨by omega, by omega⟩
  have w2 : wrap8 (iabs (yb - ya)) = iabs (yb - ya) := wrap8_id _ ⟨by omega, by omega⟩
  refine ⟨?_, ?_, ?_, ?_⟩
  · simp only [edgeSetup, edgeSetupZ, w1, w2]
  · simp only [edgeSetupZ]
    split_ifs <;> omega
  · simp only [edgeSetupZ]
    split_ifs <;> omega
  · simp only [edgeSetupZ]
    split_ifs <;> omega

theorem iabs_le_of_inBounds (u v : Int) (hu : 0 ≤ u ∧ u < 32) (hv : 0 ≤ v ∧ v < 32) :
    iabs (v - u) ≤ 31 := by
  unfold iabs
  split_ifs <;> omega

/-- C19: for vertices with every coordinate in `[0, 31]`, running
`fillFlatSideTriangleInt` with unbounded integers in place of the `int8_t`
variables `dx1, dy1, dx2, dy2, e1, e2` never assigns them a value outside
`[-128, 127]`, and it makes the same `drawFastHLine` calls and returns or
not exactly as the 8-bit code does, for every number of loop iterations. -/
theorem fillFlatSideTriangleInt_int8_exact (fuel : Nat) (x1 y1 x2 y2 x3 y3 : Int)
    (h1 : InBounds (x1, y1)) (h2 : InBounds (x2, y2)) (h3 : InBounds (x3, y3)) :
    fillFlatSideTriangleIntZ fuel x1 y1 x2 y2 x3 y3 =
      ((fillFlatSideTriangleInt fuel x1 y1 x2 y2 x3 y3).1,
        (fillFlatSideTriangleInt fuel x1 y1 x2 y2 x3 y3).2, true) := by
  simp only [InBounds, WIDTH, HEIGHT] at h1 h2 h3
  have a1 := iabs_le_of_inBounds x1 x2 ⟨h1.1, h1.2.1⟩ ⟨h2.1, h2.2.1⟩
  have a2 := iabs_le_of_inBounds y1 y2 ⟨h1.2.2.1, h1.2.2.2⟩ ⟨h2.2.2.1, h2.2.2.2⟩
  have a3 := iabs_le_of_inBounds x1 x3 ⟨h1.1, h1.2.1⟩ ⟨h3.1, h3.2.1⟩
  have a4 := iabs_le_of_inBounds y1 y3 ⟨h1.2.2.1, h1.2.2.2⟩ ⟨h3.2.2.1, h3.2.2.2⟩
  have n1 := iabs_nonneg (x2 - x1)
  have n2 := iabs_nonneg (y2 - y1)
  have n3 := iabs_nonneg (x3 - x1)
  have n4 := iabs_nonneg (y3 - y1)
  obtain ⟨e1, p1, p2, p3⟩ := edgeSetupZ_facts x1 y1 x2 y2 (by omega) (by omega)
  obtain ⟨e2, q1, q2, q3⟩ := edgeSetupZ_facts x1 y1 x3 y3 (by omega) (by omega)
  unfold fillFlatSideTriangleIntZ fillFlatSideTriangleInt
  simp only [e1, e2]
  rw [wrap8_id _ (by omega), wrap8_id _ (by omega),
    spanLoopZ_eq fuel _ _ ⟨p1, p2, p3⟩ ⟨q1, q2, q3⟩ _ _ _ _ _ _ _ ⟨by omega, by omega⟩
      ⟨by omega, by omega⟩]
  simp only [inInt8_of_range _ (show -128 ≤ iabs (x2 - x1) by omega)
      (show iabs (x2 - x1) ≤ 127 by omega),
    inInt8_of_range _ (show -128 ≤ iabs (y2 - y1) by omega) (show iabs (y2 - y1) ≤ 127 by omega),
    inInt8_of_range _ (show -128 ≤ iabs (x3 - x1) by omega) (show iabs (x3 - x1) ≤ 127 by omega),
    inInt8_of_range _ (show -128 ≤ iabs (y3 - y1) by omega) (show iabs (y3 - y1) ≤ 127 by omega),
    inInt8_of_range _
      (show -128 ≤ 2 * (edgeSetupZ x1 y1 x2 y2).dy - (edgeSetupZ x1 y1 x2 y2).dx by omega)
      (show 2 * (edgeSetupZ x1 y1 x2 y2).dy - (edgeSetupZ x1 y1 x2 y2).dx ≤ 127 by omega),
    inInt8_of_range _
      (show -128 ≤ 2 * (edgeSetupZ x1 y1 x3 y3).dy - (edgeSetupZ x1 y1 x3 y3).dx by omega)
      (show 2 * (edgeSetupZ x1 y1 x3 y3).dy - (edgeSetupZ x1 y1 x3 y3).dx ≤ 127 by omega),
    Bool.and_self]

/-- C19, concrete instances: a triangle in the canvas, run to its end, and
three equal vertices, on which neither version returns. -/
theorem fillFlatSideTriangleInt_int8_exact_witness :
    InBounds (4, 0) ∧ InBounds (31, 31) ∧ InBounds (0, 31) ∧
    fillFlatSideTriangleIntZ 128 4 0 31 31 0 31 =
      ((fillFlatSideTriangleInt 128 4 0 31 31 0 31).1,
        (fillFlatSideTriangleInt 128 4 0 31 31 0 31).2, true) ∧
    fillFlatSideTriangleIntZ 128 4 0 4 0 4 0 = ([(4, 4, 0)], false, true) := by
  have b1 : InBounds (4, 0) := by
    simp only [InBounds, WIDTH, HEIGHT]
    decide
  have b2 : InBounds (31, 31) := by
    simp only [InBounds, WIDTH, HEIGHT]
    decide
  have b3 : InBounds (0, 31) := by
    simp only [InBounds, WIDTH, HEIGHT]
    decide
  refine ⟨b1, b2, b3, fillFlatSideTriangleInt_int8_exact 128 4 0 31 31 0 31 b1 b2 b3, ?_⟩
  rw [fillFlatSideTriangleInt_int8_exact 128 4 0 4 0 4 0 b1 b1 b1]
  decide

/-! ## Flat-side shortcut against the general split: C12 -/

theorem wrap16_id (z : Int) (h : -32768 ≤ z ∧ z ≤ 32767) : wrap16 z = z := by
  unfold wrap16
  omega

theorem roundF32_zero (q : Nat) (e : Int) : roundF32 0 q e = ⟨0, 0⟩ := by
  simp [roundF32]

theorem fdiv_self_small (d : Int) (h1 : 1 ≤ d) (h2 : d ≤ 31) :
    fdiv (ofInt d) (ofInt d) = ⟨8388608, -23⟩ := by
  interval_cases d <;> rfl

theorem fmul_one_small (w : Int) (h1 : -31 ≤ w) (h2 : w ≤ 31) :
    fmul ⟨8388608, -23⟩ (ofInt w) = ofInt w := by
  interval_cases w <;> rfl

theorem fadd_small_range : ∀ a ∈ List.range 32, ∀ b ∈ List.range 32,
    toInt (fadd (ofInt (a : Nat)) (ofInt ((b : Nat) - (a : Nat)))) = (b : Nat) := by
  decide

theorem fadd_small (x1 x3 : Int) (h1 : 0 ≤ x1 ∧ x1 ≤ 31) (h3 : 0 ≤ x3 ∧ x3 ≤ 31) :
    toInt (fadd (ofInt x1) (ofInt (x3 - x1))) = x3 := by
  obtain ⟨a, rfl⟩ := Int.eq_ofNat_of_zero_le h1.1
  obtain ⟨b, rfl⟩ := Int.eq_ofNat_of_zero_le h3.1
  exact fadd_small_range a (List.mem_range.mpr (by omega)) b (List.mem_range.mpr (by omega))

theorem fadd_zero_small (x1 : Int) (h1 : 0 ≤ x1) (h2 : x1 ≤ 31) :
    toInt (fadd (ofInt x1) ⟨0, 0⟩) = x1 := by
  interval_cases x1 <;> rfl

/-- At ratio 0 (`y2 = y1`) the binary32 split point is `x1`. -/
theorem interpF32_zero (x1 y1 x3 y3 : Int) (h1 : 0 ≤ x1 ∧ x1 ≤ 31) :
    interpF32 x1 y1 y1 x3 y3 = x1 := by
  unfold interpF32
  have e0 : ofInt (y1 - y1) = ⟨0, 0⟩ := by
    rw [sub_self]
    exact roundF32_zero 1 0
  have e1 : fdiv ⟨0, 0⟩ (ofInt (y3 - y1)) = ⟨0, 0⟩ := by
    unfold fdiv
    simp only [neg_zero, ite_self]
    exact roundF32_zero _ _
  have e2 : fmul ⟨0, 0⟩ (ofInt (x3 - x1)) = ⟨0, 0⟩ := by
    unfold fmul
    simp only [zero_mul]
    exact roundF32_zero _ _
  rw [e0, e1, e2]
  exact fadd_zero_small x1 h1.1 h1.2

/-- At ratio 1 (`y2 = y3`) the binary32 split point is `x3`. -/
theorem interpF32_one (x1 y1 x3 y3 : Int) (h1 : 0 ≤ x1 ∧ x1 ≤ 31) (h3 : 0 ≤ x3 ∧ x3 ≤ 31)
    (hd : 1 ≤ y3 - y1 ∧ y3 - y1 ≤ 31) :
    interpF32 x1 y1 y3 x3 y3 = x3 := by
  unfold interpF32
  rw [fdiv_self_small _ hd.1 hd.2, fmul_one_small _ (by omega) (by omega)]
  exact fadd_small x1 x3 h1 h3

/-- The binary32 split point is not the truncated exact quotient: for
`x1 = 25, y1 = 0, y2 = 3, x3 = 0, y3 = 5` the exact value is 10, but `3/5`
rounds up, the product rounds away from -15, and the sum truncates to 9. -/
theorem interpF32_inexact : interpF32 25 0 3 0 5 = 9 := by
  decide

theorem spanLoop_step_x (fuel : Nat) (hf : 128 ≤ fuel) (ed1 ed2 : Edge) (h1 : ed1.Tame)
    (h2 : ed2.Tame) (hs : ed1.signy = 1 ∨ ed1.signy = -1) (hs2 : ed2.signy = ed1.signy)
    (hnc : ed2.changed = false → 1 ≤ ed2.dy) (n : Nat) (t1x t1y e1 t2x e2 : Int)
    (hr1 : 2 * ed1.dy - 2 * ed1.dx ≤ e1 ∧ e1 < 2 * ed1.dy)
    (hr2 : 2 * ed2.dy - 2 * ed2.dx ≤ e2 ∧ e2 < 2 * ed2.dy) :
    ∃ t2x2 e22, (2 * ed2.dy - 2 * ed2.dx ≤ e22 ∧ e22 < 2 * ed2.dy) ∧
      spanLoop fuel ed1 ed2 (n + 1) t1x t1y e1 t2x t1y e2 =
        ((t1x, t2x, t1y) ::
          (spanLoop fuel ed1 ed2 n
            (if ed1.changed = false ∨ e1 ≥ 0 then t1x + ed1.signx else t1x)
            (if ed1.changed = true ∨ e1 ≥ 0 then t1y + ed1.signy else t1y)
            (if e1 ≥ 0 then e1 - 2 * ed1.dx + 2 * ed1.dy else e1 + 2 * ed1.dy) t2x2
            (if ed1.changed = true ∨ e1 ≥ 0 then t1y + ed1.signy else t1y) e22).1,
          (spanLoop fuel ed1 ed2 n
            (if ed1.changed = false ∨ e1 ≥ 0 then t1x + ed1.signx else t1x)
            (if ed1.changed = true ∨ e1 ≥ 0 then t1y + ed1.signy else t1y)
            (if e1 ≥ 0 then e1 - 2 * ed1.dx + 2 * ed1.dy else e1 + 2 * ed1.dy) t2x2
            (if ed1.changed = true ∨ e1 ≥ 0 then t1y + ed1.signy else t1y) e22).2) := by
  have hd1 := h1.dx_le
  have hd2 := h1.dy_le
  have hd3 := h1.dy_nonneg
  have hd4 := h2.dx_le
  have hd5 := h2.dy_le
  have hd6 := h2.dy_nonneg
  have hstep : ∃ x2 e22, followLoop fuel ed2 (t1y + ed1.signy) fuel t2x t1y e2 =
      some (x2, t1y + ed1.signy, e22) ∧ 2 * ed2.dy - 2 * ed2.dx ≤ e22 ∧ e22 < 2 * ed2.dy := by
    rw [← hs2]
    exact followLoop_tame ed2 h2 hnc (by rw [hs2]; exact hs) fuel (by omega) fuel t2x t1y e2 hr2
      (by omega)
  obtain ⟨x2, e22, hfl, hr22⟩ := hstep
  rw [spanLoop, errorLoop_tame ed1 h1 fuel (by omega) t1x t1y e1 hr1]
  simp only
  by_cases hz : e1 ≥ 0
  · have hor : ed1.changed = true ∨ e1 ≥ 0 := Or.inr hz
    have hox : ed1.changed = false ∨ e1 ≥ 0 := Or.inr hz
    rw [if_pos hz, if_pos hor, if_pos hz, if_pos hox]
    simp only
    by_cases hc : ed1.changed = true
    · simp only [hc, if_true]
      rw [hfl, wrap8_id _ (by omega)]
      exact ⟨_, _, hr22, rfl⟩
    · have hcf : ed1.changed = false := by simpa using hc
      simp only [hcf, Bool.false_eq_true, if_false]
      rw [hfl, wrap8_id _ (by omega)]
      exact ⟨_, _, hr22, rfl⟩
  · rw [if_neg hz, if_neg hz]
    simp only
    by_cases hc : ed1.changed = true
    · have hor : ed1.changed = true ∨ e1 ≥ 0 := Or.inl hc
      have hox : ¬ (ed1.changed = false ∨ e1 ≥ 0) := by
        rintro (h | h)
        · rw [hc] at h
          exact absurd h (by decide)
        · exact hz h
      rw [if_pos hor, if_neg hox]
      simp only [hc, if_true]
      rw [hfl, wrap8_id _ (by omega)]
      exact ⟨_, _, hr22, rfl⟩
    · have hor : ¬ (ed1.changed = true ∨ e1 ≥ 0) := by
        rintro (h | h)
        · exact hc h
        · exact hz h
      have hcf : ed1.changed = false := by simpa using hc
      have hox : ed1.changed = false ∨ e1 ≥ 0 := Or.inl hcf
      rw [if_neg hor, if_pos hox]
      simp only [hcf, Bool.false_eq_true, if_false]
      rw [followLoop_same, wrap8_id _ (by omega)]
      exact ⟨_, _, hr2, rfl⟩

/-- Tracker 1 stays between the two end points of its edge: every span of
`spanLoop` starts at an `x` whose offset from `x1` in direction `s` lies in
`[0, X]`, `X` being the extent of the edge in `x`. -/
theorem spanLoop_xs (fuel : Nat) (hf : 128 ≤ fuel) (ed1 ed2 : Edge) (h1 : ed1.Tame)
    (h2 : ed2.Tame) (hsy : ed1.signy = 1 ∨ ed1.signy = -1) (hs2 : ed2.signy = ed1.signy)
    (hnc : ed2.changed = false → 1 ≤ ed2.dy) (s x1 X : Int) (hs : s = 1 ∨ s = -1)
    (hsx : ed1.signx = s)
    (hXc : ed1.changed = true → X = ed1.dy) (hXn : ed1.changed = false → X = ed1.dx) :
    ∀ (n : Nat) (i m t1x t1y e1 t2x e2 : Int), 0 ≤ i → i + n = ed1.dx → 0 ≤ m →
      t1x = x1 + s * m →
      (2 * ed1.dy - 2 * ed1.dx ≤ e1 ∧ e1 < 2 * ed1.dy) →
      (ed1.changed = false → m = i) →
      (ed1.changed = true → e1 = 2 * ed1.dy - ed1.dx + 2 * (i * ed1.dy) - 2 * (m * ed1.dx)) →
      (2 * ed2.dy - 2 * ed2.dx ≤ e2 ∧ e2 < 2 * ed2.dy) →
      ∀ c ∈ (spanLoop fuel ed1 ed2 (n + 1) t1x t1y e1 t2x t1y e2).1,
        0 ≤ s * (c.1 - x1) ∧ s * (c.1 - x1) ≤ X := by
  have hd1 := h1.dx_le
  have hd2 := h1.dy_le
  have hd3 := h1.dy_nonneg
  have hd4 := h1.dx_pos
  have hhead : ∀ (n : Nat) (i m t1x e1 : Int), 0 ≤ i → i + n = ed1.dx → 0 ≤ m →
      t1x = x1 + s * m →
      (2 * ed1.dy - 2 * ed1.dx ≤ e1 ∧ e1 < 2 * ed1.dy) →
      (ed1.changed = false → m = i) →
      (ed1.changed = true → e1 = 2 * ed1.dy - ed1.dx + 2 * (i * ed1.dy) - 2 * (m * ed1.dx)) →
      0 ≤ s * (t1x - x1) ∧ s * (t1x - x1) ≤ X := by
    intro n i m t1x e1 hi hin hm ht hr1 hmn hmc
    have hmX : m ≤ X := by
      by_cases hc : ed1.changed = true
      · rw [hXc hc]
        have hE := hmc hc
        by_contra hgt
        have p1 := mul_le_mul_of_nonneg_right (show ed1.dy + 1 ≤ m by omega)
          (show (0 : Int) ≤ ed1.dx by omega)
        have p2 := mul_le_mul_of_nonneg_right (show i ≤ ed1.dx by omega) hd3
        have q1 := add_mul ed1.dy 1 ed1.dx
        have q2 := mul_comm ed1.dx ed1.dy
        omega
      · have hcf : ed1.changed = false := by simpa using hc
        rw [hXn hcf, hmn hcf]
        omega
    subst ht
    rcases hs with rfl | rfl <;> omega
  intro n
  induction n with
  | zero =>
    intro i m t1x t1y e1 t2x e2 hi hin hm ht hr1 hmn hmc hr2 c hcm
    obtain ⟨b, c2, -, heq⟩ := spanLoop_step_x fuel hf ed1 ed2 h1 h2 hsy hs2 hnc
      0 t1x t1y e1 t2x e2 hr1 hr2
    rw [heq] at hcm
    simp only [spanLoop, List.mem_singleton] at hcm
    subst hcm
    exact hhead 0 i m t1x e1 hi hin hm ht hr1 hmn hmc
  | succ n ih =>
    intro i m t1x t1y e1 t2x e2 hi hin hm ht hr1 hmn hmc hr2 c hcm
    obtain ⟨b, c2, hr22, heq⟩ := spanLoop_step_x fuel hf ed1 ed2 h1 h2 hsy hs2 hnc
      (n + 1) t1x t1y e1 t2x e2 hr1 hr2
    rw [heq] at hcm
    simp only [List.mem_cons] at hcm
    rcases hcm with rfl | hcm
    · exact hhead (n + 1) i m t1x e1 hi hin hm ht hr1 hmn hmc
    · rw [hsx] at hcm
      have e3 := add_mul i 1 ed1.dy
      have e4 := add_mul m 1 ed1.dx
      by_cases hst : ed1.changed = false ∨ e1 ≥ 0
      · rw [if_pos hst] at hcm
        refine ih (i + 1) (m + 1) _ _ _ b c2 (by omega) (by push_cast at hin ⊢; omega)
          (by omega) (by rw [ht]; ring) (by split_ifs <;> omega)
          (fun hcf => by have := hmn hcf; omega) ?_ hr22 c hcm
        intro hc
        have hE := hmc hc
        have hz : e1 ≥ 0 := by
          rcases hst with h | h
          · rw [hc] at h
            exact absurd h (by decide)
          · exact h
        rw [if_pos hz]
        omega
      · rw [if_neg hst] at hcm
        have hc : ed1.changed = true := by
          cases hcc : ed1.changed
          · exact absurd (Or.inl hcc) hst
          · rfl
        have hz : ¬ e1 ≥ 0 := fun h => hst (Or.inr h)
        refine ih (i + 1) m _ _ _ b c2 (by omega) (by push_cast at hin ⊢; omega)
          hm ht (by rw [if_neg hz]; omega)
          (fun hcf => by rw [hc] at hcf; exact absurd hcf (by decide)) ?_ hr22 c hcm
        intro _
        have hE := hmc hc
        rw [if_neg hz]
        omega

theorem spanLoop_level (fuel : Nat) (ed1 ed2 : Edge) (hc : ed1.changed = false)
    (hdy : ed1.dy = 0) :
    ∀ (n : Nat) (t1x t1y e1 t2x e2 : Int), -128 ≤ e1 → e1 < 0 →
      (spanLoop fuel ed1 ed2 n t1x t1y e1 t2x t1y e2).2 = true ∧
      (spanLoop fuel ed1 ed2 n t1x t1y e1 t2x t1y e2).1.length = n ∧
      ∀ c ∈ (spanLoop fuel ed1 ed2 n t1x t1y e1 t2x t1y e2).1,
        c.2.2 = t1y ∧ ∃ j : Nat, j < n ∧ c.1 = t1x + ed1.signx * j := by
  intro n
  induction n with
  | zero =>
    intro t1x t1y e1 t2x e2 _ _
    simp [spanLoop]
  | succ n ih =>
    intro t1x t1y e1 t2x e2 h1 h2
    rw [spanLoop, errorLoop_neg ed1 fuel t1x t1y e1 h2]
    simp only [hc, Bool.false_eq_true, if_false, hdy, mul_zero, add_zero]
    rw [followLoop_same, wrap8_id _ (by omega)]
    simp only
    obtain ⟨i1, i2, i3⟩ := ih (t1x + ed1.signx) t1y e1 t2x e2 h1 h2
    refine ⟨i1, by simp [i2], ?_⟩
    intro c hcm
    rw [List.mem_cons] at hcm
    rcases hcm with rfl | hcm
    · exact ⟨rfl, 0, by omega, by simp⟩
    · obtain ⟨k1, j, hj, he⟩ := i3 c hcm
      exact ⟨k1, j + 1, by omega, by rw [he]; push_cast; ring⟩

theorem fillFlatSideTriangleInt_level (fuel : Nat) (x1 y x2 x3 y3 : Int) (hx : x2 ≠ x1)
    (hx2 : iabs (x2 - x1) ≤ 63) :
    (fillFlatSideTriangleInt fuel x1 y x2 y x3 y3).2 = true ∧
    (∀ r, r ∈ (fillFlatSideTriangleInt fuel x1 y x2 y x3 y3).1.map (fun c => c.2.2) ↔ r = y) ∧
    ∀ c ∈ (fillFlatSideTriangleInt fuel x1 y x2 y x3 y3).1,
      min x1 x2 ≤ c.1 ∧ c.1 ≤ max x1 x2 := by
  have hz : iabs (y - y) = 0 := by simp [iabs]
  obtain ⟨a1, a2, a3, -⟩ := edgeSetup_facts x1 y x2 y hx2 (by rw [hz]; decide)
  rw [hz] at a1 a2 a3
  have hpos : 0 < iabs (x2 - x1) := by
    unfold iabs
    split_ifs <;> omega
  have hc : (edgeSetup x1 y x2 y).changed = false := by
    cases h : (edgeSetup x1 y x2 y).changed
    · rfl
    · have := a3.1 h
      omega
  have hdy : (edgeSetup x1 y x2 y).dy = 0 := by omega
  have hdx : (edgeSetup x1 y x2 y).dx = iabs (x2 - x1) := by omega
  have hsx : (edgeSetup x1 y x2 y).signx = if x2 - x1 < 0 then -1 else 1 := rfl
  obtain ⟨k1, k2, k3⟩ := spanLoop_level fuel (edgeSetup x1 y x2 y) (edgeSetup x1 y x3 y3) hc hdy
    ((edgeSetup x1 y x2 y).dx + 1).toNat x1 y
    (wrap8 (2 * (edgeSetup x1 y x2 y).dy - (edgeSetup x1 y x2 y).dx)) x1
    (wrap8 (2 * (edgeSetup x1 y x3 y3).dy - (edgeSetup x1 y x3 y3).dx))
    (by rw [wrap8_id _ (by omega)]; omega) (by rw [wrap8_id _ (by omega)]; omega)
  unfold fillFlatSideTriangleInt
  simp only
  refine ⟨k1, fun r => ?_, fun c hcm => ?_⟩
  · rw [List.mem_map]
    constructor
    · rintro ⟨c, hcm, rfl⟩
      exact (k3 c hcm).1
    · rintro rfl
      have hlen : 0 < (spanLoop fuel (edgeSetup x1 r x2 r) (edgeSetup x1 r x3 y3)
          ((edgeSetup x1 r x2 r).dx + 1).toNat x1 r
          (wrap8 (2 * (edgeSetup x1 r x2 r).dy - (edgeSetup x1 r x2 r).dx)) x1 r
          (wrap8 (2 * (edgeSetup x1 r x3 y3).dy - (edgeSetup x1 r x3 y3).dx))).1.length := by
        rw [k2]
        omega
      obtain ⟨c, hcm⟩ := List.exists_mem_of_length_pos hlen
      exact ⟨c, hcm, (k3 c hcm).1⟩
  · obtain ⟨-, j, hj, he⟩ := k3 c hcm
    rw [he, hsx]
    rw [hdx] at hj
    unfold iabs at hj hpos
    split_ifs at hj hpos ⊢ <;> omega

/-- Every span of `fillFlatSideTriangleInt` starts between the apex and the
end of edge 1 in `x`. -/
theorem fillFlatSideTriangleInt_core_x (fuel : Nat) (x1 y1 x2 y2 x3 : Int) (hf : 128 ≤ fuel)
    (hy : y2 ≠ y1) (hx2 : iabs (x2 - x1) ≤ 63) (hx3 : iabs (x3 - x1) ≤ 63)
    (hy2 : iabs (y2 - y1) ≤ 63) :
    ∀ c ∈ (fillFlatSideTriangleInt fuel x1 y1 x2 y2 x3 y2).1,
      min x1 x2 ≤ c.1 ∧ c.1 ≤ max x1 x2 := by
  obtain ⟨a1, a2, a3, a4⟩ := edgeSetup_facts x1 y1 x2 y2 hx2 hy2
  obtain ⟨b1, b2, b3, b4⟩ := edgeSetup_facts x1 y1 x3 y2 hx3 hy2
  have n1 := iabs_nonneg (x2 - x1)
  have n2 := iabs_nonneg (x3 - x1)
  have hdy : 0 < iabs (y2 - y1) := by
    unfold iabs
    split_ifs <;> omega
  have t1 : (edgeSetup x1 y1 x2 y2).Tame := ⟨by omega, by omega, by omega, by omega⟩
  have t2 : (edgeSetup x1 y1 x3 y2).Tame := ⟨by omega, by omega, by omega, by omega⟩
  have hsy : (edgeSetup x1 y1 x2 y2).signy = 1 ∨ (edgeSetup x1 y1 x2 y2).signy = -1 := by
    rw [a4]
    split_ifs
    · exact Or.inr rfl
    · exact Or.inl rfl
  have hs : (if x2 - x1 < 0 then (-1 : Int) else 1) = 1 ∨
      (if x2 - x1 < 0 then (-1 : Int) else 1) = -1 := by
    split_ifs
    · exact Or.inr rfl
    · exact Or.inl rfl
  have hnc : (edgeSetup x1 y1 x3 y2).changed = false → 1 ≤ (edgeSetup x1 y1 x3 y2).dy := by
    intro hc
    have : ¬ iabs (y2 - y1) > iabs (x3 - x1) := by
      rw [← b3, hc]
      decide
    omega
  have hXc : (edgeSetup x1 y1 x2 y2).changed = true →
      iabs (x2 - x1) = (edgeSetup x1 y1 x2 y2).dy := by
    intro hc
    have := a3.1 hc
    omega
  have hXn : (edgeSetup x1 y1 x2 y2).changed = false →
      iabs (x2 - x1) = (edgeSetup x1 y1 x2 y2).dx := by
    intro hc
    have : ¬ iabs (y2 - y1) > iabs (x2 - x1) := by
      rw [← a3, hc]
      decide
    omega
  have hcnt : ((edgeSetup x1 y1 x2 y2).dx + 1).toNat = (edgeSetup x1 y1 x2 y2).dx.toNat + 1 := by
    omega
  have key := spanLoop_xs fuel hf (edgeSetup x1 y1 x2 y2) (edgeSetup x1 y1 x3 y2) t1 t2
    hsy (by rw [a4, b4]) hnc (if x2 - x1 < 0 then -1 else 1) x1 (iabs (x2 - x1)) hs rfl hXc hXn
    (edgeSetup x1 y1 x2 y2).dx.toNat 0 0 x1 y1
    (wrap8 (2 * (edgeSetup x1 y1 x2 y2).dy - (edgeSetup x1 y1 x2 y2).dx)) x1
    (wrap8 (2 * (edgeSetup x1 y1 x3 y2).dy - (edgeSetup x1 y1 x3 y2).dx))
    (le_refl _) (by omega) (le_refl _) (by omega)
    (by rw [wrap8_id _ (by omega)]; omega) (fun _ => rfl)
    (fun _ => by rw [wrap8_id _ (by omega)]; omega)
    (by rw [wrap8_id _ (by omega)]; omega)
  unfold fillFlatSideTriangleInt
  simp only
  rw [hcnt]
  intro c hcm
  have := key c hcm
  unfold iabs at this
  split_ifs at this <;> omega

theorem sortVertices_of_sorted (x1 y1 x2 y2 x3 y3 : Int) (h12 : y1 ≤ y2) (h23 : y2 ≤ y3) :
    sortVertices x1 y1 x2 y2 x3 y3 = ((x1, y1), (x2, y2), (x3, y3)) := by
  have h13 : y1 ≤ y3 := le_trans h12 h23
  simp [sortVertices, not_lt.mpr h12, not_lt.mpr h23, not_lt.mpr h13]

/-- Rows in which a call trace stores a pixel, when every call starts at an
`x` inside the canvas: the rows of the calls that lie inside the canvas. -/
theorem spanPixels_rows (calls : List (Int × Int × Int))
    (hx : ∀ c ∈ calls, 0 ≤ c.1 ∧ c.1 < 32) (y : Int) :
    (∃ x, (x, y) ∈ spanPixels calls) ↔
      (y ∈ calls.map (fun c => c.2.2) ∧ 0 ≤ y ∧ y < 32) := by
  constructor
  · rintro ⟨x, hp⟩
    rw [mem_spanPixels] at hp
    obtain ⟨s, hs, hm⟩ := hp
    rw [mem_drawFastHLine] at hm
    simp only [HEIGHT] at hm
    exact ⟨List.mem_map.mpr ⟨s, hs, hm.1.symm⟩, by omega, by omega⟩
  · rintro ⟨hy, h0, h1⟩
    obtain ⟨s, hs, rfl⟩ := List.mem_map.mp hy
    refine ⟨s.1, ?_⟩
    rw [mem_spanPixels]
    refine ⟨s, hs, ?_⟩
    rw [mem_drawFastHLine]
    have := hx s hs
    simp only [WIDTH, HEIGHT]
    refine ⟨trivial, h0, h1, ?_, ?_⟩ <;> omega

theorem fillTriangle_routes_flat_bottom (fuel : Nat)
    (interp : Int → Int → Int → Int → Int → Int) (x1 y1 x2 y2 x3 : Int) (hf : 128 ≤ fuel)
    (hi1 : interp x1 y1 y2 x3 y2 = x3) (hy : y1 ≠ y2) (hx : x2 ≠ x3)
    (h16 : -32768 ≤ x3 ∧ x3 ≤ 32767 ∧ -32768 ≤ y2 ∧ y2 ≤ 32767)
    (hd : iabs (x2 - x1) ≤ 63 ∧ iabs (x3 - x1) ≤ 63 ∧ iabs (x2 - x3) ≤ 63 ∧
      iabs (y2 - y1) ≤ 63) :
    (fillTriangleFlat fuel x1 y1 x2 y2 x3 y2).2 = true ∧
    (fillTriangleSplit fuel interp x1 y1 x2 y2 x3 y2).2 = true ∧
    (∀ y, y ∈ (fillTriangleFlat fuel x1 y1 x2 y2 x3 y2).1.map (fun c => c.2.2) ↔
      min y1 y2 ≤ y ∧ y ≤ max y1 y2) ∧
    (∀ y, y ∈ (fillTriangleSplit fuel interp x1 y1 x2 y2 x3 y2).1.map (fun c => c.2.2) ↔
      min y1 y2 ≤ y ∧ y ≤ max y1 y2) ∧
    (∀ c ∈ (fillTriangleFlat fuel x1 y1 x2 y2 x3 y2).1,
      min x1 (min x2 x3) ≤ c.1 ∧ c.1 ≤ max x1 (max x2 x3)) ∧
    (∀ c ∈ (fillTriangleSplit fuel interp x1 y1 x2 y2 x3 y2).1,
      min x1 (min x2 x3) ≤ c.1 ∧ c.1 ≤ max x1 (max x2 x3)) := by
  obtain ⟨k1, -, k4, -⟩ := fillFlatSideTriangleInt_core fuel x1 y1 x2 y2 x3 hf (Ne.symm hy)
    hd.1 hd.2.1 hd.2.2.2
  have kx := fillFlatSideTriangleInt_core_x fuel x1 y1 x2 y2 x3 hf (Ne.symm hy)
    hd.1 hd.2.1 hd.2.2.2
  obtain ⟨l1, l2, l3⟩ := fillFlatSideTriangleInt_level fuel x3 y2 x2 x3 y2 hx hd.2.2.1
  have hflat : fillTriangleFlat fuel x1 y1 x2 y2 x3 y2 =
      fillFlatSideTriangleInt fuel x1 y1 x2 y2 x3 y2 := by
    simp [fillTriangleFlat]
  have hsplit : fillTriangleSplit fuel interp x1 y1 x2 y2 x3 y2 =
      ((fillFlatSideTriangleInt fuel x1 y1 x2 y2 x3 y2).1 ++
          (fillFlatSideTriangleInt fuel x3 y2 x2 y2 x3 y2).1,
        (fillFlatSideTriangleInt fuel x3 y2 x2 y2 x3 y2).2) := by
    unfold fillTriangleSplit
    simp only [hi1, wrap16_id x3 ⟨h16.1, h16.2.1⟩, wrap16_id y2 ⟨h16.2.2.1, h16.2.2.2⟩, k1,
      if_true]
  rw [hflat, hsplit]
  refine ⟨k1, l1, k4, fun y => ?_, fun c hc => ?_, fun c hc => ?_⟩
  · simp only [List.map_append, List.mem_append]
    rw [k4, l2]
    constructor
    · rintro (h | h)
      · exact h
      · omega
    · intro h
      exact Or.inl h
  · have := kx c hc
    omega
  · rcases List.mem_append.mp hc with h | h
    · have := kx c h
      omega
    · have := l3 c h
      omega

theorem fillTriangle_routes_flat_top (fuel : Nat)
    (interp : Int → Int → Int → Int → Int → Int) (x1 y1 x2 x3 y3 : Int) (hf : 128 ≤ fuel)
    (hi0 : interp x1 y1 y1 x3 y3 = x1) (hy : y1 ≠ y3) (hx : x1 ≠ x2)
    (h16 : -32768 ≤ x1 ∧ x1 ≤ 32767 ∧ -32768 ≤ y1 ∧ y1 ≤ 32767)
    (hd : iabs (x2 - x1) ≤ 63 ∧ iabs (x1 - x3) ≤ 63 ∧ iabs (x2 - x3) ≤ 63 ∧
      iabs (y1 - y3) ≤ 63) :
    (fillTriangleFlat fuel x1 y1 x2 y1 x3 y3).2 = true ∧
    (fillTriangleSplit fuel interp x1 y1 x2 y1 x3 y3).2 = true ∧
    (∀ y, y ∈ (fillTriangleFlat fuel x1 y1 x2 y1 x3 y3).1.map (fun c => c.2.2) ↔
      min y1 y3 ≤ y ∧ y ≤ max y1 y3) ∧
    (∀ y, y ∈ (fillTriangleSplit fuel interp x1 y1 x2 y1 x3 y3).1.map (fun c => c.2.2) ↔
      min y1 y3 ≤ y ∧ y ≤ max y1 y3) ∧
    (∀ c ∈ (fillTriangleFlat fuel x1 y1 x2 y1 x3 y3).1,
      min x1 (min x2 x3) ≤ c.1 ∧ c.1 ≤ max x1 (max x2 x3)) ∧
    (∀ c ∈ (fillTriangleSplit fuel interp x1 y1 x2 y1 x3 y3).1,
      min x1 (min x2 x3) ≤ c.1 ∧ c.1 ≤ max x1 (max x2 x3)) := by
  obtain ⟨k1, -, k4, -⟩ := fillFlatSideTriangleInt_core fuel x3 y3 x1 y1 x2 hf hy
    hd.2.1 hd.2.2.1 hd.2.2.2
  have kx := fillFlatSideTriangleInt_core_x fuel x3 y3 x1 y1 x2 hf hy
    hd.2.1 hd.2.2.1 hd.2.2.2
  obtain ⟨m1, -, m4, -⟩ := fillFlatSideTriangleInt_core fuel x3 y3 x2 y1 x1 hf hy
    hd.2.2.1 hd.2.1 hd.2.2.2
  have mx := fillFlatSideTriangleInt_core_x fuel x3 y3 x2 y1 x1 hf hy
    hd.2.2.1 hd.2.1 hd.2.2.2
  obtain ⟨l1, l2, l3⟩ := fillFlatSideTriangleInt_level fuel x1 y1 x2 x1 y1 (Ne.symm hx) hd.1
  have hflat : fillTriangleFlat fuel x1 y1 x2 y1 x3 y3 =
      fillFlatSideTriangleInt fuel x3 y3 x1 y1 x2 y1 := by
    simp [fillTriangleFlat, hy]
  have hsplit : fillTriangleSplit fuel interp x1 y1 x2 y1 x3 y3 =
      ((fillFlatSideTriangleInt fuel x1 y1 x2 y1 x1 y1).1 ++
          (fillFlatSideTriangleInt fuel x3 y3 x2 y1 x1 y1).1,
        (fillFlatSideTriangleInt fuel x3 y3 x2 y1 x1 y1).2) := by
    unfold fillTriangleSplit
    simp only [hi0, wrap16_id x1 ⟨h16.1, h16.2.1⟩, wrap16_id y1 ⟨h16.2.2.1, h16.2.2.2⟩, l1,
      if_true]
  rw [hflat, hsplit]
  refine ⟨k1, m1, fun y => ?_, fun y => ?_, fun c hc => ?_, fun c hc => ?_⟩
  · rw [k4]
    omega
  · simp only [List.map_append, List.mem_append]
    rw [m4, l2]
    constructor
    · rintro (h | h) <;> omega
    · intro h
      exact Or.inr (by omega)
  · have := kx c hc
    omega
  · rcases List.mem_append.mp hc with h | h
    · have := l3 c h
      omega
    · have := mx c h
      omega

theorem spanPixels_subset_of_covered (A B : List (Int × Int × Int))
    (h : ∀ s ∈ A, ∃ t ∈ B, s.2.2 = t.2.2 ∧ min t.1 t.2.1 ≤ min s.1 s.2.1 ∧
      max s.1 s.2.1 ≤ max t.1 t.2.1) :
    ∀ p ∈ spanPixels A, p ∈ spanPixels B := by
  rintro ⟨i, j⟩ hp
  rw [mem_spanPixels] at hp ⊢
  obtain ⟨s, hs, hm⟩ := hp
  obtain ⟨t, ht, h1, h2, h3⟩ := h s hs
  refine ⟨t, ht, ?_⟩
  rw [mem_drawFastHLine] at hm ⊢
  refine ⟨?_, ?_, ?_, ?_, ?_⟩ <;> omega

theorem fillTriangle_example_pixels :
    ∀ p, p ∈ spanPixels (fillTriangleFlat 128 0 0 10 0 5 10).1 ↔
      p ∈ spanPixels (fillTriangleSplit 128 interpF32 0 0 10 0 5 10).1 := by
  have hA : (fillTriangleFlat 128 0 0 10 0 5 10).1 =
      [(5, 5, 10), (4, 6, 9), (4, 6, 8), (3, 7, 7), (3, 7, 6), (2, 8, 5), (2, 8, 4), (1, 9, 3),
        (1, 9, 2), (0, 10, 1), (0, 10, 0)] := by decide
  have hB : (fillTriangleSplit 128 interpF32 0 0 10 0 5 10).1 =
      [(0, 0, 0), (1, 0, 0), (2, 0, 0), (3, 0, 0), (4, 0, 0), (5, 0, 0), (6, 0, 0), (7, 0, 0),
        (8, 0, 0), (9, 0, 0), (10, 0, 0), (5, 5, 10), (6, 4, 9), (6, 4, 8), (7, 3, 7), (7, 3, 6),
        (8, 2, 5), (8, 2, 4), (9, 1, 3), (9, 1, 2), (10, 0, 1), (10, 0, 0)] := by decide
  rw [hA, hB]
  intro p
  constructor
  · exact spanPixels_subset_of_covered _ _ (by decide) p
  · exact spanPixels_subset_of_covered _ _ (by decide) p

theorem fillTriangleIntoImage_eq_split (fuel : Nat)
    (interp : Int → Int → Int → Int → Int → Int) (x1 y1 x2 y2 x3 y3 : Int)
    (h12 : y1 < y2) (h23 : y2 < y3) :
    fillTriangleIntoImage fuel interp x1 y1 x2 y2 x3 y3 =
      fillTriangleSplit fuel interp x1 y1 x2 y2 x3 y3 := by
  unfold fillTriangleIntoImage fillTriangleSplit
  rw [sortVertices_of_sorted x1 y1 x2 y2 x3 y3 h12.le h23.le]
  simp only [if_neg (ne_of_lt h23), if_neg (ne_of_lt h12)]

theorem fillTriangleIntoImage_eq_flat (fuel : Nat)
    (interp : Int → Int → Int → Int → Int → Int) (x1 y1 x2 y2 x3 y3 : Int)
    (h12 : y1 ≤ y2) (h23 : y2 ≤ y3) (hflat : y2 = y3 ∨ y1 = y2) :
    fillTriangleIntoImage fuel interp x1 y1 x2 y2 x3 y3 =
      fillTriangleFlat fuel x1 y1 x2 y2 x3 y3 := by
  unfold fillTriangleIntoImage fillTriangleFlat
  rw [sortVertices_of_sorted x1 y1 x2 y2 x3 y3 h12 h23]
  simp only
  by_cases h : y2 = y3
  · rw [if_pos h, if_pos h]
  · rw [if_neg h, if_neg h]
    rcases hflat with h2 | h2
    · exact absurd h2 h
    · rw [if_pos h2]

/-- C12 as amended: for sorted vertices inside the canvas with two of them on
one row, distinct, and the third on another row, and the split point
evaluated in binary32 as in the code: `fillTriangleIntoImage` takes the
flat-side shortcut; the shortcut and the general split-and-fill branch both
return once every loop may run 128 iterations; a row has a pixel stored by
the shortcut if and only if it has a pixel stored by the general branch,
and these are exactly the rows from `y1` to `y3`; and for the triangle
(0,0),(10,0),(5,10) the two routes store the same set of pixels. -/
theorem fillTriangle_routes_agree (fuel : Nat) (x1 y1 x2 y2 x3 y3 : Int) (hf : 128 ≤ fuel)
    (h1 : InBounds (x1, y1)) (h2 : InBounds (x2, y2)) (h3 : InBounds (x3, y3))
    (hs : y1 ≤ y2 ∧ y2 ≤ y3)
    (hflat : (y2 = y3 ∧ y1 ≠ y2 ∧ x2 ≠ x3) ∨ (y1 = y2 ∧ y2 ≠ y3 ∧ x1 ≠ x2)) :
    fillTriangleIntoImage fuel interpF32 x1 y1 x2 y2 x3 y3 =
      fillTriangleFlat fuel x1 y1 x2 y2 x3 y3 ∧
    (fillTriangleFlat fuel x1 y1 x2 y2 x3 y3).2 = true ∧
    (fillTriangleSplit fuel interpF32 x1 y1 x2 y2 x3 y3).2 = true ∧
    (∀ y, (∃ x, (x, y) ∈ spanPixels (fillTriangleFlat fuel x1 y1 x2 y2 x3 y3).1) ↔
      ∃ x, (x, y) ∈ spanPixels (fillTriangleSplit fuel interpF32 x1 y1 x2 y2 x3 y3).1) ∧
    (∀ y, (∃ x, (x, y) ∈ spanPixels (fillTriangleFlat fuel x1 y1 x2 y2 x3 y3).1) ↔
      y1 ≤ y ∧ y ≤ y3) ∧
    (∀ p, p ∈ spanPixels (fillTriangleFlat 128 0 0 10 0 5 10).1 ↔
      p ∈ spanPixels (fillTriangleSplit 128 interpF32 0 0 10 0 5 10).1) := by
  simp only [InBounds, WIDTH, HEIGHT] at h1 h2 h3
  have d1 := iabs_le_of_inBounds x1 x2 ⟨h1.1, h1.2.1⟩ ⟨h2.1, h2.2.1⟩
  have d2 := iabs_le_of_inBounds x1 x3 ⟨h1.1, h1.2.1⟩ ⟨h3.1, h3.2.1⟩
  have d3 := iabs_le_of_inBounds x3 x2 ⟨h3.1, h3.2.1⟩ ⟨h2.1, h2.2.1⟩
  have d4 := iabs_le_of_inBounds x3 x1 ⟨h3.1, h3.2.1⟩ ⟨h1.1, h1.2.1⟩
  have d5 := iabs_le_of_inBounds y1 y3 ⟨h1.2.2.1, h1.2.2.2⟩ ⟨h3.2.2.1, h3.2.2.2⟩
  have d6 := iabs_le_of_inBounds y3 y1 ⟨h3.2.2.1, h3.2.2.2⟩ ⟨h1.2.2.1, h1.2.2.2⟩
  refine ⟨fillTriangleIntoImage_eq_flat fuel interpF32 x1 y1 x2 y2 x3 y3 hs.1 hs.2
    (hflat.elim (fun h => Or.inl h.1) (fun h => Or.inr h.1)), ?_⟩
  rcases hflat with ⟨rfl, hy, hx⟩ | ⟨rfl, hy, hx⟩
  · obtain ⟨r1, r2, r3, r4, r5, r6⟩ := fillTriangle_routes_flat_bottom fuel interpF32 x1 y1 x2
      y2 x3 hf (interpF32_one x1 y1 x3 y2 (by omega) (by omega) (by omega)) hy hx
      (by omega) ⟨by omega, by omega, by omega, by omega⟩
    have p1 := spanPixels_rows _ (fun c hc => by have := r5 c hc; omega)
    have p2 := spanPixels_rows _ (fun c hc => by have := r6 c hc; omega)
    refine ⟨r1, r2, fun y => ?_, fun y => ?_, fillTriangle_example_pixels⟩
    · rw [p1, p2, r3, r4]
    · rw [p1, r3]
      omega
  · obtain ⟨r1, r2, r3, r4, r5, r6⟩ := fillTriangle_routes_flat_top fuel interpF32 x1 y1 x2
      x3 y3 hf (interpF32_zero x1 y1 x3 y3 (by omega)) hy hx
      (by omega) ⟨by omega, by omega, by omega, by omega⟩
    have p1 := spanPixels_rows _ (fun c hc => by have := r5 c hc; omega)
    have p2 := spanPixels_rows _ (fun c hc => by have := r6 c hc; omega)
    refine ⟨r1, r2, fun y => ?_, fun y => ?_, fillTriangle_example_pixels⟩
    · rw [p1, p2, r3, r4]
    · rw [p1, r3]
      omega

/-- C12, concrete instance of the amended statement: the flat-top triangle
(0,0),(10,0),(5,10), whose binary32 split point is (0,0). -/
theorem fillTriangle_routes_agree_witness :
    (128 ≤ 128) ∧ InBounds (0, 0) ∧ InBounds (10, 0) ∧ InBounds (5, 10) ∧
    ((0 : Int) ≤ 0 ∧ (0 : Int) ≤ 10) ∧ interpF32 0 0 0 5 10 = 0 ∧
    fillTriangleIntoImage 128 interpF32 0 0 10 0 5 10 = fillTriangleFlat 128 0 0 10 0 5 10 ∧
    (fillTriangleFlat 128 0 0 10 0 5 10).2 = true ∧
    (fillTriangleSplit 128 interpF32 0 0 10 0 5 10).2 = true ∧
    (∀ y, (∃ x, (x, y) ∈ spanPixels (fillTriangleFlat 128 0 0 10 0 5 10).1) ↔
      ∃ x, (x, y) ∈ spanPixels (fillTriangleSplit 128 interpF32 0 0 10 0 5 10).1) ∧
    (∀ y, (∃ x, (x, y) ∈ spanPixels (fillTriangleFlat 128 0 0 10 0 5 10).1) ↔
      0 ≤ y ∧ y ≤ 10) ∧
    (∀ p, p ∈ spanPixels (fillTriangleFlat 128 0 0 10 0 5 10).1 ↔
      p ∈ spanPixels (fillTriangleSplit 128 interpF32 0 0 10 0 5 10).1) := by
  have b1 : InBounds (0, 0) := by
    simp only [InBounds, WIDTH, HEIGHT]
    decide
  have b2 : InBounds (10, 0) := by
    simp only [InBounds, WIDTH, HEIGHT]
    decide
  have b3 : InBounds (5, 10) := by
    simp only [InBounds, WIDTH, HEIGHT]
    decide
  exact ⟨le_refl _, b1, b2, b3, by decide, by decide,
    fillTriangle_routes_agree 128 0 0 10 0 5 10 (le_refl _) b1 b2 b3 (by decide)
      (Or.inr ⟨rfl, by decide, by decide⟩)⟩

/-- C12 as stated fails: for the flat-bottom triangle (-23,0),(-5,5),(0,5)
`fillTriangleIntoImage` takes the shortcut, whose spans all lie left of the
canvas, so it stores no pixel and writes no row; the general branch on the
same vertices, with the binary32 split point (0,5), stores the pixel (0,5)
and so writes row 5. -/
theorem fillTriangle_routes_written_rows_differ :
    fillTriangleIntoImage 128 interpF32 (-23) 0 (-5) 5 0 5 =
      fillTriangleFlat 128 (-23) 0 (-5) 5 0 5 ∧
    interpF32 (-23) 0 5 0 5 = 0 ∧
    spanPixels (fillTriangleFlat 128 (-23) 0 (-5) 5 0 5).1 = [] ∧
    ((0 : Int), (5 : Int)) ∈ spanPixels (fillTriangleSplit 128 interpF32 (-23) 0 (-5) 5 0 5).1 := by
  refine ⟨by decide, by decide, by decide, by decide⟩

end Painter
